import Mathlib

/-!
# golog: a shallow embedding of `golog.go`

The logger of `golog.go` is embedded as pure functions over an explicit logger
state (`Logger`) and an explicit environment (`World`: the file system, the
clock and everything written so far).  A Go string is a sequence of bytes; a
call that panics or exits the process is an `Outcome` that keeps the state
reached at that point.
-/

namespace Golog

/-! ## Strings and machine integers -/

/-- A Go `string` or `[]byte`: a sequence of bytes, one `Char` per byte. -/
abbrev Bytes := List Char

/-- Two's-complement wrap-around of a 64-bit signed integer (`int64`, and `int`
on a 64-bit platform). -/
def wrapInt64 (x : Int) : Int :=
  (x + 9223372036854775808) % 18446744073709551616 - 9223372036854775808

/-- Conversion of an integer to a `byte`. -/
def toByte (x : Int) : Char := Char.ofNat (x % 256).toNat

/-! ## Types and constants of `golog.go` -/

/-- `type Level int`. -/
abbrev Level := Int

/-- `type Rolling int`. -/
abbrev Rolling := Int

def DebugLevel : Level := 0
def InfoLevel : Level := 1
def WarnLevel : Level := 2
def ErrorLevel : Level := 3
def LastLevel : Level := 4

def noRolling : Rolling := 0
def TimeRolling : Rolling := 1
def SizeRolling : Rolling := 2

def KB : Int := 1024
def MB : Int := KB * 1024
def MinSizeInterval : Int := 10 * KB
def Second : Int := 1
def Minute : Int := 60 * Second
def MinTimeInterval : Int := 10 * Second

def DebugFlag : Bytes := "debug".toList
def InfoFlag : Bytes := "info".toList
def WarnFlag : Bytes := "warn".toList
def ErrorFlag : Bytes := "error".toList
def TimeFlag : Bytes := "time".toList
def SizeFlag : Bytes := "size".toList

/-- The value of an `io.Writer` held by the logger: `nil` (the zero value),
`os.Stdout`, or the file opened at a path. -/
inductive Writer where
  | nil
  | stdout
  | file (fpath : Bytes)
  deriving DecidableEq, Repr

/-- `type Logger struct`; the mutex is not part of the sequential state. -/
structure Logger where
  level : Level
  output : Writer
  buf : Bytes
  dir : Bytes
  path : Bytes
  ext : Bytes
  rolling : Rolling
  interval : Int
  record : Int
  init : Bool
  deriving DecidableEq, Repr

/-- `var logger = &Logger{level: InfoLevel, init: false, rolling: noRolling}`:
every other field has its zero value. -/
def logger : Logger :=
  { level := InfoLevel, output := Writer.nil, buf := [], dir := [], path := [],
    ext := [], rolling := noRolling, interval := 0, record := 0, init := false }

/-- How a call ends: it returns (`done`), it panics (`panic`, with the panic
value), it ends the process through `os.Exit` (`exit`), or it never comes back
from a loop (`hang`).  In each case the state reached at that point is kept. -/
inductive Outcome (σ : Type) where
  | done (s : σ)
  | panic (msg : Bytes) (s : σ)
  | exit (code : Int) (s : σ)
  | hang (s : σ)
  deriving DecidableEq, Repr

/-- The state an outcome carries. -/
def Outcome.state {σ : Type} : Outcome σ → σ
  | .done s => s
  | .panic _ s => s
  | .exit _ s => s
  | .hang s => s

/-- Sequencing: the rest of the code runs only after a normal return. -/
def Outcome.andThen {σ τ : Type} (o : Outcome σ) (lift : σ → τ) (k : σ → Outcome τ) :
    Outcome τ :=
  match o with
  | .done s => k s
  | .panic msg s => .panic msg (lift s)
  | .exit code s => .exit code (lift s)
  | .hang s => .hang (lift s)

/-- Whether the call returned normally. -/
def Outcome.isDone {σ : Type} : Outcome σ → Bool
  | .done _ => true
  | _ => false

/-! ## Configuration: `Level` -/

/-- `func (l *Logger) Level(flag string) *Logger`. -/
def Logger.Level (l : Logger) (flag : Bytes) : Outcome Logger :=
  if flag = DebugFlag then .done { l with level := DebugLevel }
  else if flag = InfoFlag then .done { l with level := InfoLevel }
  else if flag = WarnFlag then .done { l with level := WarnLevel }
  else if flag = ErrorFlag then .done { l with level := ErrorLevel }
  else .panic ("log flag ".toList ++ flag ++ " not support(debug,info,warn,error)".toList) l

/-! ## Library functions used by `golog.go` (Unix: the separator is `/`) -/

/-- `strings.Contains(s, substr)`. -/
def strings.Contains : Bytes → Bytes → Bool
  | [], substr => substr.isEmpty
  | c :: s, substr => substr.isPrefixOf (c :: s) || strings.Contains s substr

/-- `strings.TrimSuffix(s, suffix)`. -/
def strings.TrimSuffix (s suffix : Bytes) : Bytes :=
  if suffix.isSuffixOf s then s.take (s.length - suffix.length) else s

/-- The backwards scan of `path.Ext`: `rev` holds the bytes not yet visited,
last byte first, and `acc` the bytes already passed. -/
def path.extScan : Bytes → Bytes → Bytes
  | [], _ => []
  | c :: rev, acc =>
    if c = '/' then [] else if c = '.' then c :: acc else path.extScan rev (c :: acc)

/-- `path.Ext(path)`: the suffix beginning at the final dot of the final
element of the path, empty if there is no dot. -/
def path.Ext (p : Bytes) : Bytes := path.extScan p.reverse []

/-- `filepath.Base(path)`: the last element of the path; trailing separators
are removed first, `.` for the empty path, `/` for a path of separators only. -/
def filepath.Base (p : Bytes) : Bytes :=
  if p = [] then ['.']
  else
    -- strip trailing slashes
    let p := (p.reverse.dropWhile (· = '/')).reverse
    -- find the last element
    let p := (p.reverse.takeWhile (· ≠ '/')).reverse
    -- if empty now, it had only slashes
    if p = [] then ['/'] else p

/-- The `..` step of `filepath.Clean` on the output buffer, held last byte
first: `w--`, then `w--` again while `w > dotdot` and the byte at `w` is no
separator. -/
def filepath.backtrack (dotdot : Nat) : Bytes → Bytes
  | [] => []
  | c :: out => if out.length > dotdot ∧ c ≠ '/' then filepath.backtrack dotdot out else out

/-- The main loop of `filepath.Clean`: `inp` is the unread part of the path,
`out` the output buffer (last byte first), `dotdot` the index where `..` must
stop.  Every turn reads at least one byte, so `inp.length` turns suffice. -/
def filepath.cleanLoop (rooted : Bool) : Nat → Bytes → Bytes → Nat → Bytes
  | 0, _, out, _ => out
  | _ + 1, [], out, _ => out
  | fuel + 1, c :: rest, out, dotdot =>
    if c = '/' then
      -- empty path element
      filepath.cleanLoop rooted fuel rest out dotdot
    else if c = '.' ∧ (rest = [] ∨ rest.head? = some '/') then
      -- . element
      filepath.cleanLoop rooted fuel rest out dotdot
    else if c = '.' ∧ rest.head? = some '.' ∧
        (rest.tail = [] ∨ rest.tail.head? = some '/') then
      -- .. element: remove to last separator
      if out.length > dotdot then
        filepath.cleanLoop rooted fuel rest.tail (filepath.backtrack dotdot out) dotdot
      else if !rooted then
        let out1 := if out.length > 0 then '/' :: out else out
        let out2 := '.' :: '.' :: out1
        filepath.cleanLoop rooted fuel rest.tail out2 out2.length
      else
        filepath.cleanLoop rooted fuel rest.tail out dotdot
    else
      -- real path element: add slash if needed, then copy the element
      let out1 :=
        if (rooted ∧ out.length ≠ 1) ∨ (¬ rooted ∧ out.length ≠ 0) then '/' :: out else out
      let elem := (c :: rest).takeWhile (· ≠ '/')
      filepath.cleanLoop rooted fuel ((c :: rest).dropWhile (· ≠ '/')) (elem.reverse ++ out1) dotdot

/-- `filepath.Clean(path)`: the shortest path name equivalent to `path` by
purely lexical processing. -/
def filepath.Clean (p : Bytes) : Bytes :=
  match p with
  | [] => ['.']
  | c :: rest =>
    let out :=
      if c = '/' then filepath.cleanLoop true (p.length + 1) rest ['/'] 1
      else filepath.cleanLoop false (p.length + 1) p [] 0
    -- turn empty string into "."
    if out = [] then ['.'] else out.reverse

/-- `filepath.Dir(path)`: all but the last element of the path, cleaned. -/
def filepath.Dir (p : Bytes) : Bytes :=
  filepath.Clean (p.reverse.dropWhile (· ≠ '/')).reverse

/-- `path.Dir(path)`; on Unix it is `filepath.Dir`. -/
def path.Dir (p : Bytes) : Bytes := filepath.Dir p

/-- `filepath.Join(a, b)`: the elements from the first non-empty one on are
joined with the separator and cleaned; empty if every element is empty. -/
def filepath.Join (a b : Bytes) : Bytes :=
  if a ≠ [] then filepath.Clean (a ++ '/' :: b)
  else if b ≠ [] then filepath.Clean b
  else []

/-- The verb `%d` of `fmt.Sprintf` at an `int`: decimal digits, with a minus
sign for a negative number. -/
def fmtD (x : Int) : Bytes :=
  if x < 0 then '-' :: Nat.toDigits 10 (-x).toNat else Nat.toDigits 10 x.toNat

/-! ## The environment -/

/-- What the logger does to the outside, in order. -/
inductive Event where
  /-- `l.output.Write([]byte(msg))` on the target `target`. -/
  | write (target : Writer) (msg : Bytes)
  /-- `fmt.Println(line)`: a line the logger prints on standard output itself. -/
  | println (line : Bytes)
  /-- `os.MkdirAll(dir, os.ModePerm)`. -/
  | mkdirAll (dir : Bytes)
  /-- `os.Create(fpath)`. -/
  | create (fpath : Bytes)
  /-- `os.OpenFile(fpath, os.O_WRONLY|os.O_APPEND, 0644)`. -/
  | openAppend (fpath : Bytes)
  deriving DecidableEq, Repr

/-- The environment of the logger.  `existing` holds the paths for which
`os.Stat` succeeds; `openErr` gives the error of `os.MkdirAll`, `os.Create`
and `os.OpenFile` at a path and `writeErr` the error of `Write` on a target,
when there is one; `clock` gives the successive readings of `time.Now().Unix()`, of which `ticks`
have been taken; `dateOf` and `timeOf` render a reading as `2006-01-02` and as
`15:04:05` in the local time zone; `events` is what has been done so far,
oldest first. -/
structure World where
  existing : List Bytes
  openErr : Bytes → Option Bytes
  writeErr : Writer → Option Bytes
  clock : Nat → Int
  ticks : Nat
  dateOf : Int → Bytes
  timeOf : Int → Bytes
  events : List Event

/-- `time.Now().Unix()`: the next reading of the clock. -/
def World.now (w : World) : Int × World :=
  (w.clock w.ticks, { w with ticks := w.ticks + 1 })

/-- Append an event to the history. -/
def World.emit (w : World) (e : Event) : World :=
  { w with events := w.events ++ [e] }

/-- The `Write` calls of a history, oldest first, each with its target. -/
def writesOf : List Event → List (Writer × Bytes)
  | [] => []
  | .write t m :: es => (t, m) :: writesOf es
  | _ :: es => writesOf es

/-- `func isExist(path string) bool`: whether `os.Stat` succeeds.  An error
other than "does not exist" also gives `false`; the line it logs on standard
error is outside the model. -/
def isExist (w : World) (path : Bytes) : Bool := decide (path ∈ w.existing)

/-! ## Formatting -/

/-- `func red(s string) string`. -/
def red (s : Bytes) : Bytes := "\x1b[31;3m".toList ++ s ++ "\x1b[0m".toList

/-- `func green(s string) string`. -/
def green (s : Bytes) : Bytes := "\x1b[32;3m".toList ++ s ++ "\x1b[0m".toList

/-- `func yellow(s string) string`. -/
def yellow (s : Bytes) : Bytes := "\x1b[33;3m".toList ++ s ++ "\x1b[0m".toList

/-- `func blue(s string) string`. -/
def blue (s : Bytes) : Bytes := "\x1b[36;3m".toList ++ s ++ "\x1b[0m".toList

/-- The loop of `itoa` over the scratch array `b`, run for at most `fuel`
turns; `none` is an index outside `b`, a run-time panic.  The sum
`'0' + i - q*10` is taken without wrap-around: the conversion to `byte` keeps
its low eight bits only, which wrap-around does not change. -/
def itoaLoop : Nat → List Char → Int → Int → Int → Option (List Char × Int × Int)
  | 0, _, _, _, _ => none
  | fuel + 1, b, bp, i, wid =>
    if i ≥ 10 ∨ wid > 1 then
      let wid := wrapInt64 (wid - 1)
      let q := Int.tdiv i 10
      if 0 ≤ bp ∧ bp < 20 then
        itoaLoop fuel (b.set bp.toNat (toByte (48 + i - q * 10))) (bp - 1) q wid
      else none
    else some (b, bp, i)

/-- `func itoa(buf *[]byte, i int, wid int)`: the new contents of `buf`.  A
turn of the loop lowers `bp` by one from 19 and panics below 0, so 21 turns
are never used up. -/
def itoa (buf : Bytes) (i : Int) (wid : Int) : Option Bytes :=
  match itoaLoop 21 (List.replicate 20 (Char.ofNat 0)) 19 i wid with
  | none => none
  | some (b, bp, i) =>
    if 0 ≤ bp ∧ bp < 20 then
      some (buf ++ (b.set bp.toNat (toByte (48 + i))).drop bp.toNat)
    else none

/-- `func prefix(buf *[]byte, file string, line int)`: the new contents of
`buf`. -/
def prefix_ (buf : Bytes) (file : Bytes) (line : Int) : Option Bytes :=
  let buf := buf ++ [' ']
  let buf := buf ++ filepath.Base file
  let buf := buf ++ [':']
  match itoa buf line (-1) with
  | none => none
  | some buf => some (buf ++ " ".toList)

/-- `func printStruct(prefix, msg string, color func(string) string) string`. -/
def printStruct (w : World) (pfx msg : Bytes) (color : Bytes → Bytes) : Bytes × World :=
  let (now, w) := w.now
  let time1 := w.dateOf now
  let time2 := w.timeOf now
  (color ("[".toList ++ pfx ++ "|".toList ++ time1 ++ "|".toList ++ time2 ++ "]".toList ++ msg), w)

/-- `func localPrint(prefix, msg string, color func(string) string)`. -/
def localPrint (w : World) (pfx msg : Bytes) (color : Bytes → Bytes) : World :=
  let (line, w) := printStruct w pfx msg color
  w.emit (.println line)

/-! ## Opening the output target -/

/-- `func logfile(fpath string) (io.Writer, error)`. -/
def logfile (w : World) (fpath : Bytes) : Except Bytes Writer × World :=
  if isExist w fpath then
    let w := localPrint w "Warn".toList "log file exist, append it".toList yellow
    let w := w.emit (.openAppend fpath)
    match w.openErr fpath with
    | some err => (.error err, w)
    | none => (.ok (.file fpath), w)
  else
    let w := w.emit (.mkdirAll (path.Dir fpath))
    match w.openErr (path.Dir fpath) with
    | some err => (.error err, w)
    | none =>
      let w := { w with existing := path.Dir fpath :: w.existing }
      let w := w.emit (.create fpath)
      match w.openErr fpath with
      | some err => (.error err, w)
      | none => (.ok (.file fpath), { w with existing := fpath :: w.existing })

/-- The `for` loop of `initialize`: `fpath` is tested, then the names with
`_count`, `_count+1`, ... in turn; `none` when `fuel` tests found no free name. -/
def freshPath (w : World) (base ext : Bytes) : Nat → Bytes → Int → Option Bytes
  | 0, _, _ => none
  | fuel + 1, fpath, count =>
    if !isExist w fpath then some fpath
    else
      freshPath w base ext fuel (base ++ "_".toList ++ fmtD count ++ ext) (wrapInt64 (count + 1))

/-- The first part of `initialize`: the path to open.  Without a rolling mode
it is `<dir>/<path><ext>`; with one the `for` loop looks for a free name.  The
loop is given `existing.length + 2` tests: the names it tests are pairwise
distinct until the counter comes round, so when that many tests find no free
name the loop never ends (`none`). -/
def Logger.targetPath (l : Logger) (w : World) : Option Bytes :=
  let base := filepath.Join l.dir l.path
  let fpath := base ++ l.ext
  if l.rolling ≠ noRolling then freshPath w base l.ext (w.existing.length + 2) fpath 1
  else some fpath

/-- The last part of `initialize`, once `logfile` has returned `output`: the
new target, the reset of `record` and the init flag. -/
def Logger.opened (l : Logger) (w : World) (output : Writer) : Logger × World :=
  let l := { l with output := output }
  let lw := if l.rolling = TimeRolling then ({ l with record := w.now.1 }, w.now.2) else (l, w)
  let l := if lw.1.rolling = SizeRolling then { lw.1 with record := 0 } else lw.1
  ({ l with init := true }, lw.2)

/-- `func (l *Logger) initialize()`. -/
def Logger.initialize (l : Logger) (w : World) : Outcome (Logger × World) :=
  if l.dir ≠ [] ∧ l.path ≠ [] then
    match Logger.targetPath l w with
    | none => .hang (l, w)
    | some fpath =>
      match logfile w fpath with
      | (.error err, w) => .panic ("initialize log file error: ".toList ++ err) (l, w)
      | (.ok output, w) => .done (Logger.opened l w output)
  else
    .done ({ l with output := .stdout, init := true }, w)

/-! ## Writing -/

/-- The end of `foutput`: `l.output.Write([]byte(msg))` and, when it fails, the
two lines on standard output.  A `nil` target is a nil dereference. -/
def Logger.outputWrite (l : Logger) (w : World) (msg : Bytes) : Outcome (Logger × World) :=
  match l.output with
  | .nil => .panic "invalid memory address or nil pointer dereference".toList (l, w)
  | out =>
    let w := w.emit (.write out msg)
    match w.writeErr out with
    | some err =>
      let w := localPrint w "Error".toList ("log output error ".toList ++ err ++ "\n".toList) red
      let w := localPrint w "OutPut".toList msg blue
      .done (l, w)
    | none => .done (l, w)

/-- The rotation test of `foutput` in time mode. -/
def Logger.timeCheck (l : Logger) (w : World) : Outcome (Logger × World) :=
  if l.rolling = TimeRolling then
    if wrapInt64 (l.record + l.interval) < w.now.1 then Logger.initialize l w.now.2
    else .done (l, w.now.2)
  else .done (l, w)

/-- The rotation test of `foutput` in size mode, and the count of `msg`. -/
def Logger.sizeCheck (l : Logger) (w : World) (msg : Bytes) : Outcome (Logger × World) :=
  if l.rolling = SizeRolling then
    (if l.record > l.interval then Logger.initialize l w else .done (l, w)).andThen id
      fun lw => .done ({ lw.1 with record := wrapInt64 (lw.1.record + msg.length) }, lw.2)
  else .done (l, w)

/-- `func (l *Logger) foutput(msg string)`, for the shared logger. -/
def Logger.foutput (l : Logger) (w : World) (msg : Bytes) : Outcome (Logger × World) :=
  (if !l.init then Logger.initialize l w else .done (l, w)).andThen id fun lw =>
  (Logger.timeCheck lw.1 lw.2).andThen id fun lw =>
  (Logger.sizeCheck lw.1 lw.2 msg).andThen id fun lw =>
  Logger.outputWrite lw.1 lw.2 msg

/-- The file that `logPrint` takes from `runtime.Caller(2)`: `???` when the
call fails. -/
def callerFile (caller : Option (Bytes × Int)) : Bytes :=
  match caller with
  | some (file, _) => file
  | none => "???".toList

/-- The line that `logPrint` takes from `runtime.Caller(2)`: 0 when the call
fails. -/
def callerLine (caller : Option (Bytes × Int)) : Int :=
  match caller with
  | some (_, line) => line
  | none => 0

/-- `func (l *Logger) logPrint(level Level, s string, lineFeed bool)`.
`caller` is what `runtime.Caller(2)` reports: the file and line, or `none`
when it fails. -/
def Logger.logPrint (l : Logger) (w : World) (caller : Option (Bytes × Int))
    (level : Golog.Level) (s : Bytes) (lineFeed : Bool) : Outcome (Logger × World) :=
  let file := callerFile caller
  let line := callerLine caller
  let l := { l with buf := l.buf.take 0 }
  match prefix_ l.buf file line with
  | none => .panic "index out of range".toList (l, w)
  | some buf =>
    let l := { l with buf := buf }
    let l := { l with buf := l.buf ++ s }
    let emit (pfx : Bytes) (color : Bytes → Bytes) : Outcome (Logger × World) :=
      let logstr := (printStruct w pfx l.buf color).1
      let w := (printStruct w pfx l.buf color).2
      let logstr := if lineFeed then logstr ++ "\n".toList else logstr
      Logger.foutput l w logstr
    if level = ErrorLevel then emit "E".toList red
    else if level = WarnLevel then emit "W".toList yellow
    else if level = InfoLevel then emit "I".toList green
    else if level = DebugLevel then emit "D".toList blue
    else .done (l, w)

/-! ## The emit operations

`s` is the rendered message: `fmt.Sprint(args...)` for a variadic form,
`fmt.Sprintf(format, args...)` for a formatted form. -/

/-- `func Debug(args ...interface{})`. -/
def Debug (l : Logger) (w : World) (caller : Option (Bytes × Int)) (s : Bytes) :
    Outcome (Logger × World) :=
  if DebugLevel < l.level then .done (l, w)
  else Logger.logPrint l w caller DebugLevel s true

/-- `func Debugf(format string, args ...interface{})`. -/
def Debugf (l : Logger) (w : World) (caller : Option (Bytes × Int)) (s : Bytes) :
    Outcome (Logger × World) :=
  if DebugLevel < l.level then .done (l, w)
  else Logger.logPrint l w caller DebugLevel s false

/-- `func Info(args ...interface{})`. -/
def Info (l : Logger) (w : World) (caller : Option (Bytes × Int)) (s : Bytes) :
    Outcome (Logger × World) :=
  if InfoLevel < l.level then .done (l, w)
  else Logger.logPrint l w caller InfoLevel s true

/-- `func Infof(format string, args ...interface{})`. -/
def Infof (l : Logger) (w : World) (caller : Option (Bytes × Int)) (s : Bytes) :
    Outcome (Logger × World) :=
  if InfoLevel < l.level then .done (l, w)
  else Logger.logPrint l w caller InfoLevel s false

/-- `func Warn(args ...interface{})`. -/
def Warn (l : Logger) (w : World) (caller : Option (Bytes × Int)) (s : Bytes) :
    Outcome (Logger × World) :=
  if WarnLevel < l.level then .done (l, w)
  else Logger.logPrint l w caller WarnLevel s true

/-- `func Warnf(format string, args ...interface{})`. -/
def Warnf (l : Logger) (w : World) (caller : Option (Bytes × Int)) (s : Bytes) :
    Outcome (Logger × World) :=
  if WarnLevel < l.level then .done (l, w)
  else Logger.logPrint l w caller WarnLevel s false

/-- `func Error(args ...interface{})`. -/
def Error (l : Logger) (w : World) (caller : Option (Bytes × Int)) (s : Bytes) :
    Outcome (Logger × World) :=
  if ErrorLevel < l.level then .done (l, w)
  else Logger.logPrint l w caller ErrorLevel s true

/-- `func Errorf(format string, args ...interface{})`. -/
def Errorf (l : Logger) (w : World) (caller : Option (Bytes × Int)) (s : Bytes) :
    Outcome (Logger × World) :=
  if ErrorLevel < l.level then .done (l, w)
  else Logger.logPrint l w caller ErrorLevel s false

/-- `func Fatal(args ...interface{})`. -/
def Fatal (l : Logger) (w : World) (caller : Option (Bytes × Int)) (s : Bytes) :
    Outcome (Logger × World) :=
  (Logger.logPrint l w caller ErrorLevel s true).andThen id fun lw => .exit 1 lw

/-- `func Fatalf(format string, args ...interface{})`. -/
def Fatalf (l : Logger) (w : World) (caller : Option (Bytes × Int)) (s : Bytes) :
    Outcome (Logger × World) :=
  (Logger.logPrint l w caller ErrorLevel s false).andThen id fun lw => .exit 1 lw

/-! ## Configuration: `LogFile` and `Rolling` -/

/-- `func (l *Logger) LogFile(logf string) *Logger`. -/
def Logger.LogFile (l : Logger) (logf : Bytes) : Outcome Logger :=
  let dir := filepath.Dir logf
  let file := filepath.Base logf
  let ext := path.Ext file
  let name := strings.TrimSuffix file ext
  if dir = [] ∨ file = [] then .panic "invalid log file".toList l
  else if strings.Contains file "/".toList then .panic "invalid path".toList l
  else .done { l with dir := dir, path := name, ext := ext }

/-- `func (l *Logger) Rolling(flag string, interval int64) *Logger`. -/
def Logger.Rolling (l : Logger) (w : World) (flag : Bytes) (interval : Int) :
    Outcome (Logger × World) :=
  if l.dir = [] ∨ l.path = [] then .panic "please set log file first".toList (l, w)
  else
    let l :=
      if flag = TimeFlag then { l with rolling := TimeRolling }
      else if flag = SizeFlag then { l with rolling := SizeRolling }
      else { l with rolling := noRolling }
    if l.rolling ≠ noRolling ∧ interval ≤ 0 then .panic "invalid interval value".toList (l, w)
    else
      let l := { l with interval := interval }
      if l.rolling = TimeRolling then
        if l.interval < MinTimeInterval then
          .done (l, localPrint w "Warn".toList "time rolling interval too small".toList yellow)
        else .done (l, w)
      else if l.rolling = SizeRolling then
        if l.interval < MinSizeInterval then
          .done (l, localPrint w "Warn".toList "size rolling interval too small".toList yellow)
        else .done (l, w)
      else .panic "invalid rolling type".toList (l, w)

/-! ## Vocabulary of the specification -/

/-- The eight level-gated emit operations. -/
inductive EmitOp where
  | debug | debugf | info | infof | warn | warnf | error | errorf
  deriving DecidableEq, Repr

/-- The level of an emit operation. -/
def EmitOp.level : EmitOp → Level
  | .debug | .debugf => DebugLevel
  | .info | .infof => InfoLevel
  | .warn | .warnf => WarnLevel
  | .error | .errorf => ErrorLevel

/-- Whether the operation is a variadic form (`Debug`) rather than a formatted
form (`Debugf`). -/
def EmitOp.variadic : EmitOp → Bool
  | .debug | .info | .warn | .error => true
  | .debugf | .infof | .warnf | .errorf => false

/-- The function of `golog.go` behind an emit operation. -/
def EmitOp.run : EmitOp → Logger → World → Option (Bytes × Int) → Bytes →
    Outcome (Logger × World)
  | .debug => Debug
  | .debugf => Debugf
  | .info => Info
  | .infof => Infof
  | .warn => Warn
  | .warnf => Warnf
  | .error => Error
  | .errorf => Errorf

/-- The level character of the line format: `D`, `I`, `W`, `E`. -/
def levelChar (level : Level) : Bytes :=
  if level = DebugLevel then "D".toList
  else if level = InfoLevel then "I".toList
  else if level = WarnLevel then "W".toList
  else "E".toList

/-- The colour wrapper of the line format: blue for debug, green for info,
yellow for warn, red for error. -/
def levelColor (level : Level) : Bytes → Bytes :=
  if level = DebugLevel then blue
  else if level = InfoLevel then green
  else if level = WarnLevel then yellow
  else red

/-- The canonical decimal digits of a natural number. -/
def decimal (n : Nat) : Bytes := Nat.toDigits 10 n

/-- The line format of the specification:
`[<LEVELCHAR>|<YYYY-MM-DD>|<HH:MM:SS>] <basefilename>:<line> <message>` in the
colour of the level, with a line feed after it for a variadic form. -/
def specLine (level : Level) (date time file : Bytes) (line : Nat) (m : Bytes)
    (variadic : Bool) : Bytes :=
  levelColor level
      ("[".toList ++ levelChar level ++ "|".toList ++ date ++ "|".toList ++ time ++ "] ".toList
        ++ filepath.Base file ++ ":".toList ++ decimal line ++ " ".toList ++ m)
    ++ (if variadic then "\n".toList else [])

/-- The scratch buffer after a call of `logPrint`. -/
def scratchOf (caller : Option (Bytes × Int)) (s : Bytes) : Bytes :=
  " ".toList ++ filepath.Base (callerFile caller) ++ ":".toList
    ++ decimal (callerLine caller).toNat ++ " ".toList ++ s

/-- The line that `logPrint` builds for a caller, a message and a clock. -/
def lineOf (w : World) (level : Level) (caller : Option (Bytes × Int)) (s : Bytes)
    (lineFeed : Bool) : Bytes :=
  specLine level (w.dateOf (w.clock w.ticks)) (w.timeOf (w.clock w.ticks)) (callerFile caller)
    (callerLine caller).toNat s lineFeed

/-- The names the re-open procedure tries, in order: `<base><ext>`, then
`<base>_1<ext>`, `<base>_2<ext>`, ... -/
def candidate (base ext : Bytes) (k : Nat) : Bytes :=
  if k = 0 then base ++ ext else base ++ "_".toList ++ decimal k ++ ext

/-- The mode a rolling flag asks for. -/
def modeOf (flag : Bytes) : Rolling := if flag = TimeFlag then TimeRolling else SizeRolling

/-- The recommended minimum of the interval in a mode. -/
def minimumOf (flag : Bytes) : Int := if flag = TimeFlag then MinTimeInterval else MinSizeInterval

/-- The warning printed for an interval below the recommended minimum. -/
def warningOf (flag : Bytes) : Bytes :=
  if flag = TimeFlag then "time rolling interval too small".toList
  else "size rolling interval too small".toList

/-- The number a string of decimal digits stands for. -/
def parseDecimal (digits : Bytes) : Nat :=
  digits.foldl (fun acc c => acc * 10 + (c.toNat - 48)) 0

/-- The environment after `logfile` has created the file `p`. -/
def World.created (w : World) (p : Bytes) : World :=
  { w with
    existing := p :: path.Dir p :: w.existing,
    events := w.events ++ [.mkdirAll (path.Dir p), .create p] }

/-- The target of the logger is open in the environment: it is not `nil`, and
when it is a file the file exists. -/
def targetOpen (l : Logger) (w : World) : Prop :=
  l.output ≠ Writer.nil ∧ ∀ q, l.output = Writer.file q → q ∈ w.existing

/-! ## Sample states -/

/-- An environment with the given existing paths and clock, no I/O error and
an empty history; every reading is rendered as `2006-01-02` and `15:04:05`. -/
def World.sample (existing : List Bytes) (clock : Nat → Int) : World where
  existing := existing
  openErr := fun _ => none
  writeErr := fun _ => none
  clock := clock
  ticks := 0
  dateOf := fun _ => "2006-01-02".toList
  timeOf := fun _ => "15:04:05".toList
  events := []

/-- The shared logger after `LogFile("./tmp/test.log")`. -/
def fileLogger : Logger :=
  { logger with dir := "tmp".toList, path := "test".toList, ext := ".log".toList }

/-- A logger that writes to `tmp/test.log`, in the given rolling mode. -/
def openLogger (rolling : Rolling) (interval record : Int) : Logger :=
  { fileLogger with
    output := .file "tmp/test.log".toList, rolling := rolling, interval := interval,
    record := record, init := true }

/-! ## Runs of the logger -/

/-- The logger states reachable from the default instance by calls of `Level`,
`LogFile`, `Rolling` and the emit operations, in any environment.  A call that
panics is a step as well: it leaves the fields as they were when it panicked,
as a recovered panic does in Go. -/
inductive Reachable : Logger → Prop where
  | start : Reachable logger
  | level {l : Logger} (flag : Bytes) : Reachable l → Reachable (Logger.Level l flag).state
  | logFile {l : Logger} (p : Bytes) : Reachable l → Reachable (Logger.LogFile l p).state
  | rolling {l : Logger} (w : World) (flag : Bytes) (interval : Int) :
      Reachable l → Reachable (Logger.Rolling l w flag interval).state.1
  | emit {l : Logger} (op : EmitOp) (w : World) (caller : Option (Bytes × Int)) (s : Bytes) :
      Reachable l → Reachable (op.run l w caller s).state.1

/-- A run of writes: `foutput` on each message in turn, as long as the calls
return. -/
def writeAll (l : Logger) (w : World) : List Bytes → Outcome (Logger × World)
  | [] => .done (l, w)
  | m :: ms => ( Logger.foutput l w m).andThen id fun lw => writeAll lw.1 lw.2 ms

/-- The number of bytes in a list of messages. -/
def byteCount : List Bytes → Int
  | [] => 0
  | m :: ms => (m.length : Int) + byteCount ms

/-- The messages of a list of targets, each with the messages written to it,
in order. -/
def messagesOf : List (Writer × List Bytes) → List Bytes
  | [] => []
  | b :: bs => b.2 ++ messagesOf bs

/-- The `Write` calls that fill a list of targets one after the other, each
message whole. -/
def writesInto : List (Writer × List Bytes) → List (Writer × Bytes)
  | [] => []
  | b :: bs => b.2.map (fun m => (b.1, m)) ++ writesInto bs

/-- What holds after a run of size-mode writes that started at the logger `l`
in the environment `w` and has reached `l'` in `w'`: `closed` are the targets
that were rotated away, each with its messages, and `cur` the messages written
to the current target. -/
structure SizeRun (l : Logger) (w : World) (msgs : List Bytes) (l' : Logger) (w' : World)
    (closed : List (Writer × List Bytes)) (cur : List Bytes) : Prop where
  writes : writesOf w'.events = writesOf w.events ++ writesInto (closed ++ [(l'.output, cur)])
  messages : msgs = messagesOf (closed ++ [(l'.output, cur)])
  record : l'.record = byteCount cur
  distinct : ((closed ++ [(l'.output, cur)]).map Prod.fst).Nodup
  first : ((closed ++ [(l'.output, cur)]).map Prod.fst).head? = some l.output
  full : ∀ b ∈ closed, l.interval < byteCount b.2 ∧
    ∃ ini last, b.2 = ini ++ [last] ∧ byteCount ini ≤ l.interval
  current : cur = [] ∨ ∃ ini last, cur = ini ++ [last] ∧ byteCount ini ≤ l.interval
  onDisk : ∀ b ∈ closed ++ [(l'.output, cur)], ∀ q, b.1 = Writer.file q → q ∈ w'.existing
  logger : l'.init = true ∧ l'.rolling = SizeRolling ∧ l'.dir = l.dir ∧ l'.path = l.path ∧
    l'.interval = l.interval ∧ l'.output ≠ Writer.nil
  world : w'.openErr = w.openErr ∧ w'.existing.length ≤ w.existing.length + 2 * msgs.length

/-! ## Paths as lists of elements -/

/-- Path elements joined by the separator. -/
def joinElems : List Bytes → Bytes
  | [] => []
  | [e] => e
  | e :: e2 :: es => e ++ '/' :: joinElems (e2 :: es)

/-- The output buffer of `filepath.Clean` (last byte first) after a real path
element is copied to it, with a separator in front when the buffer holds more
than the root. -/
def filepath.appendElem (rooted : Bool) (out e : Bytes) : Bytes :=
  e.reverse ++ (if (rooted ∧ out.length ≠ 1) ∨ (¬ rooted ∧ out.length ≠ 0) then '/' :: out else out)

/-- What one turn of `filepath.Clean` over a whole path element `e` does to
the output buffer and to `dotdot`. -/
def filepath.cleanStep (rooted : Bool) (s : Bytes × Nat) (e : Bytes) : Bytes × Nat :=
  if e = [] ∨ e = ['.'] then s
  else if e = ['.', '.'] then
    if s.1.length > s.2 then (filepath.backtrack s.2 s.1, s.2)
    else if !rooted then
      ('.' :: '.' :: (if s.1.length > 0 then '/' :: s.1 else s.1),
        ('.' :: '.' :: (if s.1.length > 0 then '/' :: s.1 else s.1)).length)
    else s
  else (filepath.appendElem rooted s.1 e, s.2)

/-- A real path element: not empty, not `.`, not `..`, and without separator. -/
def RealElem (e : Bytes) : Prop :=
  e ≠ [] ∧ e ≠ ['.'] ∧ e ≠ ['.', '.'] ∧ '/' ∉ e

/-- The output buffer of `filepath.Clean` before the loop: the separator for a
rooted path, nothing otherwise. -/
def filepath.root (rooted : Bool) : Bytes := if rooted then ['/'] else []

/-- The end of `filepath.Clean`: an empty buffer is turned into `.`. -/
def filepath.render (out : Bytes) : Bytes := if out = [] then ['.'] else out.reverse

/-- The states `(out, dotdot)` the loop of `filepath.Clean` can be in between
two path elements. -/
inductive filepath.Valid (r : Bool) : Bytes → Nat → Prop
  | start : filepath.Valid r (filepath.root r) (filepath.root r).length
  | dots (out : Bytes) : r = false → filepath.Valid r out out.length →
      filepath.Valid r ('.' :: '.' :: (if out.length > 0 then '/' :: out else out))
        ('.' :: '.' :: (if out.length > 0 then '/' :: out else out)).length
  | real (out : Bytes) (dd : Nat) (e : Bytes) : filepath.Valid r out dd → RealElem e →
      filepath.Valid r (filepath.appendElem r out e) dd

/-! # Lemmas -/

/-! ## Machine integers and decimal digits -/

theorem wrapInt64_of_range {x : Int} (h1 : -9223372036854775808 ≤ x)
    (h2 : x < 9223372036854775808) : wrapInt64 x = x := by
  unfold wrapInt64
  omega

theorem toDigitsCore_fuel : ∀ (f n : Nat) (ds : List Char) (g : Nat), n < f → n < g →
    Nat.toDigitsCore 10 f n ds = Nat.toDigitsCore 10 g n ds := by
  intro f
  induction f with
  | zero => intro n ds g h; omega
  | succ f ih =>
    intro n ds g hf hg
    obtain ⟨g, rfl⟩ : ∃ g', g = g' + 1 := ⟨g - 1, by omega⟩
    simp only [Nat.toDigitsCore]
    by_cases h0 : n / 10 = 0
    · simp [h0]
    · simp only [h0, if_false]
      have : n / 10 < n := Nat.div_lt_self (by omega) (by decide)
      exact ih _ _ _ (by omega) (by omega)

theorem toDigitsCore_small (n : Nat) (ds : List Char) (h : n < 10) :
    Nat.toDigitsCore 10 (n + 1) n ds = Nat.digitChar n :: ds := by
  have h0 : n / 10 = 0 := by omega
  have h1 : n % 10 = n := by omega
  simp [Nat.toDigitsCore, h0, h1]

theorem toDigitsCore_step (n : Nat) (ds : List Char) (h : 10 ≤ n) :
    Nat.toDigitsCore 10 (n + 1) n ds =
      Nat.toDigitsCore 10 (n / 10 + 1) (n / 10) (Nat.digitChar (n % 10) :: ds) := by
  have h0 : n / 10 ≠ 0 := by omega
  have : n / 10 < n := Nat.div_lt_self (by omega) (by decide)
  conv_lhs => rw [Nat.toDigitsCore]
  simp only [h0, if_false]
  exact toDigitsCore_fuel n (n / 10) _ (n / 10 + 1) (by omega) (by omega)

theorem toByte_digit (d : Nat) (h : d < 10) : toByte (48 + (d : Int)) = Nat.digitChar d := by
  interval_cases d <;> rfl

theorem drop_set_self (b : List Char) (k : Nat) (c : Char) (h : k < b.length) :
    (b.set k c).drop k = c :: b.drop (k + 1) := by
  rw [List.drop_eq_getElem_cons (by simpa using h)]
  simp [List.drop_set]

theorem itoaLoop_digits : ∀ (k fuel : Nat) (b : List Char) (bp n : Nat) (wid : Int),
    wid ≤ 1 → -9223372036854775808 + ((k : Int) + 1) ≤ wid → b.length = 20 → bp < 20 →
    n < 10 ^ (k + 1) → k ≤ bp → k < fuel →
    ∃ (b' : List Char) (bp' i' : Nat),
      itoaLoop fuel b (bp : Int) (n : Int) wid = some (b', (bp' : Int), (i' : Int)) ∧
      bp' < 20 ∧ b'.length = 20 ∧
      (b'.set bp' (toByte (48 + (i' : Int)))).drop bp' =
        Nat.toDigitsCore 10 (n + 1) n (b.drop (bp + 1)) := by
  intro k
  induction k with
  | zero =>
    intro fuel b bp n wid hw1 _ hb hbp hn _ hf
    obtain ⟨fuel, rfl⟩ : ∃ f', fuel = f' + 1 := ⟨fuel - 1, by omega⟩
    have hn10 : n < 10 := by simpa using hn
    refine ⟨b, bp, n, ?_, hbp, hb, ?_⟩
    · have : ¬ ((n : Int) ≥ 10 ∨ wid > 1) := by omega
      rw [itoaLoop, if_neg this]
    · rw [drop_set_self _ _ _ (by omega), toDigitsCore_small _ _ hn10, toByte_digit _ hn10]
  | succ k ih =>
    intro fuel b bp n wid hw1 hw2 hb hbp hn hk hf
    obtain ⟨fuel, rfl⟩ : ∃ f', fuel = f' + 1 := ⟨fuel - 1, by omega⟩
    by_cases hn10 : n < 10
    · refine ⟨b, bp, n, ?_, hbp, hb, ?_⟩
      · have : ¬ ((n : Int) ≥ 10 ∨ wid > 1) := by omega
        rw [itoaLoop, if_neg this]
      · rw [drop_set_self _ _ _ (by omega), toDigitsCore_small _ _ hn10, toByte_digit _ hn10]
    · have hguard : ((n : Int) ≥ 10 ∨ wid > 1) := by omega
      have hbnd : (0 : Int) ≤ (bp : Int) ∧ (bp : Int) < 20 := by omega
      have hq : Int.tdiv (n : Int) 10 = ((n / 10 : Nat) : Int) := (Int.ofNat_tdiv n 10).symm
      have hbp1 : ((bp : Int) - 1) = ((bp - 1 : Nat) : Int) := by omega
      have hdig : toByte (48 + (n : Int) - ((n / 10 : Nat) : Int) * 10) = Nat.digitChar (n % 10) := by
        have h48 : (48 + (n : Int) - ((n / 10 : Nat) : Int) * 10) = 48 + ((n % 10 : Nat) : Int) := by
          omega
        rw [h48, toByte_digit _ (Nat.mod_lt _ (by decide))]
      have hwid : wrapInt64 (wid - 1) = wid - 1 := wrapInt64_of_range (by omega) (by omega)
      have hn' : n / 10 < 10 ^ (k + 1) := by
        rw [Nat.div_lt_iff_lt_mul (by decide)]
        calc n < 10 ^ (k + 1 + 1) := hn
          _ = 10 ^ (k + 1) * 10 := by ring
      obtain ⟨b', bp', i', hrun, hbp', hb', hres⟩ :=
        ih fuel (b.set bp (Nat.digitChar (n % 10))) (bp - 1) (n / 10) (wid - 1)
          (by omega) (by omega) (by simpa using hb) (by omega) hn' (by omega) (by omega)
      refine ⟨b', bp', i', ?_, hbp', hb', ?_⟩
      · rw [itoaLoop]
        simp only [hguard, hbnd, hq, hbp1, hdig, hwid, if_true, and_self, Int.toNat_ofNat]
        exact hrun
      · have hbp2 : bp - 1 + 1 = bp := by omega
        rw [hres, hbp2, drop_set_self _ _ _ (by omega), toDigitsCore_step n _ (by omega)]

theorem itoa_decimal (buf : Bytes) (n : Nat) (h : n < 9223372036854775808) :
    itoa buf (n : Int) (-1) = some (buf ++ decimal n) := by
  obtain ⟨b', bp', i', hrun, hbp', hb', hres⟩ :=
    itoaLoop_digits 18 21 (List.replicate 20 (Char.ofNat 0)) 19 n (-1)
      (by decide) (by decide) (by simp) (by decide)
      (lt_trans h (by norm_num)) (by decide) (by decide)
  have h19 : ((19 : Nat) : Int) = 19 := rfl
  rw [h19] at hrun
  have hbnd : (0 : Int) ≤ (bp' : Int) ∧ (bp' : Int) < 20 := by omega
  simp only [itoa, hrun, hbnd, and_self, if_true, Int.toNat_ofNat, hres]
  simp [decimal, Nat.toDigits]

/-! ## The line handed to `foutput` -/

theorem prefix_decimal (buf file : Bytes) (n : Nat) (h : n < 9223372036854775808) :
    prefix_ buf file (n : Int) =
      some (buf ++ " ".toList ++ filepath.Base file ++ ":".toList ++ decimal n ++ " ".toList) := by
  simp [prefix_, itoa_decimal _ n h]

theorem logPrint_eq (l : Logger) (w : World) (caller : Option (Bytes × Int)) (level : Level)
    (s : Bytes) (lineFeed : Bool)
    (hL : level ∈ [DebugLevel, InfoLevel, WarnLevel, ErrorLevel])
    (h0 : 0 ≤ callerLine caller) (h1 : callerLine caller < 9223372036854775808) :
    Logger.logPrint l w caller level s lineFeed =
      Logger.foutput { l with buf := scratchOf caller s } w.now.2
        (lineOf w level caller s lineFeed) := by
  obtain ⟨n, hn⟩ : ∃ n : Nat, callerLine caller = (n : Int) := ⟨_, (Int.toNat_of_nonneg h0).symm⟩
  have hn' : n < 9223372036854775808 := by omega
  have hp := prefix_decimal [] (callerFile caller) n hn'
  simp only [List.mem_cons, List.mem_singleton, List.not_mem_nil, or_false] at hL
  unfold Logger.logPrint
  simp only [List.take_zero, hn, hp]
  rcases hL with rfl | rfl | rfl | rfl <;>
    cases lineFeed <;>
    simp [lineOf, specLine, scratchOf, printStruct, World.now, levelColor, levelChar, hn,
      DebugLevel, InfoLevel, WarnLevel, ErrorLevel]

/-! ## Outcomes and the history of writes -/

theorem Outcome.andThen_state {σ : Type} (o : Outcome σ) (k : σ → Outcome σ) :
    (o.andThen id k).state = if o.isDone then (k o.state).state else o.state := by
  cases o <;> rfl

theorem Outcome.andThen_isDone {σ : Type} (o : Outcome σ) (k : σ → Outcome σ) :
    (o.andThen id k).isDone = (o.isDone && (k o.state).isDone) := by
  cases o <;> simp [Outcome.andThen, Outcome.isDone, Outcome.state]

theorem Outcome.eq_done_of_isDone {σ : Type} (o : Outcome σ) (h : o.isDone = true) :
    o = .done o.state := by
  cases o <;> simp_all [Outcome.isDone, Outcome.state]

theorem writesOf_append (a b : List Event) : writesOf (a ++ b) = writesOf a ++ writesOf b := by
  induction a with
  | nil => rfl
  | cons e a ih => cases e <;> simp [writesOf, ih]

theorem localPrint_events (w : World) (p m : Bytes) (c : Bytes → Bytes) :
    writesOf (localPrint w p m c).events = writesOf w.events := by
  simp [localPrint, printStruct, World.emit, World.now, writesOf_append, writesOf]

theorem logfile_events (w : World) (fpath : Bytes) :
    writesOf (logfile w fpath).2.events = writesOf w.events := by
  unfold logfile
  by_cases hex : isExist w fpath = true
  · cases h : w.openErr fpath <;>
      simp [hex, h, World.emit, localPrint, printStruct, World.now, writesOf_append, writesOf]
  · cases h : w.openErr (path.Dir fpath) <;> cases h2 : w.openErr fpath <;>
      simp [hex, h, h2, World.emit, writesOf_append, writesOf]

theorem opened_events (l : Logger) (w : World) (out : Writer) :
    (Logger.opened l w out).2.events = w.events := by
  unfold Logger.opened
  by_cases ht : l.rolling = TimeRolling <;> simp [ht, World.now]

theorem initialize_events (l : Logger) (w : World) :
    writesOf ( Logger.initialize l w).state.2.events = writesOf w.events := by
  unfold Logger.initialize
  by_cases hp : l.dir ≠ [] ∧ l.path ≠ []
  · rw [if_pos hp]
    cases htp : Logger.targetPath l w with
    | none => rfl
    | some fpath =>
      have h := logfile_events w fpath
      cases hlf : logfile w fpath with
      | mk r w' =>
        rw [hlf] at h
        cases r with
        | error err => simpa [Outcome.state, hlf] using h
        | ok out => simpa [Outcome.state, hlf, opened_events] using h
  · rw [if_neg hp]; rfl

theorem timeCheck_events (l : Logger) (w : World) :
    writesOf (Logger.timeCheck l w).state.2.events = writesOf w.events := by
  unfold Logger.timeCheck
  split
  · split
    · rw [initialize_events]; rfl
    · rfl
  · rfl

theorem sizeCheck_events (l : Logger) (w : World) (msg : Bytes) :
    writesOf (Logger.sizeCheck l w msg).state.2.events = writesOf w.events := by
  unfold Logger.sizeCheck
  by_cases hs : l.rolling = SizeRolling
  · rw [if_pos hs]
    by_cases hr : l.record > l.interval
    · rw [if_pos hr]
      have h := initialize_events l w
      cases hi : Logger.initialize l w <;> rw [hi] at h <;>
        simpa [Outcome.andThen, Outcome.state] using h
    · rw [if_neg hr]; rfl
  · rw [if_neg hs]; rfl

theorem outputWrite_events (l : Logger) (w : World) (msg : Bytes) :
    writesOf (Logger.outputWrite l w msg).state.2.events =
      writesOf w.events ++
        (if (Logger.outputWrite l w msg).isDone then [(l.output, msg)] else []) := by
  unfold Logger.outputWrite
  cases ho : l.output <;> cases he : w.writeErr l.output <;>
    simp_all [Outcome.state, Outcome.isDone, localPrint_events, World.emit, writesOf_append,
      writesOf]

theorem outputWrite_logger (l : Logger) (w : World) (msg : Bytes) :
    (Logger.outputWrite l w msg).state.1 = l := by
  unfold Logger.outputWrite
  cases ho : l.output <;> cases he : w.writeErr l.output <;>
    simp_all [Outcome.state, World.emit]

theorem outputWrite_isDone (l : Logger) (w : World) (msg : Bytes) :
    (Logger.outputWrite l w msg).isDone = decide (l.output ≠ Writer.nil) := by
  unfold Logger.outputWrite
  cases ho : l.output <;> cases he : w.writeErr l.output <;>
    simp_all [Outcome.isDone, World.emit]

/-- Every call of `foutput` adds exactly one `Write` to the history when it
returns, to the target the logger then holds, and none when it does not. -/
theorem foutput_writes (l : Logger) (w : World) (msg : Bytes) :
    writesOf ( Logger.foutput l w msg).state.2.events =
      writesOf w.events ++
        (if ( Logger.foutput l w msg).isDone then
          [(( Logger.foutput l w msg).state.1.output, msg)] else []) := by
  unfold Logger.foutput
  simp only [Outcome.andThen_state, Outcome.andThen_isDone]
  set o1 := (if (!l.init) = true then Logger.initialize l w else Outcome.done (l, w)) with ho1
  have e1 : writesOf o1.state.2.events = writesOf w.events := by
    rw [ho1]; split
    · exact initialize_events l w
    · rfl
  have e2 := timeCheck_events o1.state.1 o1.state.2
  set o2 := Logger.timeCheck o1.state.1 o1.state.2 with ho2
  have e3 := sizeCheck_events o2.state.1 o2.state.2 msg
  set o3 := Logger.sizeCheck o2.state.1 o2.state.2 msg with ho3
  have e4 := outputWrite_events o3.state.1 o3.state.2 msg
  have e5 := outputWrite_logger o3.state.1 o3.state.2 msg
  cases h1 : o1.isDone <;> cases h2 : o2.isDone <;> cases h3 : o3.isDone <;>
    simp_all

/-! ## Decimal digits are canonical -/

theorem toDigitsCore_acc : ∀ (f n : Nat) (ds : List Char),
    Nat.toDigitsCore 10 f n ds = Nat.toDigitsCore 10 f n [] ++ ds := by
  intro f
  induction f with
  | zero => intro n ds; simp [Nat.toDigitsCore]
  | succ f ih =>
    intro n ds
    simp only [Nat.toDigitsCore]
    by_cases h0 : n / 10 = 0
    · simp [h0]
    · simp only [h0, if_false]
      rw [ih _ (_ :: ds), ih _ [_]]
      simp

theorem decimal_small (n : Nat) (h : n < 10) : decimal n = [Nat.digitChar n] := by
  unfold decimal Nat.toDigits
  exact toDigitsCore_small n [] h

theorem decimal_step (n : Nat) (h : 10 ≤ n) :
    decimal n = decimal (n / 10) ++ [Nat.digitChar (n % 10)] := by
  unfold decimal Nat.toDigits
  rw [toDigitsCore_step n [] h, toDigitsCore_acc]

theorem digitChar_value (d : Nat) (h : d < 10) : (Nat.digitChar d).toNat - 48 = d := by
  interval_cases d <;> rfl

theorem parseDecimal_snoc (ds : Bytes) (c : Char) :
    parseDecimal (ds ++ [c]) = parseDecimal ds * 10 + (c.toNat - 48) := by
  simp [parseDecimal, List.foldl_append]

theorem parseDecimal_decimal (n : Nat) : parseDecimal (decimal n) = n := by
  induction n using Nat.strong_induction_on with
  | _ n ih =>
    by_cases h : n < 10
    · rw [decimal_small n h]
      simp [parseDecimal, digitChar_value n h]
    · have hlt : n / 10 < n := Nat.div_lt_self (by omega) (by decide)
      rw [decimal_step n (by omega), parseDecimal_snoc, ih _ hlt,
        digitChar_value _ (Nat.mod_lt _ (by decide))]
      omega

theorem decimal_injective {m n : Nat} (h : decimal m = decimal n) : m = n := by
  have := congrArg parseDecimal h
  simpa [parseDecimal_decimal] using this

theorem decimal_ne_nil (n : Nat) : decimal n ≠ [] := by
  by_cases h : n < 10
  · simp [decimal_small n h]
  · simp [decimal_step n (by omega)]

theorem fmtD_nat (n : Nat) : fmtD (n : Int) = decimal n := by
  have : ¬ ((n : Int) < 0) := by omega
  simp [fmtD, this, decimal]

/-! ## The names the re-open procedure tries -/

theorem candidate_injective (base ext : Bytes) {j k : Nat}
    (h : candidate base ext j = candidate base ext k) : j = k := by
  unfold candidate at h
  by_cases hj : j = 0 <;> by_cases hk : k = 0
  · omega
  · rw [if_pos hj, if_neg hk] at h
    have := congrArg List.length h
    simp at this
    omega
  · rw [if_neg hj, if_pos hk] at h
    have := congrArg List.length h
    simp at this
    omega
  · rw [if_neg hj, if_neg hk] at h
    simp only [List.append_assoc, List.append_cancel_left_eq] at h
    have h2 : decimal j = decimal k := List.append_cancel_right h
    exact decimal_injective h2

theorem exists_fresh (base ext : Bytes) (existing : List Bytes) :
    ∃ k, k ≤ existing.length ∧ candidate base ext k ∉ existing ∧
      ∀ j < k, candidate base ext j ∈ existing := by
  classical
  have hex : ∃ k, candidate base ext k ∉ existing ∧ k ≤ existing.length := by
    by_contra hcon
    push_neg at hcon
    have hsub : (List.range (existing.length + 1)).map (candidate base ext) ⊆ existing := by
      intro p hp
      simp only [List.mem_map, List.mem_range] at hp
      obtain ⟨k, hk, rfl⟩ := hp
      by_contra hn
      have := hcon k hn
      omega
    have hnd : ((List.range (existing.length + 1)).map (candidate base ext)).Nodup :=
      (List.nodup_range _).map (fun _ _ h => candidate_injective base ext h)
    have hle := (List.subperm_of_subset hnd hsub).length_le
    simp at hle
  refine ⟨Nat.find hex, (Nat.find_spec hex).2, (Nat.find_spec hex).1, ?_⟩
  intro j hj
  by_contra hn
  have hjle : j ≤ existing.length := le_trans (le_of_lt hj) (Nat.find_spec hex).2
  exact Nat.find_min hex hj ⟨hn, hjle⟩

theorem freshPath_steps (w : World) (base ext : Bytes) : ∀ (n k fuel : Nat),
    candidate base ext (k + n) ∉ w.existing →
    (∀ j, k ≤ j → j < k + n → candidate base ext j ∈ w.existing) →
    n < fuel → k + n < 9223372036854775806 →
    freshPath w base ext fuel (candidate base ext k) ((k : Int) + 1) =
      some (candidate base ext (k + n)) := by
  intro n
  induction n with
  | zero =>
    intro k fuel hfree _ hfuel _
    obtain ⟨fuel, rfl⟩ : ∃ f', fuel = f' + 1 := ⟨fuel - 1, by omega⟩
    simp only [Nat.add_zero] at hfree
    simp [freshPath, isExist, hfree]
  | succ n ih =>
    intro k fuel hfree hbusy hfuel hbound
    obtain ⟨fuel, rfl⟩ : ∃ f', fuel = f' + 1 := ⟨fuel - 1, by omega⟩
    have hk : candidate base ext k ∈ w.existing := hbusy k (le_refl _) (by omega)
    have hnext : base ++ "_".toList ++ fmtD ((k : Int) + 1) ++ ext = candidate base ext (k + 1) := by
      have : ((k : Int) + 1) = ((k + 1 : Nat) : Int) := by omega
      rw [this, fmtD_nat]
      simp [candidate]
    have hwrap : wrapInt64 ((k : Int) + 1 + 1) = ((k + 1 : Nat) : Int) + 1 := by
      rw [wrapInt64_of_range (by omega) (by omega)]
      omega
    rw [freshPath]
    simp only [isExist, hk, decide_True, Bool.not_true, Bool.false_eq_true, if_false, hnext, hwrap]
    have := ih (k + 1) fuel (by rw [show k + 1 + n = k + (n + 1) by omega]; exact hfree)
      (fun j h1 h2 => hbusy j (by omega) (by omega)) (by omega) (by omega)
    rw [this, show k + 1 + n = k + (n + 1) by omega]

/-! ## What `initialize` opens -/

theorem freshPath_first (w : World) (base ext : Bytes) (k fuel : Nat)
    (hfree : candidate base ext k ∉ w.existing)
    (hbusy : ∀ j < k, candidate base ext j ∈ w.existing)
    (hfuel : k < fuel) (hbound : k < 9223372036854775806) :
    freshPath w base ext fuel (base ++ ext) 1 = some (candidate base ext k) := by
  have h := freshPath_steps w base ext k 0 fuel (by simpa using hfree)
    (fun j _ hj => hbusy j (by omega)) hfuel (by omega)
  simpa [candidate] using h

theorem targetPath_rolling (l : Logger) (w : World) (k : Nat) (hroll : l.rolling ≠ noRolling)
    (hfree : candidate (filepath.Join l.dir l.path) l.ext k ∉ w.existing)
    (hbusy : ∀ j < k, candidate (filepath.Join l.dir l.path) l.ext j ∈ w.existing)
    (hk : k ≤ w.existing.length) (hbound : w.existing.length < 9223372036854775806) :
    Logger.targetPath l w = some (candidate (filepath.Join l.dir l.path) l.ext k) := by
  unfold Logger.targetPath
  simp only [hroll, ne_eq, not_false_eq_true, if_true]
  exact freshPath_first w _ _ k _ hfree hbusy (by omega) (by omega)

theorem targetPath_noRolling (l : Logger) (w : World) (hroll : l.rolling = noRolling) :
    Logger.targetPath l w = some (filepath.Join l.dir l.path ++ l.ext) := by
  simp [Logger.targetPath, hroll]

theorem logfile_fresh (w : World) (p : Bytes) (hfree : p ∉ w.existing)
    (hdir : w.openErr (path.Dir p) = none) (hopen : w.openErr p = none) :
    logfile w p = (.ok (.file p), w.created p) := by
  simp [logfile, isExist, hfree, hdir, hopen, World.emit, World.created]

theorem opened_logger (l : Logger) (w : World) (out : Writer) :
    (Logger.opened l w out).1 =
      { l with
        output := out,
        record := if l.rolling = TimeRolling then w.clock w.ticks
          else if l.rolling = SizeRolling then 0 else l.record,
        init := true } := by
  unfold Logger.opened
  by_cases ht : l.rolling = TimeRolling
  · have hs : ¬ TimeRolling = SizeRolling := by decide
    simp [ht, hs, World.now]
  · have hst : ¬ SizeRolling = TimeRolling := by decide
    by_cases hs : l.rolling = SizeRolling
    · simp [hs, hst]
    · simp [ht, hs]

theorem opened_world (l : Logger) (w : World) (out : Writer) :
    (Logger.opened l w out).2 = if l.rolling = TimeRolling then w.now.2 else w := by
  unfold Logger.opened
  by_cases ht : l.rolling = TimeRolling <;> simp [ht]

theorem initialize_of_path (l : Logger) (w : World) (p : Bytes)
    (hdir : l.dir ≠ []) (hpath : l.path ≠ []) (htp : Logger.targetPath l w = some p) :
    Logger.initialize l w =
      match logfile w p with
      | (.error err, w') => .panic ("initialize log file error: ".toList ++ err) (l, w')
      | (.ok out, w') => .done (Logger.opened l w' out) := by
  unfold Logger.initialize
  rw [if_pos ⟨hdir, hpath⟩, htp]

theorem initialize_no_path (l : Logger) (w : World) (h : l.dir = [] ∨ l.path = []) :
    Logger.initialize l w = .done ({ l with output := .stdout, init := true }, w) := by
  unfold Logger.initialize
  have : ¬ (l.dir ≠ [] ∧ l.path ≠ []) := by
    rcases h with h | h <;> simp [h]
  rw [if_neg this]

theorem initialize_fresh (l : Logger) (w : World) (p : Bytes)
    (hdir : l.dir ≠ []) (hpath : l.path ≠ []) (htp : Logger.targetPath l w = some p)
    (hfree : p ∉ w.existing)
    (hod : w.openErr (path.Dir p) = none) (hop : w.openErr p = none) :
    Logger.initialize l w = .done (Logger.opened l (w.created p) (.file p)) := by
  rw [initialize_of_path l w p hdir hpath htp, logfile_fresh w p hfree hod hop]

/-! ## `foutput` on an initialised logger -/

theorem Outcome.andThen_congr {σ : Type} (o : Outcome σ) (k k' : σ → Outcome σ)
    (h : ∀ s, o = .done s → k s = k' s) : o.andThen id k = o.andThen id k' := by
  cases o with
  | done s => exact h s rfl
  | panic msg s => rfl
  | exit code s => rfl
  | hang s => rfl

theorem initialize_rolling (l : Logger) (w : World) :
    ( Logger.initialize l w).state.1.rolling = l.rolling := by
  unfold Logger.initialize
  by_cases hp : l.dir ≠ [] ∧ l.path ≠ []
  · rw [if_pos hp]
    cases htp : Logger.targetPath l w with
    | none => rfl
    | some fpath =>
      cases hlf : logfile w fpath with
      | mk r w' =>
        cases r with
        | error err => simp [Outcome.state, hlf]
        | ok out => simp [Outcome.state, hlf, opened_logger]
  · rw [if_neg hp]; rfl

theorem timeCheck_other (l : Logger) (w : World) (h : l.rolling ≠ TimeRolling) :
    Logger.timeCheck l w = .done (l, w) := by
  simp [Logger.timeCheck, h]

theorem sizeCheck_other (l : Logger) (w : World) (msg : Bytes) (h : l.rolling ≠ SizeRolling) :
    Logger.sizeCheck l w msg = .done (l, w) := by
  simp [Logger.sizeCheck, h]

theorem foutput_time (l : Logger) (w : World) (msg : Bytes) (hinit : l.init = true)
    (hmode : l.rolling = TimeRolling) :
    Logger.foutput l w msg =
      (if wrapInt64 (l.record + l.interval) < w.clock w.ticks then Logger.initialize l w.now.2
        else .done (l, w.now.2)).andThen id
        (fun lw => Logger.outputWrite lw.1 lw.2 msg) := by
  have hts : ¬ TimeRolling = SizeRolling := by decide
  unfold Logger.foutput
  simp only [hinit, Bool.not_true, Bool.false_eq_true, if_false, Outcome.andThen]
  unfold Logger.timeCheck
  rw [if_pos hmode]
  by_cases hc : wrapInt64 (l.record + l.interval) < w.now.1
  · have hc' : wrapInt64 (l.record + l.interval) < w.clock w.ticks := hc
    rw [if_pos hc, if_pos hc']
    apply Outcome.andThen_congr
    intro s hs
    have hr := initialize_rolling l w.now.2
    rw [hs] at hr
    simp only [Outcome.state] at hr
    rw [sizeCheck_other _ _ _ (by rw [hr, hmode]; exact hts)]
  · have hc' : ¬ wrapInt64 (l.record + l.interval) < w.clock w.ticks := hc
    rw [if_neg hc, if_neg hc']
    simp only [Outcome.andThen]
    rw [sizeCheck_other _ _ _ (by rw [hmode]; exact hts)]

theorem foutput_size (l : Logger) (w : World) (msg : Bytes) (hinit : l.init = true)
    (hmode : l.rolling = SizeRolling) :
    Logger.foutput l w msg =
      (if l.record > l.interval then Logger.initialize l w else .done (l, w)).andThen id
        (fun lw => Logger.outputWrite
          { lw.1 with record := wrapInt64 (lw.1.record + msg.length) } lw.2 msg) := by
  have hst : ¬ SizeRolling = TimeRolling := by decide
  unfold Logger.foutput
  simp only [hinit, Bool.not_true, Bool.false_eq_true, if_false, Outcome.andThen]
  rw [timeCheck_other _ _ (by rw [hmode]; exact hst)]
  simp only [Outcome.andThen]
  unfold Logger.sizeCheck
  rw [if_pos hmode]
  cases (if l.record > l.interval then Logger.initialize l w else Outcome.done (l, w)) <;> rfl

theorem foutput_none (l : Logger) (w : World) (msg : Bytes) (hinit : l.init = true)
    (hmode : l.rolling = noRolling) :
    Logger.foutput l w msg = Logger.outputWrite l w msg := by
  have h1 : ¬ noRolling = TimeRolling := by decide
  have h2 : ¬ noRolling = SizeRolling := by decide
  unfold Logger.foutput
  simp only [hinit, Bool.not_true, Bool.false_eq_true, if_false, Outcome.andThen]
  rw [timeCheck_other _ _ (by rw [hmode]; exact h1)]
  simp only [Outcome.andThen]
  rw [sizeCheck_other _ _ _ (by rw [hmode]; exact h2)]

theorem outputWrite_done (l : Logger) (w : World) (msg : Bytes) (h : l.output ≠ Writer.nil) :
    ∃ w', Logger.outputWrite l w msg = .done (l, w') ∧
      writesOf w'.events = writesOf w.events ++ [(l.output, msg)] ∧
      w'.existing = w.existing ∧ w'.openErr = w.openErr ∧ w'.clock = w.clock := by
  unfold Logger.outputWrite
  cases ho : l.output with
  | nil => exact absurd ho h
  | stdout =>
    cases he : w.writeErr Writer.stdout <;>
      simp [World.emit, he, localPrint, printStruct, World.now, writesOf_append, writesOf]
  | file p =>
    cases he : w.writeErr (Writer.file p) <;>
      simp [World.emit, he, localPrint, printStruct, World.now, writesOf_append, writesOf]

/-! ## The pieces of a path -/

theorem clean_ne_nil (p : Bytes) : filepath.Clean p ≠ [] := by
  unfold filepath.Clean
  cases p with
  | nil => simp
  | cons c rest =>
    by_cases hc : c = '/'
    · simp only [hc, if_true]; split <;> simp_all
    · simp only [hc, if_false]; split <;> simp_all

theorem dir_ne_nil (p : Bytes) : filepath.Dir p ≠ [] := clean_ne_nil _

theorem base_cases (p : Bytes) :
    filepath.Base p = ['/'] ∨ (filepath.Base p ≠ [] ∧ '/' ∉ filepath.Base p) := by
  unfold filepath.Base
  by_cases hp : p = []
  · right; simp [hp]
  · rw [if_neg hp]
    simp only
    split
    · left; rfl
    · rename_i h
      right
      refine ⟨h, ?_⟩
      intro hmem
      rw [List.mem_reverse] at hmem
      have := List.mem_takeWhile_imp hmem
      simp at this

theorem base_ne_nil (p : Bytes) : filepath.Base p ≠ [] := by
  rcases base_cases p with h | h
  · simp [h]
  · exact h.1

theorem contains_slash (s : Bytes) : strings.Contains s "/".toList = true ↔ '/' ∈ s := by
  induction s with
  | nil => simp [strings.Contains]
  | cons c s ih =>
    have e : "/".toList = ['/'] := rfl
    rw [strings.Contains, Bool.or_eq_true, ih, e]
    simp [List.isPrefixOf]

theorem extScan_suffix : ∀ (rev acc : Bytes),
    ∃ pre, rev.reverse ++ acc = pre ++ path.extScan rev acc := by
  intro rev
  induction rev with
  | nil => intro acc; exact ⟨acc, by simp [path.extScan]⟩
  | cons c rev ih =>
    intro acc
    rw [path.extScan]
    by_cases h1 : c = '/'
    · rw [if_pos h1]; exact ⟨(c :: rev).reverse ++ acc, by simp⟩
    · rw [if_neg h1]
      by_cases h2 : c = '.'
      · rw [if_pos h2]; exact ⟨rev.reverse, by simp⟩
      · rw [if_neg h2]
        obtain ⟨pre, hpre⟩ := ih (c :: acc)
        exact ⟨pre, by rw [← hpre]; simp⟩

theorem ext_suffix (f : Bytes) : ∃ pre, f = pre ++ path.Ext f := by
  obtain ⟨pre, h⟩ := extScan_suffix f.reverse []
  exact ⟨pre, by simpa [path.Ext] using h⟩

theorem trimSuffix_append (pre e : Bytes) : strings.TrimSuffix (pre ++ e) e = pre := by
  have hsuf : e.isSuffixOf (pre ++ e) = true := by
    rw [List.isSuffixOf_iff_suffix]
    exact ⟨pre, rfl⟩
  unfold strings.TrimSuffix
  rw [if_pos hsuf]
  simp

theorem trimSuffix_ext (f : Bytes) : strings.TrimSuffix f (path.Ext f) ++ path.Ext f = f := by
  obtain ⟨pre, h⟩ := ext_suffix f
  have := trimSuffix_append pre (path.Ext f)
  rw [← h] at this
  rw [this]
  exact h.symm

theorem logFile_eq (l : Logger) (p : Bytes) :
    Logger.LogFile l p =
      if '/' ∈ filepath.Base p then .panic "invalid path".toList l
      else .done { l with dir := filepath.Dir p,
                          path := strings.TrimSuffix (filepath.Base p) (path.Ext (filepath.Base p)),
                          ext := path.Ext (filepath.Base p) } := by
  unfold Logger.LogFile
  have h1 : ¬ (filepath.Dir p = [] ∨ filepath.Base p = []) := by
    simp [dir_ne_nil, base_ne_nil]
  simp only [h1, if_false]
  by_cases h : '/' ∈ filepath.Base p
  · rw [if_pos ((contains_slash _).mpr h), if_pos h]
  · have : ¬ strings.Contains (filepath.Base p) "/".toList = true := by
      rw [contains_slash]; exact h
    rw [if_neg this, if_neg h]

/-! ## One write in time mode -/

theorem time_step (l : Logger) (w : World) (msg : Bytes) (hinit : l.init = true)
    (hmode : l.rolling = TimeRolling) (hdir : l.dir ≠ []) (hpath : l.path ≠ [])
    (htarget : targetOpen l w) (hsize : w.existing.length < 9223372036854775806)
    (hopen : ∀ p, w.openErr p = none) :
    ∃ l' w', Logger.foutput l w msg = .done (l', w') ∧
      writesOf w'.events = writesOf w.events ++ [(l'.output, msg)] ∧
      w'.openErr = w.openErr ∧ w'.clock = w.clock ∧ targetOpen l' w' ∧
      w'.existing.length ≤ w.existing.length + 2 ∧
      (wrapInt64 (l.record + l.interval) < w.clock w.ticks →
        ∃ p, p ∉ w.existing ∧
          l' = { l with output := .file p, record := w.clock (w.ticks + 1), init := true }) ∧
      (¬ wrapInt64 (l.record + l.interval) < w.clock w.ticks → l' = l) := by
  have hfo := foutput_time l w msg hinit hmode
  by_cases hc : wrapInt64 (l.record + l.interval) < w.clock w.ticks
  · have hroll : l.rolling ≠ noRolling := by rw [hmode]; decide
    obtain ⟨k, hk, hfree, hbusy⟩ := exists_fresh (filepath.Join l.dir l.path) l.ext w.existing
    have htp := targetPath_rolling l w.now.2 k hroll hfree hbusy hk hsize
    have hi := initialize_fresh l w.now.2 _ hdir hpath htp hfree (hopen _) (hopen _)
    generalize candidate (filepath.Join l.dir l.path) l.ext k = p at hfree hi
    have hl : (Logger.opened l (w.now.2.created p) (.file p)).1 =
        { l with output := .file p, record := w.clock (w.ticks + 1), init := true } := by
      rw [opened_logger]; simp [hmode, World.created, World.now]
    rw [if_pos hc, hi] at hfo
    simp only [Outcome.andThen, hl] at hfo
    obtain ⟨w', hwr, hev, hex, hoe, hck⟩ := outputWrite_done
      { l with output := .file p, record := w.clock (w.ticks + 1), init := true }
      (Logger.opened l (w.now.2.created p) (.file p)).2 msg (by simp)
    rw [opened_world] at hev hex hoe hck
    simp only [hmode, if_true] at hev hex hoe hck
    refine ⟨_, w', by rw [hfo, hwr], ?_, ?_, ?_, ⟨by simp, ?_⟩, ?_, fun _ => ⟨p, hfree, rfl⟩,
      fun h => absurd hc h⟩
    · rw [hev]; simp [World.created, World.now, writesOf_append, writesOf]
    · rw [hoe]; rfl
    · rw [hck]; rfl
    · intro q hq
      simp only [Writer.file.injEq] at hq
      rw [hex, ← hq]
      simp [World.created, World.now]
    · rw [hex]; simp [World.created, World.now]
  · rw [if_neg hc] at hfo
    simp only [Outcome.andThen] at hfo
    obtain ⟨w', hwr, hev, hex, hoe, hck⟩ := outputWrite_done l w.now.2 msg htarget.1
    refine ⟨l, w', by rw [hfo, hwr], hev, hoe, hck, ⟨htarget.1, ?_⟩, ?_,
      fun h => absurd h hc, fun _ => rfl⟩
    · intro q hq
      rw [hex]
      exact htarget.2 q hq
    · rw [hex]; simp [World.now]

/-! ## More on decimal digits -/

theorem decimal_zero : decimal 0 = ['0'] := by decide

theorem digitChar_isDigit (d : Nat) (h : d < 10) : (Nat.digitChar d).isDigit = true := by
  interval_cases d <;> rfl

theorem digitChar_ne_zero (d : Nat) (h : d < 10) (h0 : d ≠ 0) : Nat.digitChar d ≠ '0' := by
  interval_cases d <;> first | exact absurd rfl h0 | decide

theorem decimal_isDigit (n : Nat) : ∀ c ∈ decimal n, c.isDigit = true := by
  induction n using Nat.strong_induction_on with
  | _ n ih =>
    by_cases h : n < 10
    · rw [decimal_small n h]
      intro c hc
      rw [List.mem_singleton] at hc
      rw [hc]; exact digitChar_isDigit n h
    · have hlt : n / 10 < n := Nat.div_lt_self (by omega) (by decide)
      rw [decimal_step n (by omega)]
      intro c hc
      rcases List.mem_append.mp hc with hc | hc
      · exact ih _ hlt c hc
      · rw [List.mem_singleton] at hc
        rw [hc]; exact digitChar_isDigit _ (Nat.mod_lt _ (by decide))

theorem decimal_head (n : Nat) (h0 : 0 < n) : (decimal n).head? ≠ some '0' := by
  induction n using Nat.strong_induction_on with
  | _ n ih =>
    by_cases h : n < 10
    · rw [decimal_small n h]
      simpa using digitChar_ne_zero n h (by omega)
    · have hlt : n / 10 < n := Nat.div_lt_self (by omega) (by decide)
      have hpos : 0 < n / 10 := Nat.div_pos (by omega) (by decide)
      rw [decimal_step n (by omega), List.head?_append_of_ne_nil _ (decimal_ne_nil _)]
      exact ih _ hlt hpos

theorem decimal_length (n : Nat) (h : n < 9223372036854775808) : (decimal n).length ≤ 19 := by
  unfold decimal Nat.toDigits
  exact Nat.toDigitsCore_length 10 (by decide) (n + 1) n 19 (lt_trans h (by norm_num)) (by decide)

/-! ## When `LogFile` fails -/

theorem base_eq_slash_iff (p : Bytes) :
    filepath.Base p = ['/'] ↔ p ≠ [] ∧ ∀ c ∈ p, c = '/' := by
  unfold filepath.Base
  by_cases hp : p = []
  · simp [hp]
  · rw [if_neg hp]
    simp only
    generalize hq : p.reverse.dropWhile (· = '/') = q
    have hqnil : q = [] ↔ ∀ c ∈ p, c = '/' := by
      rw [← hq, List.dropWhile_eq_nil_iff]
      simp
    have hhead : ∀ c rest, q = c :: rest → c ≠ '/' := by
      intro c rest hc
      have := List.head_dropWhile_not (· = '/') p.reverse (by rw [hq, hc]; simp)
      simpa [hq, hc] using this
    simp only [List.reverse_reverse]
    cases q with
    | nil =>
      have hall := hqnil.mp rfl
      simpa [hp] using hall
    | cons c rest =>
      have hc := hhead c rest rfl
      have hnall : ¬ ∀ c ∈ p, c = '/' := fun h => by simpa using hqnil.mpr h
      have htw : List.takeWhile (fun x => decide (x ≠ '/')) (c :: rest) ≠ [] := by
        simp [List.takeWhile, hc]
      rw [if_neg (by simpa using htw)]
      constructor
      · intro h
        exfalso
        have hmem : '/' ∈ List.takeWhile (fun x => decide (x ≠ '/')) (c :: rest) := by
          rw [← List.mem_reverse, h]; simp
        have := List.mem_takeWhile_imp hmem
        simp at this
      · intro h; exact absurd h.2 hnall

theorem logFile_fails_iff (p : Bytes) :
    '/' ∈ filepath.Base p ↔ p ≠ [] ∧ ∀ c ∈ p, c = '/' := by
  rw [← base_eq_slash_iff]
  constructor
  · intro h
    rcases base_cases p with hb | hb
    · exact hb
    · exact absurd h hb.2
  · intro h; rw [h]; simp

/-! ## The first write without a rolling mode -/

theorem logfile_ok (w : World) (fpath : Bytes) (hopen : ∀ p, w.openErr p = none) :
    ∃ w', logfile w fpath = (.ok (.file fpath), w') := by
  refine ⟨(logfile w fpath).2, Prod.ext ?_ rfl⟩
  unfold logfile
  by_cases hex : isExist w fpath = true
  · simp [hex, hopen, World.emit, localPrint, printStruct, World.now]
  · simp [hex, hopen, World.emit]

theorem opened_noRolling (l : Logger) (w : World) (out : Writer) (hmode : l.rolling = noRolling) :
    Logger.opened l w out = ({ l with output := out, init := true }, w) := by
  have h1 : ¬ noRolling = TimeRolling := by decide
  have h2 : ¬ noRolling = SizeRolling := by decide
  refine Prod.ext ?_ ?_
  · rw [opened_logger]; simp [hmode, h1, h2]
  · rw [opened_world]; simp [hmode, h1]

theorem initialize_noRolling (l : Logger) (w : World) (hmode : l.rolling = noRolling) :
    ( Logger.initialize l w).state.1 = l ∨
      ∃ out w', out ≠ Writer.nil ∧
        Logger.initialize l w = .done ({ l with output := out, init := true }, w') := by
  by_cases hp : l.dir ≠ [] ∧ l.path ≠ []
  · rw [initialize_of_path l w _ hp.1 hp.2 (targetPath_noRolling l w hmode)]
    cases hlf : logfile w (filepath.Join l.dir l.path ++ l.ext) with
    | mk r w' =>
      cases r with
      | error err => left; rfl
      | ok out =>
        right
        refine ⟨out, w', ?_, by simp only [opened_noRolling l w' out hmode]⟩
        intro hnil
        unfold logfile at hlf
        by_cases hex : isExist w (filepath.Join l.dir l.path ++ l.ext) = true
        · rw [if_pos hex] at hlf
          simp only at hlf
          split at hlf <;> simp [hnil] at hlf
        · rw [if_neg hex] at hlf
          simp only at hlf
          split at hlf
          · simp at hlf
          · split at hlf <;> simp [hnil] at hlf
  · right
    have hp' : l.dir = [] ∨ l.path = [] := by
      by_cases hd : l.dir = []
      · exact Or.inl hd
      · right; by_contra hpa; exact hp ⟨hd, hpa⟩
    exact ⟨.stdout, w, by simp, initialize_no_path l w hp'⟩

theorem initialize_noRolling_done (l : Logger) (w : World) (hmode : l.rolling = noRolling)
    (hopen : ∀ p, w.openErr p = none) :
    ∃ w', Logger.initialize l w =
      .done ({ l with
        output := if l.dir ≠ [] ∧ l.path ≠ [] then .file (filepath.Join l.dir l.path ++ l.ext)
          else .stdout,
        init := true }, w') := by
  by_cases hp : l.dir ≠ [] ∧ l.path ≠ []
  · obtain ⟨w', hw'⟩ := logfile_ok w (filepath.Join l.dir l.path ++ l.ext) hopen
    refine ⟨w', ?_⟩
    rw [initialize_of_path l w _ hp.1 hp.2 (targetPath_noRolling l w hmode), hw', if_pos hp]
    simp only [opened_noRolling l w' _ hmode]
  · have hp' : l.dir = [] ∨ l.path = [] := by
      by_cases hd : l.dir = []
      · exact Or.inl hd
      · right; by_contra hpa; exact hp ⟨hd, hpa⟩
    exact ⟨w, by rw [initialize_no_path l w hp', if_neg hp]⟩

theorem foutput_first_none (l : Logger) (w : World) (msg : Bytes) (hinit : l.init = false)
    (hmode : l.rolling = noRolling) :
    Logger.foutput l w msg =
      ( Logger.initialize l w).andThen id (fun lw => Logger.outputWrite lw.1 lw.2 msg) := by
  have h1 : ¬ noRolling = TimeRolling := by decide
  have h2 : ¬ noRolling = SizeRolling := by decide
  unfold Logger.foutput
  simp only [hinit, Bool.not_false, if_true]
  apply Outcome.andThen_congr
  intro s hs
  have hr := initialize_rolling l w
  rw [hs] at hr
  simp only [Outcome.state] at hr
  rw [timeCheck_other _ _ (by rw [hr, hmode]; exact h1)]
  simp only [Outcome.andThen]
  rw [sizeCheck_other _ _ _ (by rw [hr, hmode]; exact h2)]

theorem initialize_init (l : Logger) (w : World) :
    ∀ s, Logger.initialize l w = .done s → s.1.init = true := by
  intro s hs
  unfold Logger.initialize at hs
  by_cases hp : l.dir ≠ [] ∧ l.path ≠ []
  · rw [if_pos hp] at hs
    cases htp : Logger.targetPath l w with
    | none => rw [htp] at hs; simp at hs
    | some fpath =>
      rw [htp] at hs
      simp only at hs
      cases hlf : logfile w fpath with
      | mk r w' =>
        rw [hlf] at hs
        cases r with
        | error err => simp at hs
        | ok out =>
          simp only [Outcome.done.injEq] at hs
          rw [← hs, opened_logger]
  · rw [if_neg hp] at hs
    simp only [Outcome.done.injEq] at hs
    rw [← hs]

theorem rolling_eq (l : Logger) (w : World) (flag : Bytes) (interval : Int) :
    Logger.Rolling l w flag interval =
      if l.dir = [] ∨ l.path = [] then .panic "please set log file first".toList (l, w)
      else if flag = TimeFlag ∨ flag = SizeFlag then
        if interval ≤ 0 then
          .panic "invalid interval value".toList ({ l with rolling := modeOf flag }, w)
        else
          .done ({ l with rolling := modeOf flag, interval := interval },
            if interval < minimumOf flag then
              localPrint w "Warn".toList (warningOf flag) yellow
            else w)
      else .panic "invalid rolling type".toList
        ({ l with rolling := noRolling, interval := interval }, w) := by
  have hne : ¬ SizeFlag = TimeFlag := by decide
  by_cases hp : l.dir = [] ∨ l.path = []
  · rw [if_pos hp]; unfold Logger.Rolling; rw [if_pos hp]
  · rw [if_neg hp]
    by_cases ht : flag = TimeFlag
    · subst ht
      by_cases hi : interval ≤ 0
      · simp [Logger.Rolling, hp, hi, modeOf, noRolling, TimeRolling]
      · by_cases hm : interval < MinTimeInterval <;>
          simp [Logger.Rolling, hp, hi, hm, modeOf, minimumOf, warningOf, noRolling, TimeRolling,
            SizeRolling]
    · by_cases hs : flag = SizeFlag
      · subst hs
        by_cases hi : interval ≤ 0
        · simp [Logger.Rolling, hp, hi, hne, modeOf, noRolling, SizeRolling]
        · by_cases hm : interval < MinSizeInterval <;>
            simp [Logger.Rolling, hp, hi, hm, hne, modeOf, minimumOf, warningOf, noRolling,
              TimeRolling, SizeRolling]
      · simp [Logger.Rolling, hp, ht, hs, noRolling, TimeRolling, SizeRolling]

/-! ## Runs of writes in size mode -/

theorem byteCount_append (a b : List Bytes) : byteCount (a ++ b) = byteCount a + byteCount b := by
  induction a with
  | nil => simp [byteCount]
  | cons m a ih => simp [byteCount, ih]; ring

theorem byteCount_nonneg (a : List Bytes) : 0 ≤ byteCount a := by
  induction a with
  | nil => simp [byteCount]
  | cons m a ih => simp only [byteCount]; omega

theorem messagesOf_append (a b : List (Writer × List Bytes)) :
    messagesOf (a ++ b) = messagesOf a ++ messagesOf b := by
  induction a with
  | nil => rfl
  | cons x a ih => simp [messagesOf, ih]

theorem writesInto_append (a b : List (Writer × List Bytes)) :
    writesInto (a ++ b) = writesInto a ++ writesInto b := by
  induction a with
  | nil => rfl
  | cons x a ih => simp [writesInto, ih]

theorem Outcome.andThen_assoc {σ : Type} (o : Outcome σ) (k k' : σ → Outcome σ) :
    (o.andThen id k).andThen id k' = o.andThen id (fun s => (k s).andThen id k') := by
  cases o <;> rfl

theorem Outcome.andThen_done {σ : Type} (o : Outcome σ) :
    o.andThen id (fun s => Outcome.done s) = o := by
  cases o <;> rfl

theorem writeAll_snoc (ms : List Bytes) (m : Bytes) : ∀ (l : Logger) (w : World),
    writeAll l w (ms ++ [m]) =
      (writeAll l w ms).andThen id (fun lw => Logger.foutput lw.1 lw.2 m) := by
  induction ms with
  | nil =>
    intro l w
    simp only [List.nil_append, writeAll, Outcome.andThen]
    exact Outcome.andThen_done _
  | cons x ms ih =>
    intro l w
    simp only [List.cons_append, writeAll]
    rw [Outcome.andThen_assoc]
    congr 1
    funext lw
    exact ih lw.1 lw.2

theorem size_step (l : Logger) (w : World) (msg : Bytes) (hinit : l.init = true)
    (hmode : l.rolling = SizeRolling) (hdir : l.dir ≠ []) (hpath : l.path ≠ [])
    (htarget : targetOpen l w) (hsize : w.existing.length < 9223372036854775806)
    (hopen : ∀ p, w.openErr p = none) :
    ∃ l' w', Logger.foutput l w msg = .done (l', w') ∧
      writesOf w'.events = writesOf w.events ++ [(l'.output, msg)] ∧
      w'.openErr = w.openErr ∧ targetOpen l' w' ∧
      w'.existing.length ≤ w.existing.length + 2 ∧ (∀ q ∈ w.existing, q ∈ w'.existing) ∧
      (l.record > l.interval →
        ∃ p, p ∉ w.existing ∧
          l' = { l with output := .file p, record := wrapInt64 (0 + (msg.length : Int)),
                        init := true }) ∧
      (¬ l.record > l.interval →
        l' = { l with record := wrapInt64 (l.record + (msg.length : Int)) }) := by
  have hfo := foutput_size l w msg hinit hmode
  by_cases hr : l.record > l.interval
  · have hroll : l.rolling ≠ noRolling := by rw [hmode]; decide
    obtain ⟨k, hk, hfree, hbusy⟩ := exists_fresh (filepath.Join l.dir l.path) l.ext w.existing
    have htp := targetPath_rolling l w k hroll hfree hbusy hk hsize
    have hi := initialize_fresh l w _ hdir hpath htp hfree (hopen _) (hopen _)
    generalize candidate (filepath.Join l.dir l.path) l.ext k = p at hfree hi
    have hst : ¬ SizeRolling = TimeRolling := by decide
    have hl : ( Logger.opened l (w.created p) (.file p)).1 =
        { l with output := .file p, record := 0, init := true } := by
      rw [opened_logger]; simp [hmode, hst]
    have hw : ( Logger.opened l (w.created p) (.file p)).2 = w.created p := by
      rw [opened_world]; simp [hmode, hst]
    rw [if_pos hr, hi] at hfo
    simp only [Outcome.andThen, hl, hw] at hfo
    obtain ⟨w', hwr, hev, hex, hoe, -⟩ := outputWrite_done
      { l with output := .file p, record := wrapInt64 (0 + (msg.length : Int)), init := true }
      (w.created p) msg (by simp)
    refine ⟨_, w', by rw [hfo, hwr], ?_, ?_, ⟨by simp, ?_⟩, ?_, ?_, fun _ => ⟨p, hfree, rfl⟩,
      fun h => absurd hr h⟩
    · rw [hev]; simp [World.created, writesOf_append, writesOf]
    · rw [hoe]; rfl
    · intro q hq
      simp only [Writer.file.injEq] at hq
      rw [hex, ← hq]
      simp [World.created]
    · rw [hex]; simp [World.created]
    · intro q hq
      rw [hex]; simp [World.created, hq]
  · rw [if_neg hr] at hfo
    simp only [Outcome.andThen] at hfo
    obtain ⟨w', hwr, hev, hex, hoe, -⟩ := outputWrite_done
      { l with record := wrapInt64 (l.record + (msg.length : Int)) } w msg
      (by simpa using htarget.1)
    refine ⟨_, w', by rw [hfo, hwr], hev, hoe, ⟨by simpa using htarget.1, ?_⟩, ?_, ?_,
      fun h => absurd h hr, fun _ => rfl⟩
    · intro q hq
      rw [hex]
      exact htarget.2 q hq
    · rw [hex]; omega
    · intro q hq
      rw [hex]; exact hq

theorem size_run (l : Logger) (w : World) (hinit : l.init = true)
    (hmode : l.rolling = SizeRolling) (hdir : l.dir ≠ []) (hpath : l.path ≠ [])
    (htarget : targetOpen l w) (hrec : l.record = 0) (hI : 0 < l.interval)
    (hopen : ∀ p, w.openErr p = none) :
    ∀ msgs : List Bytes,
      (∀ m ∈ msgs, l.interval + (m.length : Int) < 9223372036854775808) →
      w.existing.length + 2 * msgs.length < 9223372036854775806 →
      ∃ l' w' closed cur, writeAll l w msgs = .done (l', w') ∧
        SizeRun l w msgs l' w' closed cur := by
  intro msgs
  induction msgs using List.reverseRecOn with
  | nil =>
    intro _ _
    refine ⟨l, w, [], [], rfl, ?_⟩
    exact
      { writes := by simp [writesInto]
        messages := by simp [messagesOf]
        record := by simpa [byteCount] using hrec
        distinct := by simp
        first := by simp
        full := by simp
        current := Or.inl rfl
        onDisk := by
          intro b hb q hq
          simp only [List.nil_append, List.mem_singleton] at hb
          rw [hb] at hq
          exact htarget.2 q hq
        logger := ⟨hinit, hmode, rfl, rfl, rfl, htarget.1⟩
        world := ⟨rfl, by simp⟩ }
  | append_singleton ms m ih =>
    intro hlen hsize
    have hlen' : ∀ x ∈ ms, l.interval + (x.length : Int) < 9223372036854775808 :=
      fun x hx => hlen x (List.mem_append_left _ hx)
    have hm : l.interval + (m.length : Int) < 9223372036854775808 :=
      hlen m (List.mem_append_right _ (List.mem_singleton.mpr rfl))
    have hsz : (ms ++ [m]).length = ms.length + 1 := by simp
    obtain ⟨l1, w1, closed, cur, hrun, inv⟩ := ih hlen' (by omega)
    obtain ⟨hinit1, hmode1, hdir1, hpath1, hint1, hout1⟩ := inv.logger
    have ht1 : targetOpen l1 w1 :=
      ⟨hout1, fun q hq => inv.onDisk (l1.output, cur) (by simp) q hq⟩
    obtain ⟨l2, w2, hstep, hev, hoe, ht2, hlen2, hsub, hrot, hno⟩ :=
      size_step l1 w1 m hinit1 hmode1 (by rw [hdir1]; exact hdir) (by rw [hpath1]; exact hpath)
        ht1 (by have := inv.world.2; omega) (by rw [inv.world.1]; exact hopen)
    have hrun2 : writeAll l w (ms ++ [m]) = .done (l2, w2) := by
      rw [writeAll_snoc, hrun]
      exact hstep
    have hnn := byteCount_nonneg cur
    by_cases hr : l1.record > l1.interval
    · obtain ⟨p, hp, hl2⟩ := hrot hr
      have hwrap : wrapInt64 (0 + (m.length : Int)) = (m.length : Int) := by
        rw [wrapInt64_of_range (by omega) (by omega)]; omega
      rw [hwrap] at hl2
      have hout2 : l2.output = .file p := by rw [hl2]
      have hcurfull : l.interval < byteCount cur ∧
          ∃ ini last, cur = ini ++ [last] ∧ byteCount ini ≤ l.interval := by
        have hgt : l.interval < byteCount cur := by rw [← inv.record, ← hint1]; exact hr
        refine ⟨hgt, ?_⟩
        rcases inv.current with h | h
        · rw [h] at hgt; simp [byteCount] at hgt; omega
        · exact h
      refine ⟨l2, w2, closed ++ [(l1.output, cur)], [m], hrun2, ?_⟩
      exact
        { writes := by
            rw [hev, inv.writes, hout2, writesInto_append _ [(Writer.file p, [m])]]
            simp [writesInto]
          messages := by
            rw [messagesOf_append _ [(l2.output, [m])], ← inv.messages]
            simp [messagesOf]
          record := by rw [hl2]; simp [byteCount]
          distinct := by
            rw [List.map_append, List.nodup_append]
            refine ⟨inv.distinct, by simp, ?_⟩
            intro t ht1' ht2'
            simp only [List.map_cons, List.map_nil, List.mem_singleton] at ht2'
            rw [ht2', hout2] at ht1'
            obtain ⟨b, hb, hbt⟩ := List.mem_map.mp ht1'
            exact hp (inv.onDisk b hb p hbt)
          first := by
            rw [List.map_append, List.head?_append_of_ne_nil _ (by simp)]
            exact inv.first
          full := by
            intro b hb
            rcases List.mem_append.mp hb with hb | hb
            · exact inv.full b hb
            · rw [List.mem_singleton] at hb
              rw [hb]; exact hcurfull
          current := Or.inr ⟨[], m, rfl, by simp [byteCount]; omega⟩
          onDisk := by
            intro b hb q hq
            rcases List.mem_append.mp hb with hb | hb
            · exact hsub q (inv.onDisk b hb q hq)
            · rw [List.mem_singleton] at hb
              rw [hb] at hq
              exact ht2.2 q hq
          logger := by
            rw [hl2]
            exact ⟨rfl, hmode1, hdir1, hpath1, hint1, by simp⟩
          world := ⟨by rw [hoe, inv.world.1], by have := inv.world.2; omega⟩ }
    · have hl2 := hno hr
      have hwrap : wrapInt64 (l1.record + (m.length : Int)) = l1.record + (m.length : Int) := by
        have h1 : l1.record ≤ l.interval := by rw [← hint1]; omega
        have h2 : 0 ≤ l1.record := by rw [inv.record]; exact hnn
        exact wrapInt64_of_range (by omega) (by omega)
      rw [hwrap] at hl2
      have hout2 : l2.output = l1.output := by rw [hl2]
      refine ⟨l2, w2, closed, cur ++ [m], hrun2, ?_⟩
      exact
        { writes := by
            rw [hev, inv.writes, hout2, writesInto_append, writesInto_append]
            simp [writesInto]
          messages := by
            have h := inv.messages
            rw [messagesOf_append] at h
            rw [hout2, messagesOf_append]
            conv_lhs => rw [h]
            simp [messagesOf]
          record := by
            rw [hl2, byteCount_append]
            simp only [byteCount]
            rw [← inv.record]; ring
          distinct := by rw [hout2]; simpa using inv.distinct
          first := by rw [hout2]; simpa using inv.first
          full := inv.full
          current := Or.inr ⟨cur, m, rfl, by rw [← inv.record, ← hint1]; omega⟩
          onDisk := by
            intro b hb q hq
            rcases List.mem_append.mp hb with hb | hb
            · exact hsub q (inv.onDisk b (List.mem_append_left _ hb) q hq)
            · rw [List.mem_singleton] at hb
              rw [hb] at hq
              exact ht2.2 q hq
          logger := by
            rw [hl2]
            exact ⟨hinit1, hmode1, hdir1, hpath1, hint1, hout1⟩
          world := ⟨by rw [hoe, inv.world.1], by have := inv.world.2; omega⟩ }

/-! ## `filepath.Clean`, element by element -/

theorem cleanLoop_nil (r : Bool) (f : Nat) (out : Bytes) (dd : Nat) :
    filepath.cleanLoop r f [] out dd = out := by
  cases f <;> rfl

theorem length_dropWhile_le' (q : Char → Bool) (l : Bytes) :
    (l.dropWhile q).length ≤ l.length := by
  induction l with
  | nil => simp
  | cons a l ih =>
    rw [List.dropWhile_cons]
    split
    · exact le_trans ih (by simp)
    · exact le_refl _

theorem cleanLoop_fuel (r : Bool) : ∀ (f g : Nat) (inp out : Bytes) (dd : Nat),
    inp.length ≤ f → inp.length ≤ g →
    filepath.cleanLoop r f inp out dd = filepath.cleanLoop r g inp out dd := by
  intro f
  induction f with
  | zero =>
    intro g inp out dd hf _
    have : inp = [] := List.length_eq_zero.mp (by omega)
    subst this
    rw [cleanLoop_nil, cleanLoop_nil]
  | succ f ih =>
    intro g inp out dd hf hg
    cases inp with
    | nil => rw [cleanLoop_nil, cleanLoop_nil]
    | cons c rest =>
      obtain ⟨g, rfl⟩ : ∃ g', g = g' + 1 := ⟨g - 1, by simp at hg; omega⟩
      simp only [List.length_cons] at hf hg
      have htail : rest.tail.length ≤ rest.length := by simp
      have hd : ¬ c = '/' →
          (List.dropWhile (fun x => decide (x ≠ '/')) (c :: rest)).length ≤ rest.length := by
        intro h1
        rw [List.dropWhile_cons]
        simp only [h1, ne_eq, not_false_eq_true, decide_True, if_true]
        exact length_dropWhile_le' _ _
      simp only [filepath.cleanLoop]
      split_ifs <;>
        first
        | exact ih _ _ _ _ (by omega) (by omega)
        | exact ih _ _ _ _ (by have := hd ‹_›; omega) (by have := hd ‹_›; omega)

theorem takeWhile_elem (e tail : Bytes) (he : '/' ∉ e)
    (ht : tail = [] ∨ tail.head? = some '/') :
    (e ++ tail).takeWhile (· ≠ '/') = e ∧ (e ++ tail).dropWhile (· ≠ '/') = tail := by
  induction e with
  | nil =>
    rcases ht with rfl | ht
    · simp
    · cases tail with
      | nil => simp
      | cons c t =>
        simp only [List.head?_cons, Option.some.injEq] at ht
        subst ht
        simp
  | cons c e ih =>
    have hc : c ≠ '/' := fun h => he (by simp [h])
    have he' : '/' ∉ e := fun h => he (by simp [h])
    obtain ⟨h1, h2⟩ := ih he'
    have hd : decide (c ≠ '/') = true := by simpa using hc
    constructor
    · rw [List.cons_append, List.takeWhile_cons]
      simp only [hd, if_true, h1]
    · rw [List.cons_append, List.dropWhile_cons]
      simp only [hd, if_true, h2]

theorem cleanLoop_sep (r : Bool) (tail out : Bytes) (dd f : Nat)
    (ht : tail = [] ∨ tail.head? = some '/') (hf : tail.length ≤ f) :
    filepath.cleanLoop r f tail out dd =
      filepath.cleanLoop r tail.tail.length tail.tail out dd := by
  cases tail with
  | nil => rw [cleanLoop_nil]; rfl
  | cons c t =>
    have hc : c = '/' := by simpa using ht
    subst hc
    obtain ⟨f, rfl⟩ : ∃ f', f = f' + 1 := ⟨f - 1, by simp at hf; omega⟩
    simp only [filepath.cleanLoop, if_true, List.tail_cons]
    exact cleanLoop_fuel r _ _ _ _ _ (by simpa using hf) (le_refl _)

theorem cleanLoop_elem (r : Bool) (e tail out : Bytes) (dd f : Nat) (he : '/' ∉ e)
    (ht : tail = [] ∨ tail.head? = some '/') (hf : (e ++ tail).length ≤ f) :
    filepath.cleanLoop r f (e ++ tail) out dd =
      filepath.cleanLoop r tail.tail.length tail.tail
        (filepath.cleanStep r (out, dd) e).1 (filepath.cleanStep r (out, dd) e).2 := by
  cases e with
  | nil =>
    simp only [List.nil_append, filepath.cleanStep, true_or, if_true]
    exact cleanLoop_sep r tail out dd f ht (by simpa using hf)
  | cons c e' =>
    have hc : c ≠ '/' := fun h => he (by simp [h])
    have he' : '/' ∉ e' := fun h => he (by simp [h])
    obtain ⟨f, rfl⟩ : ∃ f', f = f' + 1 := ⟨f - 1, by simp at hf; omega⟩
    have hf' : tail.length ≤ f := by simp at hf; omega
    by_cases h1 : c :: e' = ['.']
    · simp only [List.cons.injEq] at h1
      obtain ⟨rfl, rfl⟩ := h1
      have hcond : ('.' = '.' ∧ (tail = [] ∨ tail.head? = some '/')) := ⟨rfl, ht⟩
      show filepath.cleanLoop r (f + 1) ('.' :: tail) out dd = _
      simp only [filepath.cleanLoop, hc, hcond, if_true,
        if_false, filepath.cleanStep, or_true, and_self]
      exact cleanLoop_sep r tail out dd f ht hf'
    by_cases h2 : c :: e' = ['.', '.']
    · simp only [List.cons.injEq] at h2
      obtain ⟨rfl, rfl⟩ := h2
      have hn2 : ¬ ('.' = '.' ∧ (('.' :: tail) = [] ∨ ('.' :: tail).head? = some '/')) := by
        simp
      have hc3 : ('.' = '.' ∧ ('.' :: tail).head? = some '.' ∧
          (('.' :: tail).tail = [] ∨ ('.' :: tail).tail.head? = some '/')) := by
        simpa using ht
      have hne1 : ¬ (['.', '.'] = ([] : Bytes) ∨ ['.', '.'] = ['.']) := by simp
      show filepath.cleanLoop r (f + 1) ('.' :: '.' :: tail) out dd = _
      simp only [filepath.cleanLoop, hc, if_false, filepath.cleanStep, hne1, List.tail_cons,
        List.head?_cons, if_true]
      rw [if_neg (by simp), if_pos (by simpa using ht)]
      by_cases hgt : out.length > dd
      · simp only [hgt, if_true]
        exact cleanLoop_sep r tail _ dd f ht hf'
      · simp only [hgt, if_false]
        cases r with
        | true =>
          simp only [Bool.not_true, Bool.false_eq_true, if_false]
          exact cleanLoop_sep true tail _ dd f ht hf'
        | false =>
          simp only [Bool.not_false, if_true]
          exact cleanLoop_sep false tail _ _ f ht hf'
    · have hn2 : ¬ (c = '.' ∧ ((e' ++ tail) = [] ∨ (e' ++ tail).head? = some '/')) := by
        rintro ⟨rfl, h⟩
        cases e' with
        | nil => exact h1 rfl
        | cons d e2 =>
          have hd : d ≠ '/' := fun h => he' (by simp [h])
          simp at h
          exact hd h
      have hn3 : ¬ (c = '.' ∧ (e' ++ tail).head? = some '.' ∧
          ((e' ++ tail).tail = [] ∨ (e' ++ tail).tail.head? = some '/')) := by
        rintro ⟨rfl, hh, h⟩
        cases e' with
        | nil => exact h1 rfl
        | cons d e2 =>
          simp only [List.cons_append, List.head?_cons, Option.some.injEq] at hh
          subst hh
          cases e2 with
          | nil => exact h2 rfl
          | cons x e3 =>
            have hx : x ≠ '/' := fun h => he' (by simp [h])
            simp at h
            exact hx h
      have hne1 : ¬ (c :: e' = ([] : Bytes) ∨ c :: e' = ['.']) := by simp [h1]
      obtain ⟨htw, hdw⟩ := takeWhile_elem (c :: e') tail he ht
      simp only [List.cons_append] at htw hdw
      show filepath.cleanLoop r (f + 1) (c :: (e' ++ tail)) out dd = _
      simp only [filepath.cleanLoop, hc, hn2, hn3, if_false, htw, hdw,
        filepath.cleanStep, hne1, h2, filepath.appendElem]
      exact cleanLoop_sep r tail _ dd f ht hf'

theorem joinElems_cons (e : Bytes) (es : List Bytes) (h : es ≠ []) :
    joinElems (e :: es) = e ++ '/' :: joinElems es := by
  cases es with
  | nil => exact absurd rfl h
  | cons e2 es => rfl

theorem cleanLoop_joinElems (r : Bool) : ∀ (es : List Bytes) (out : Bytes) (dd f : Nat),
    (∀ e ∈ es, '/' ∉ e) → (joinElems es).length ≤ f →
    filepath.cleanLoop r f (joinElems es) out dd =
      (es.foldl (filepath.cleanStep r) (out, dd)).1 := by
  intro es
  induction es with
  | nil => intro out dd f _ _; simp [joinElems, cleanLoop_nil]
  | cons e es ih =>
    intro out dd f hes hf
    have he : '/' ∉ e := hes e (by simp)
    have hes' : ∀ x ∈ es, '/' ∉ x := fun x hx => hes x (by simp [hx])
    cases es with
    | nil =>
      have := cleanLoop_elem r e [] out dd f he (Or.inl rfl) (by simpa [joinElems] using hf)
      simpa [joinElems, cleanLoop_nil] using this
    | cons e2 es =>
      rw [joinElems_cons e (e2 :: es) (by simp)] at hf ⊢
      rw [cleanLoop_elem r e ('/' :: joinElems (e2 :: es)) out dd f he (Or.inr rfl) hf]
      simp only [List.tail_cons, List.foldl_cons]
      exact ih _ _ _ hes' (le_refl _)

/-! ## The states of `filepath.Clean` -/

theorem clean_eq (r : Bool) (p : Bytes) (f : Nat) (hp : p ≠ [])
    (hr : p.head? = some '/' ↔ r = true) (hf : p.length ≤ f) :
    filepath.Clean p =
      filepath.render (filepath.cleanLoop r f p (filepath.root r) (filepath.root r).length) := by
  cases p with
  | nil => exact absurd rfl hp
  | cons c rest =>
    obtain ⟨f, rfl⟩ : ∃ f', f = f' + 1 := ⟨f - 1, by simp at hf; omega⟩
    have hf' : rest.length ≤ f := by simp at hf; omega
    unfold filepath.Clean
    by_cases hc : c = '/'
    · subst hc
      have hrt : r = true := hr.mp rfl
      subst hrt
      simp only [if_true, filepath.render, filepath.root, filepath.cleanLoop, List.length_cons,
        List.length_nil]
      rw [cleanLoop_fuel true _ f rest ['/'] 1 (by omega) hf']
    · have hrf : r = false := by
        cases r with
        | false => rfl
        | true => exact absurd (by simpa using hr.mpr rfl) hc
      subst hrf
      simp only [hc, if_false, filepath.render, filepath.root, Bool.false_eq_true,
        List.length_nil]
      rw [cleanLoop_fuel false _ (f + 1) (c :: rest) [] 0 (by simp) hf]

theorem appendElem_length (r : Bool) (out e : Bytes) :
    out.length + e.length ≤ (filepath.appendElem r out e).length := by
  unfold filepath.appendElem
  split_ifs <;> simp <;> omega

theorem valid_bounds (r : Bool) (out : Bytes) (dd : Nat) (h : filepath.Valid r out dd) :
    (filepath.root r).length ≤ dd ∧ dd ≤ out.length := by
  induction h with
  | start => exact ⟨le_refl _, le_refl _⟩
  | dots out hr _ ih =>
    subst hr
    exact ⟨by simp [filepath.root], le_refl _⟩
  | real out dd e _ _ ih =>
    have := appendElem_length r out e
    exact ⟨ih.1, by omega⟩

theorem valid_root (r : Bool) (out : Bytes) (dd : Nat) (h : filepath.Valid r out dd)
    (hlen : out.length ≤ (filepath.root r).length) :
    out = filepath.root r ∧ dd = (filepath.root r).length := by
  cases h with
  | start => exact ⟨rfl, rfl⟩
  | dots out hr _ =>
    subst hr
    simp [filepath.root] at hlen
  | real out dd e hv he =>
    have h1 := appendElem_length r out e
    have h2 := valid_bounds r out dd hv
    have h3 : 0 < e.length := List.length_pos.mpr he.1
    omega

theorem backtrack_sep (dd : Nat) (o : Bytes) (hdd : dd ≤ o.length) :
    ∀ (x : Bytes) (c : Char), c ≠ '/' → '/' ∉ x →
      filepath.backtrack dd (c :: (x ++ '/' :: o)) = o := by
  intro x
  induction x with
  | nil =>
    intro c hc _
    have h1 : ('/' :: o).length > dd ∧ c ≠ '/' := ⟨by simp; omega, hc⟩
    have h2 : ¬ (o.length > dd ∧ '/' ≠ '/') := by simp
    simp only [List.nil_append, filepath.backtrack]
    rw [if_pos h1, if_neg h2]
  | cons d x ih =>
    intro c hc hx
    have hd : d ≠ '/' := fun h => hx (by simp [h])
    have hx' : '/' ∉ x := fun h => hx (by simp [h])
    have h1 : (d :: (x ++ '/' :: o)).length > dd ∧ c ≠ '/' := ⟨by simp; omega, hc⟩
    show filepath.backtrack dd (c :: d :: (x ++ '/' :: o)) = o
    rw [filepath.backtrack, if_pos h1]
    exact ih d hd hx'

theorem backtrack_root (dd : Nat) (o : Bytes) (hdd : dd = o.length) :
    ∀ (x : Bytes) (c : Char), c ≠ '/' → '/' ∉ x →
      filepath.backtrack dd (c :: (x ++ o)) = o := by
  intro x
  induction x with
  | nil =>
    intro c _ _
    have h1 : ¬ (o.length > dd ∧ c ≠ '/') := by omega
    simp only [List.nil_append, filepath.backtrack]
    rw [if_neg h1]
  | cons d x ih =>
    intro c hc hx
    have hd : d ≠ '/' := fun h => hx (by simp [h])
    have hx' : '/' ∉ x := fun h => hx (by simp [h])
    have h1 : (d :: (x ++ o)).length > dd ∧ c ≠ '/' := ⟨by simp; omega, hc⟩
    show filepath.backtrack dd (c :: d :: (x ++ o)) = o
    rw [filepath.backtrack, if_pos h1]
    exact ih d hd hx'

theorem backtrack_appendElem (r : Bool) (out : Bytes) (dd : Nat) (e : Bytes)
    (hv : filepath.Valid r out dd) (he : RealElem e) :
    filepath.backtrack dd (filepath.appendElem r out e) = out := by
  obtain ⟨hne, _, _, hslash⟩ := he
  have hb := valid_bounds r out dd hv
  have hrev : '/' ∉ e.reverse := by simpa using hslash
  cases hx : e.reverse with
  | nil => exact absurd (by simpa using hx) hne
  | cons c x =>
    rw [hx] at hrev
    have hc : c ≠ '/' := fun h => hrev (by simp [h])
    have hx' : '/' ∉ x := fun h => hrev (by simp [h])
    unfold filepath.appendElem
    rw [hx]
    by_cases hsep : (r ∧ out.length ≠ 1) ∨ (¬ r ∧ out.length ≠ 0)
    · rw [if_pos hsep]
      exact backtrack_sep dd out hb.2 x c hc hx'
    · rw [if_neg hsep]
      have hlen : out.length ≤ (filepath.root r).length := by
        cases r with
        | true =>
          have h1 : out.length = 1 := by
            by_contra h; exact hsep (Or.inl ⟨rfl, h⟩)
          simp [filepath.root, h1]
        | false =>
          have h0 : out.length = 0 := by
            by_contra h; exact hsep (Or.inr ⟨by simp, h⟩)
          simp [filepath.root, h0]
      have := valid_root r out dd hv hlen
      exact backtrack_root dd out (by rw [this.2, ← this.1]) x c hc hx'

theorem valid_step (r : Bool) (s : Bytes × Nat) (e : Bytes) (hv : filepath.Valid r s.1 s.2)
    (he : '/' ∉ e) :
    filepath.Valid r (filepath.cleanStep r s e).1 (filepath.cleanStep r s e).2 := by
  unfold filepath.cleanStep
  by_cases h1 : e = [] ∨ e = ['.']
  · rw [if_pos h1]; exact hv
  rw [if_neg h1]
  by_cases h2 : e = ['.', '.']
  · rw [if_pos h2]
    by_cases hgt : s.1.length > s.2
    · rw [if_pos hgt]
      show filepath.Valid r (filepath.backtrack s.2 s.1) s.2
      generalize s.1 = out at hv hgt
      generalize s.2 = dd at hv hgt
      cases hv with
      | start => omega
      | dots out hr _ => omega
      | real out dd e hv he => rw [backtrack_appendElem r out dd e hv he]; exact hv
    · rw [if_neg hgt]
      have hb := valid_bounds r s.1 s.2 hv
      have heq : s.2 = s.1.length := by omega
      cases r with
      | true => simpa using hv
      | false =>
        simp only [Bool.not_false, if_true]
        rw [heq] at hv
        exact filepath.Valid.dots s.1 rfl hv
  · rw [if_neg h2]
    have hreal : RealElem e := ⟨fun h => h1 (Or.inl h), fun h => h1 (Or.inr h), h2, he⟩
    exact filepath.Valid.real s.1 s.2 e hv hreal

theorem valid_foldl (r : Bool) : ∀ (es : List Bytes) (s : Bytes × Nat),
    filepath.Valid r s.1 s.2 → (∀ e ∈ es, '/' ∉ e) →
    filepath.Valid r (es.foldl (filepath.cleanStep r) s).1 (es.foldl (filepath.cleanStep r) s).2 := by
  intro es
  induction es with
  | nil => intro s hv _; exact hv
  | cons e es ih =>
    intro s hv hes
    exact ih _ (valid_step r s e hv (hes e (by simp))) (fun x hx => hes x (by simp [hx]))

theorem cleanStep_real (r : Bool) (s : Bytes × Nat) (e : Bytes) (he : RealElem e) :
    filepath.cleanStep r s e = (filepath.appendElem r s.1 e, s.2) := by
  unfold filepath.cleanStep
  rw [if_neg (by rintro (h | h); exact he.1 h; exact he.2.1 h), if_neg he.2.2.1]

theorem cleanLoop_root (r : Bool) (x : Bytes) (f : Nat)
    (hf : ((filepath.root r).reverse ++ x).length ≤ f) :
    filepath.cleanLoop r f ((filepath.root r).reverse ++ x) (filepath.root r)
        (filepath.root r).length =
      filepath.cleanLoop r x.length x (filepath.root r) (filepath.root r).length := by
  cases r with
  | true =>
    have h := cleanLoop_sep true ('/' :: x) ['/'] 1 f (Or.inr rfl) (by simpa [filepath.root] using hf)
    simpa [filepath.root] using h
  | false =>
    simp only [filepath.root, Bool.false_eq_true, if_false, List.reverse_nil, List.nil_append,
      List.length_nil] at hf ⊢
    exact cleanLoop_fuel false _ _ _ _ _ hf (le_refl _)

theorem cleanLoop_reread (r : Bool) (out : Bytes) (dd : Nat) (hv : filepath.Valid r out dd) :
    ∀ (tail : Bytes) (f : Nat), (tail = [] ∨ tail.head? = some '/') →
      (out.reverse ++ tail).length ≤ f →
      filepath.cleanLoop r f (out.reverse ++ tail) (filepath.root r) (filepath.root r).length =
        filepath.cleanLoop r tail.tail.length tail.tail out dd := by
  induction hv with
  | start =>
    intro tail f ht hf
    rw [cleanLoop_root r tail f hf]
    exact cleanLoop_sep r tail _ _ _ ht (le_refl _)
  | dots out hr hv ih =>
    intro tail f ht hf
    subst hr
    have hstep : filepath.cleanStep false (out, out.length) ['.', '.'] =
        ('.' :: '.' :: (if out.length > 0 then '/' :: out else out),
          ('.' :: '.' :: (if out.length > 0 then '/' :: out else out)).length) := by
      simp [filepath.cleanStep]
    have hdd : '/' ∉ ['.', '.'] := by decide
    by_cases hlen : out.length > 0
    · have hinp : ('.' :: '.' :: (if out.length > 0 then '/' :: out else out)).reverse ++ tail =
          out.reverse ++ ('/' :: (['.', '.'] ++ tail)) := by
        rw [if_pos hlen]; simp
      rw [hinp] at hf ⊢
      rw [ih ('/' :: (['.', '.'] ++ tail)) f (Or.inr rfl) hf]
      simp only [List.tail_cons]
      rw [cleanLoop_elem false ['.', '.'] tail out out.length _ hdd ht (le_refl _), hstep]
    · have hnil : out = [] := List.length_eq_zero.mp (by omega)
      subst hnil
      have h := cleanLoop_elem false ['.', '.'] tail [] 0 f hdd ht (by simpa using hf)
      rw [show filepath.cleanStep false ([], 0) ['.', '.'] = (['.', '.'], 2) from by
        simp [filepath.cleanStep]] at h
      simpa [filepath.root] using h
  | real out dd e hv he ih =>
    intro tail f ht hf
    have hs := cleanStep_real r (out, dd) e he
    by_cases hsep : (r ∧ out.length ≠ 1) ∨ (¬ r ∧ out.length ≠ 0)
    · have hinp : (filepath.appendElem r out e).reverse ++ tail =
          out.reverse ++ ('/' :: (e ++ tail)) := by
        unfold filepath.appendElem
        rw [if_pos hsep]; simp
      rw [hinp] at hf ⊢
      rw [ih ('/' :: (e ++ tail)) f (Or.inr rfl) hf]
      simp only [List.tail_cons]
      rw [cleanLoop_elem r e tail out dd _ he.2.2.2 ht (le_refl _), hs]
    · have hlen : out.length ≤ (filepath.root r).length := by
        cases r with
        | true =>
          have h1 : out.length = 1 := by
            by_contra h; exact hsep (Or.inl ⟨rfl, h⟩)
          simp [filepath.root, h1]
        | false =>
          have h0 : out.length = 0 := by
            by_contra h; exact hsep (Or.inr ⟨by simp, h⟩)
          simp [filepath.root, h0]
      obtain ⟨hout, hdd⟩ := valid_root r out dd hv hlen
      have hinp : (filepath.appendElem r out e).reverse ++ tail =
          (filepath.root r).reverse ++ (e ++ tail) := by
        unfold filepath.appendElem
        rw [if_neg hsep, hout]; simp
      rw [hinp] at hf ⊢
      rw [cleanLoop_root r (e ++ tail) f hf]
      subst hout
      subst hdd
      rw [cleanLoop_elem r e tail _ _ _ he.2.2.2 ht (le_refl _), hs]

theorem valid_head (r : Bool) (out : Bytes) (dd : Nat) (hv : filepath.Valid r out dd) :
    out ≠ [] → (out.reverse.head? = some '/' ↔ r = true) := by
  induction hv with
  | start =>
    intro hne
    cases r with
    | true => simp [filepath.root]
    | false => simp [filepath.root] at hne
  | dots out hr hv ih =>
    intro _
    subst hr
    by_cases hlen : out.length > 0
    · have hne : out ≠ [] := List.length_pos.mp hlen
      have hrev : out.reverse ≠ [] := by simpa using hne
      rw [if_pos hlen]
      have : ('.' :: '.' :: '/' :: out).reverse = out.reverse ++ ['/', '.', '.'] := by simp
      rw [this, List.head?_append_of_ne_nil _ hrev]
      exact ih hne
    · have hnil : out = [] := List.length_eq_zero.mp (by omega)
      subst hnil
      simp
  | real out dd e hv he ih =>
    intro _
    by_cases hne : out = []
    · subst hne
      have hb := valid_bounds r [] dd hv
      have hr : r = false := by
        cases r with
        | false => rfl
        | true => simp [filepath.root] at hb; omega
      subst hr
      obtain ⟨hne, _, _, hslash⟩ := he
      cases e with
      | nil => exact absurd rfl hne
      | cons c e' =>
        have hc : c ≠ '/' := fun h => hslash (by simp [h])
        simp [filepath.appendElem, hc]
    · have hrev : out.reverse ≠ [] := by simpa using hne
      have : ∃ y, (filepath.appendElem r out e).reverse = out.reverse ++ y := by
        unfold filepath.appendElem
        split_ifs
        · exact ⟨'/' :: e, by simp⟩
        · exact ⟨e, by simp⟩
      obtain ⟨y, hy⟩ := this
      rw [hy, List.head?_append_of_ne_nil _ hrev]
      exact ih hne

/-! ## Cleaning a directory and a file name joined again -/

theorem joinElems_snoc (es : List Bytes) (x : Bytes) (h : es ≠ []) :
    joinElems (es ++ [x]) = joinElems es ++ '/' :: x := by
  induction es with
  | nil => exact absurd rfl h
  | cons e es ih =>
    cases es with
    | nil => rfl
    | cons e2 es =>
      have h1 := ih (by simp)
      show joinElems (e :: (e2 :: es ++ [x])) = _
      rw [joinElems_cons e _ (by simp), joinElems_cons e _ (by simp), h1]
      simp

theorem joinElems_snoc_append (es : List Bytes) (x y : Bytes) :
    joinElems (es ++ [x]) ++ y = joinElems (es ++ [x ++ y]) := by
  by_cases h : es = []
  · subst h; rfl
  · rw [joinElems_snoc es x h, joinElems_snoc es (x ++ y) h]; simp

theorem joinElems_snoc_head (es : List Bytes) (x y : Bytes) (h : es ≠ []) :
    (joinElems (es ++ [x])).head? = (joinElems (es ++ [y])).head? := by
  rw [joinElems_snoc es x h, joinElems_snoc es y h]
  cases joinElems es <;> rfl

theorem joinElems_snoc_ne_nil (es : List Bytes) (x : Bytes) (h : es ≠ [] ∨ x ≠ []) :
    joinElems (es ++ [x]) ≠ [] := by
  by_cases hes : es = []
  · subst hes
    rcases h with h | h
    · exact absurd rfl h
    · exact h
  · rw [joinElems_snoc es x hes]; simp

theorem clean_join (r : Bool) (es : List Bytes) (hes : ∀ e ∈ es, '/' ∉ e)
    (hne : joinElems es ≠ []) (hr : (joinElems es).head? = some '/' ↔ r = true) :
    filepath.Clean (joinElems es) =
      filepath.render
        (es.foldl (filepath.cleanStep r) (filepath.root r, (filepath.root r).length)).1 := by
  rw [clean_eq r _ _ hne hr (le_refl _), cleanLoop_joinElems r es _ _ _ hes (le_refl _)]

theorem appendElem_ne_nil (r : Bool) (out e : Bytes) (he : e ≠ []) :
    filepath.appendElem r out e ≠ [] := by
  have h1 := appendElem_length r out e
  have h2 : 0 < e.length := List.length_pos.mpr he
  intro h
  rw [h, List.length_nil] at h1
  omega

theorem appendElem_append (r : Bool) (out x y : Bytes) :
    (filepath.appendElem r out x).reverse ++ y = (filepath.appendElem r out (x ++ y)).reverse := by
  unfold filepath.appendElem
  simp

theorem render_appendElem (r : Bool) (out e : Bytes) (he : e ≠ []) :
    filepath.render (filepath.appendElem r out e) = (filepath.appendElem r out e).reverse := by
  unfold filepath.render
  rw [if_neg (appendElem_ne_nil r out e he)]

theorem clean_dot_name (name : Bytes) (hn : RealElem name) :
    filepath.Clean ('.' :: '/' :: name) = name := by
  have hes : ∀ e ∈ [['.'], name], '/' ∉ e := by
    intro e he
    simp only [List.mem_cons, List.mem_singleton, List.not_mem_nil, or_false] at he
    rcases he with rfl | rfl
    · decide
    · exact hn.2.2.2
  have h := clean_join false [['.'], name] hes (by simp [joinElems]) (by simp [joinElems])
  have hj : joinElems [['.'], name] = '.' :: '/' :: name := rfl
  rw [hj] at h
  rw [h]
  simp only [List.foldl_cons, List.foldl_nil]
  have h1 : filepath.cleanStep false (filepath.root false, (filepath.root false).length) ['.'] =
      (filepath.root false, (filepath.root false).length) := by
    simp [filepath.cleanStep]
  rw [h1, cleanStep_real false _ name hn, render_appendElem false _ name hn.1]
  simp [filepath.appendElem, filepath.root]

theorem clean_dir_name (es : List Bytes) (name ext : Bytes) (hes : ∀ e ∈ es, '/' ∉ e)
    (hn : RealElem name) (hb : RealElem (name ++ ext)) :
    filepath.Clean (filepath.Clean (joinElems (es ++ [[]])) ++ '/' :: name) ++ ext =
      filepath.Clean (joinElems (es ++ [name ++ ext])) := by
  obtain ⟨r, hr⟩ : ∃ r : Bool, (joinElems (es ++ [name ++ ext])).head? = some '/' ↔ r = true :=
    ⟨decide ((joinElems (es ++ [name ++ ext])).head? = some '/'), by simp⟩
  have hesb : ∀ e ∈ es ++ [name ++ ext], '/' ∉ e := by
    intro e he
    rcases List.mem_append.mp he with h | h
    · exact hes e h
    · rw [List.mem_singleton.mp h]; exact hb.2.2.2
  have hes0 : ∀ e ∈ es ++ [[]], '/' ∉ e := by
    intro e he
    rcases List.mem_append.mp he with h | h
    · exact hes e h
    · rw [List.mem_singleton.mp h]; simp
  have hv := valid_foldl r es (filepath.root r, (filepath.root r).length)
    filepath.Valid.start hes
  have hp := clean_join r _ hesb (joinElems_snoc_ne_nil es _ (Or.inr hb.1)) hr
  rw [List.foldl_append] at hp
  simp only [List.foldl_cons, List.foldl_nil] at hp
  rw [cleanStep_real r _ _ hb, render_appendElem r _ _ hb.1] at hp
  have hpre : filepath.Clean (joinElems (es ++ [[]])) =
      filepath.render
        (es.foldl (filepath.cleanStep r) (filepath.root r, (filepath.root r).length)).1 := by
    by_cases hnil : es = []
    · subst hnil
      have hrf : r = false := by
        cases r with
        | false => rfl
        | true =>
          have h1 := hr.mpr rfl
          have hne := hb.1
          have hsl := hb.2.2.2
          revert h1 hne hsl
          simp only [List.nil_append, joinElems]
          cases name ++ ext with
          | nil => simp
          | cons c t => intro h1 _ hsl; simp at h1; subst h1; simp at hsl
      subst hrf
      rfl
    · have h := clean_join r _ hes0 (joinElems_snoc_ne_nil es _ (Or.inl hnil))
        ((joinElems_snoc_head es [] (name ++ ext) hnil).symm ▸ hr)
      rw [List.foldl_append] at h
      rw [h]
      simp [filepath.cleanStep]
  rw [hpre, hp]
  generalize es.foldl (filepath.cleanStep r) (filepath.root r, (filepath.root r).length) = s
    at hv ⊢
  rw [← appendElem_append]
  congr 1
  by_cases hs : s.1 = []
  · have hbd := valid_bounds r s.1 s.2 hv
    have hrf : r = false := by
      cases r with
      | false => rfl
      | true => rw [hs] at hbd; simp [filepath.root] at hbd; omega
    subst hrf
    rw [hs]
    show filepath.Clean ('.' :: '/' :: name) = _
    rw [clean_dot_name name hn]
    simp [filepath.appendElem]
  · have hrender : filepath.render s.1 = s.1.reverse := by
      unfold filepath.render; rw [if_neg hs]
    have hrev : s.1.reverse ≠ [] := by simpa using hs
    rw [hrender]
    have hhead : (s.1.reverse ++ '/' :: name).head? = some '/' ↔ r = true := by
      rw [List.head?_append_of_ne_nil _ hrev]
      exact valid_head r s.1 s.2 hv hs
    rw [clean_eq r _ _ (by simp) hhead (le_refl _),
      cleanLoop_reread r s.1 s.2 hv ('/' :: name) _ (Or.inr rfl) (le_refl _)]
    simp only [List.tail_cons]
    have h := cleanLoop_elem r name [] s.1 s.2 name.length hn.2.2.2 (Or.inl rfl) (by simp)
    simp only [List.append_nil, List.tail_nil, List.length_nil, cleanLoop_nil] at h
    rw [h, cleanStep_real r _ _ hn, render_appendElem r _ _ hn.1]

theorem exists_join (s : Bytes) :
    ∃ (es : List Bytes) (last : Bytes),
      (∀ e ∈ es, '/' ∉ e) ∧ '/' ∉ last ∧ s = joinElems (es ++ [last]) := by
  induction s with
  | nil => exact ⟨[], [], by simp, by simp, rfl⟩
  | cons c s ih =>
    obtain ⟨es, last, hes, hl, hs⟩ := ih
    by_cases hc : c = '/'
    · refine ⟨[] :: es, last, ?_, hl, ?_⟩
      · intro e he
        rcases List.mem_cons.mp he with h | h
        · rw [h]; simp
        · exact hes e h
      · show c :: s = joinElems ([] :: (es ++ [last]))
        rw [joinElems_cons [] _ (by simp), ← hs, hc]; rfl
    · cases es with
      | nil =>
        refine ⟨[], c :: last, by simp, ?_, ?_⟩
        · intro h
          rcases List.mem_cons.mp h with h | h
          · exact hc h.symm
          · exact hl h
        · rw [hs]; rfl
      | cons e es =>
        refine ⟨(c :: e) :: es, last, ?_, hl, ?_⟩
        · intro x hx
          rcases List.mem_cons.mp hx with h | h
          · rw [h]
            intro h2
            rcases List.mem_cons.mp h2 with h3 | h3
            · exact hc h3.symm
            · exact hes e (by simp) h3
          · exact hes x (by simp [h])
        · show c :: s = joinElems ((c :: e) :: (es ++ [last]))
          rw [joinElems_cons (c :: e) _ (by simp), hs]
          show c :: joinElems (e :: (es ++ [last])) = _
          rw [joinElems_cons e _ (by simp)]
          rfl

theorem dir_base_join (es : List Bytes) (last : Bytes) (hl : '/' ∉ last) (hne : last ≠ []) :
    filepath.Dir (joinElems (es ++ [last])) = filepath.Clean (joinElems (es ++ [[]])) ∧
      filepath.Base (joinElems (es ++ [last])) = last := by
  have hp : joinElems (es ++ [last]) = joinElems (es ++ [[]]) ++ last := by
    rw [joinElems_snoc_append]; rfl
  generalize hq : joinElems (es ++ [[]]) = q at hp
  have hqr : q.reverse = [] ∨ q.reverse.head? = some '/' := by
    by_cases h : es = []
    · subst h; left; rw [← hq]; rfl
    · right; rw [← hq, joinElems_snoc es [] h]; simp
  have hlr : '/' ∉ last.reverse := by simpa using hl
  obtain ⟨htw, hdw⟩ := takeWhile_elem last.reverse q.reverse hlr hqr
  have hrev : (joinElems (es ++ [last])).reverse = last.reverse ++ q.reverse := by
    rw [hp]; simp
  constructor
  · unfold filepath.Dir
    rw [hrev, hdw, List.reverse_reverse]
  · have hpne : joinElems (es ++ [last]) ≠ [] := by
      rw [hp]; simp [hne]
    unfold filepath.Base
    rw [if_neg hpne]
    simp only
    rw [hrev]
    have hstrip : (last.reverse ++ q.reverse).dropWhile (· = '/') = last.reverse ++ q.reverse := by
      cases hx : last.reverse with
      | nil => exact absurd (by simpa using hx) hne
      | cons c x =>
        have hc : c ≠ '/' := by
          intro h
          apply hlr
          rw [hx, h]
          simp
        simp [List.dropWhile_cons, hc]
    rw [hstrip, List.reverse_reverse, htw, List.reverse_reverse, if_neg hne]

theorem join_dir_base (p : Bytes) (hend : p.getLast? ≠ some '/')
    (hname : strings.TrimSuffix (filepath.Base p) (path.Ext (filepath.Base p)) ∉
      [[], ['.'], ['.', '.']]) :
    '/' ∉ filepath.Base p ∧
    filepath.Join (filepath.Dir p)
        (strings.TrimSuffix (filepath.Base p) (path.Ext (filepath.Base p))) ++
      path.Ext (filepath.Base p) = filepath.Clean p := by
  obtain ⟨es, last, hes, hl, hp⟩ := exists_join p
  have hne : last ≠ [] := by
    intro h
    subst h
    by_cases hnil : es = []
    · subst hnil
      have : p = [] := hp
      subst this
      exact hname (by decide)
    · rw [joinElems_snoc es [] hnil] at hp
      exact hend (by rw [hp]; simp)
  obtain ⟨hdir, hbase⟩ := dir_base_join es last hl hne
  rw [← hp] at hdir hbase
  refine ⟨by rw [hbase]; exact hl, ?_⟩
  have hsplit := trimSuffix_ext (filepath.Base p)
  rw [hbase] at hsplit hname ⊢
  generalize strings.TrimSuffix last (path.Ext last) = name at hsplit hname
  generalize path.Ext last = ext at hsplit
  subst hsplit
  have hn1 : name ≠ [] := fun h => hname (by simp [h])
  have hn2 : name ≠ ['.'] := fun h => hname (by simp [h])
  have hn3 : name ≠ ['.', '.'] := fun h => hname (by simp [h])
  have hn : RealElem name := ⟨hn1, hn2, hn3, fun h => hl (by simp [h])⟩
  have hb : RealElem (name ++ ext) := by
    refine ⟨by simp [hn1], ?_, ?_, hl⟩
    · intro h
      cases name with
      | nil => exact hn1 rfl
      | cons c t =>
        simp only [List.cons_append, List.cons.injEq, List.append_eq_nil] at h
        exact hn2 (by rw [h.1, h.2.1])
    · intro h
      cases name with
      | nil => exact hn1 rfl
      | cons c t =>
        simp only [List.cons_append, List.cons.injEq] at h
        cases t with
        | nil => exact hn2 (by rw [h.1])
        | cons d u =>
          simp only [List.cons_append, List.cons.injEq, List.append_eq_nil] at h
          exact hn3 (by rw [h.1, h.2.1, h.2.2.1])
  have hjoin : filepath.Join (filepath.Dir p) name =
      filepath.Clean (filepath.Dir p ++ '/' :: name) := by
    unfold filepath.Join
    rw [if_pos (dir_ne_nil p)]
  rw [hjoin, hdir, hp]
  exact clean_dir_name es name ext hes hn hb

/-! ## The first write to a configured file -/

theorem logfile_opens (w : World) (fpath : Bytes) (hopen : ∀ p, w.openErr p = none) :
    ∃ w', logfile w fpath = (.ok (.file fpath), w') ∧
      (if fpath ∈ w.existing then Event.openAppend fpath else Event.create fpath) ∈ w'.events ∧
      writesOf w'.events = writesOf w.events := by
  refine ⟨(logfile w fpath).2, Prod.ext ?_ rfl, ?_, logfile_events w fpath⟩
  · unfold logfile
    by_cases hex : isExist w fpath = true
    · simp [hex, hopen, World.emit, localPrint, printStruct, World.now]
    · simp [hex, hopen, World.emit]
  · unfold logfile
    by_cases hex : fpath ∈ w.existing
    · simp [isExist, hex, hopen, World.emit, localPrint, printStruct, World.now]
    · simp [isExist, hex, hopen, World.emit]

theorem outputWrite_keeps (l : Logger) (w : World) (msg : Bytes) (e : Event)
    (he : e ∈ w.events) : e ∈ (Logger.outputWrite l w msg).state.2.events := by
  unfold Logger.outputWrite
  cases ho : l.output <;> cases hw : w.writeErr l.output <;>
    simp_all [Outcome.state, World.emit, localPrint, printStruct, World.now]

/-! # The properties of the specification -/

/-! ## C1: level gating -/

/-- C1. Level gating: an emit operation whose level is below the threshold of
the logger returns at once and changes neither the logger nor the environment;
one whose level is at or above the threshold hands exactly one line, the
formatted one, to `foutput`, and when that call returns the line is the one
`Write` added to the history; `Fatal` and `Fatalf` hand one error-level line
to `foutput` under every threshold and exit with status 1 once it returns. -/
theorem C1_level_gating (l : Logger) (w : World) (caller : Option (Bytes × Int)) (s : Bytes)
    (h0 : 0 ≤ callerLine caller) (h1 : callerLine caller < 9223372036854775808) :
    (∀ op : EmitOp,
      (op.level < l.level → op.run l w caller s = .done (l, w)) ∧
      (l.level ≤ op.level →
        op.run l w caller s =
            Logger.foutput { l with buf := scratchOf caller s } w.now.2
              (lineOf w op.level caller s op.variadic) ∧
        writesOf (op.run l w caller s).state.2.events =
          writesOf w.events ++
            (if (op.run l w caller s).isDone then
              [((op.run l w caller s).state.1.output, lineOf w op.level caller s op.variadic)]
            else []))) ∧
    Fatal l w caller s =
      ( Logger.foutput { l with buf := scratchOf caller s } w.now.2
        (lineOf w ErrorLevel caller s true)).andThen id (fun lw => .exit 1 lw) ∧
    Fatalf l w caller s =
      ( Logger.foutput { l with buf := scratchOf caller s } w.now.2
        (lineOf w ErrorLevel caller s false)).andThen id (fun lw => .exit 1 lw) := by
  have key : ∀ op : EmitOp, l.level ≤ op.level →
      op.run l w caller s =
        Logger.foutput { l with buf := scratchOf caller s } w.now.2
          (lineOf w op.level caller s op.variadic) := by
    intro op hle
    have hlt : ¬ op.level < l.level := not_lt.mpr hle
    cases op <;>
      simp only [EmitOp.level] at hlt <;>
      simp only [EmitOp.run, EmitOp.level, EmitOp.variadic, Debug, Debugf, Info, Infof, Warn, Warnf,
        Error, Errorf, hlt, if_false] <;>
      exact logPrint_eq _ _ _ _ _ _ (by simp) h0 h1
  refine ⟨fun op => ⟨?_, fun hle => ⟨key op hle, ?_⟩⟩, ?_, ?_⟩
  · intro hlt
    cases op <;> simp only [EmitOp.level] at hlt <;>
      simp [EmitOp.run, Debug, Debugf, Info, Infof, Warn, Warnf, Error, Errorf, hlt]
  · rw [key op hle]
    have h := foutput_writes { l with buf := scratchOf caller s } w.now.2
      (lineOf w op.level caller s op.variadic)
    simpa [World.now] using h
  · unfold Fatal
    rw [logPrint_eq _ _ _ _ _ _ (by simp) h0 h1]
  · unfold Fatalf
    rw [logPrint_eq _ _ _ _ _ _ (by simp) h0 h1]

/-- C1 at the default logger (threshold info) on an empty environment:
`Debug` is dropped, `Info` writes its one line to standard output. -/
theorem C1_level_gating_witness :
    Debug logger (World.sample [] fun _ => 0) (some ("main.go".toList, 7)) "x".toList =
        .done (logger, World.sample [] fun _ => 0) ∧
      Info logger (World.sample [] fun _ => 0) (some ("main.go".toList, 7)) "x".toList =
        Logger.foutput { logger with buf := " main.go:7 x".toList }
          (World.sample [] fun _ => 0).now.2
          ("\x1b[32;3m[I|2006-01-02|15:04:05] main.go:7 x\x1b[0m\n".toList) :=
  ⟨((C1_level_gating logger (World.sample [] fun _ => 0) (some ("main.go".toList, 7))
      "x".toList (by decide) (by decide)).1 EmitOp.debug).1 (by decide),
   (((C1_level_gating logger (World.sample [] fun _ => 0) (some ("main.go".toList, 7))
      "x".toList (by decide) (by decide)).1 EmitOp.info).2 (by decide)).1⟩

/-! ## C2: the trigger in time mode -/

/-- C2 as the code has it. On an initialised logger in time mode with
rollState `r` and rollInterval `i`, a write reads the clock, say `now`, and
runs the re-open procedure before writing exactly when `r + i < now` (the sum
in `int64`; it is the plain sum when that is in range): strictly later, not at
`now = r + i`. When a file path is configured and the file can be opened, the
rotation opens a path that did not exist and rollState becomes the next
reading of the clock, the one the re-open procedure takes. -/
theorem C2_time_trigger (l : Logger) (w : World) (msg : Bytes) (hinit : l.init = true)
    (hmode : l.rolling = TimeRolling) :
    Logger.foutput l w msg =
        (if wrapInt64 (l.record + l.interval) < w.clock w.ticks then
            Logger.initialize l w.now.2
          else .done (l, w.now.2)).andThen id
          (fun lw => Logger.outputWrite lw.1 lw.2 msg) ∧
      (-9223372036854775808 ≤ l.record + l.interval →
        l.record + l.interval < 9223372036854775808 →
        (wrapInt64 (l.record + l.interval) < w.clock w.ticks ↔
          l.record + l.interval < w.clock w.ticks)) ∧
      (l.dir ≠ [] → l.path ≠ [] → w.existing.length < 9223372036854775806 →
        (∀ p, w.openErr p = none) →
        ∃ p, p ∉ w.existing ∧
          Logger.initialize l w.now.2 =
            .done ({ l with output := .file p, record := w.clock (w.ticks + 1), init := true },
              (w.now.2.created p).now.2)) := by
  refine ⟨foutput_time l w msg hinit hmode, ?_, ?_⟩
  · intro h1 h2
    rw [wrapInt64_of_range h1 h2]
  · intro hdir hpath hsize hopen
    have hroll : l.rolling ≠ noRolling := by rw [hmode]; decide
    obtain ⟨k, hk, hfree, hbusy⟩ := exists_fresh (filepath.Join l.dir l.path) l.ext w.existing
    have htp := targetPath_rolling l w.now.2 k hroll hfree hbusy hk hsize
    refine ⟨_, hfree, ?_⟩
    rw [initialize_fresh l w.now.2 _ hdir hpath htp hfree (hopen _) (hopen _)]
    congr 1
    refine Prod.ext ?_ ?_
    · rw [opened_logger]
      simp [hmode, World.created, World.now]
    · rw [opened_world]
      simp [hmode]

/-- C2 in time mode with interval 10, rollState 0 and `tmp/test.log` on disk,
at the clock value 11: the write rotates to `tmp/test_1.log`. -/
theorem C2_time_trigger_witness :
    Logger.foutput (openLogger TimeRolling 10 0)
        (World.sample ["tmp/test.log".toList] fun _ => 11) "m".toList =
      (if wrapInt64 ((openLogger TimeRolling 10 0).record + (openLogger TimeRolling 10 0).interval)
            < 11 then
          Logger.initialize (openLogger TimeRolling 10 0)
            (World.sample ["tmp/test.log".toList] fun _ => 11).now.2
        else .done (openLogger TimeRolling 10 0,
          (World.sample ["tmp/test.log".toList] fun _ => 11).now.2)).andThen id
        (fun lw => Logger.outputWrite lw.1 lw.2 "m".toList) :=
  (C2_time_trigger (openLogger TimeRolling 10 0)
    (World.sample ["tmp/test.log".toList] fun _ => 11) "m".toList rfl rfl).1

/-- C2 as stated fails. (a) With rollState 0 and interval 10 a write at the
clock value 10 has `now >= r + i`, yet it does not rotate: the logger and the
file system are as before and the message goes to the old target, while a
rotation would have opened `tmp/test_1.log`. (b) In time mode with the base
name emptied (by `LogFile(".log")`) a write at 11 runs the re-open procedure,
which falls back to standard output and leaves rollState at 0. (c) With a
clock that advances at every reading, the write compares with the reading 11,
rotates, and rollState becomes the later reading 12. -/
theorem C2_counterexample :
    ((10 : Int) ≥ (openLogger TimeRolling 10 0).record + (openLogger TimeRolling 10 0).interval ∧
      ( Logger.foutput (openLogger TimeRolling 10 0)
        (World.sample ["tmp/test.log".toList] fun _ => 10) "m".toList).state.1
        = openLogger TimeRolling 10 0 ∧
      ( Logger.foutput (openLogger TimeRolling 10 0)
        (World.sample ["tmp/test.log".toList] fun _ => 10) "m".toList).state.2.events
        = [.write (.file "tmp/test.log".toList) "m".toList] ∧
      ( Logger.foutput (openLogger TimeRolling 10 0)
        (World.sample ["tmp/test.log".toList] fun _ => 10) "m".toList).state.2.existing
        = ["tmp/test.log".toList] ∧
      ( Logger.initialize (openLogger TimeRolling 10 0)
        (World.sample ["tmp/test.log".toList] fun _ => 10).now.2).state.1.output
        = .file "tmp/test_1.log".toList) ∧
    (( Logger.foutput { openLogger TimeRolling 10 0 with path := [], output := .stdout }
        (World.sample [] fun _ => 11) "m".toList).state.1.record = 0 ∧
      Logger.timeCheck { openLogger TimeRolling 10 0 with path := [], output := .stdout }
          (World.sample [] fun _ => 11) =
        Logger.initialize { openLogger TimeRolling 10 0 with path := [], output := .stdout }
          (World.sample [] fun _ => 11).now.2) ∧
    ((World.sample [] fun n => 11 + n).now.1 = 11 ∧
      ( Logger.foutput (openLogger TimeRolling 10 0)
        (World.sample [] fun n => 11 + n) "m".toList).state.1.record = 12) := by
  refine ⟨⟨by decide, by decide, by decide, by decide, by decide⟩, ⟨by decide, rfl⟩,
    ⟨by decide, by decide⟩⟩

/-! ## C3: the step in size mode -/

/-- C3. Size-mode step: on an initialised logger in size mode with a file path
configured and an open target (with fewer than 2^63 - 2 existing paths and no
error on opening), a write rotates exactly when rollState `r` exceeds
rollInterval `i`, compared before the message is counted. If `r > i` the
message is the one `Write` of the call and goes to a new target, a file that
did not exist, and rollState becomes `len(msg)`; otherwise the message goes to
the current target, no file is made, and rollState becomes `r + len(msg)` (the
sum in `int64`, the plain sum when it is in range). -/
theorem C3_size_step (l : Logger) (w : World) (msg : Bytes) (hinit : l.init = true)
    (hmode : l.rolling = SizeRolling) (hdir : l.dir ≠ []) (hpath : l.path ≠ [])
    (hout : l.output ≠ Writer.nil) (hlen : (msg.length : Int) < 9223372036854775808)
    (hsize : w.existing.length < 9223372036854775806) (hopen : ∀ p, w.openErr p = none) :
    (l.record > l.interval →
      ∃ p w', p ∉ w.existing ∧ p ∈ w'.existing ∧
        Logger.foutput l w msg =
          .done ({ l with output := .file p, record := (msg.length : Int), init := true }, w') ∧
        writesOf w'.events = writesOf w.events ++ [(.file p, msg)]) ∧
    (¬ l.record > l.interval →
      ∃ w', w'.existing = w.existing ∧
        Logger.foutput l w msg =
          .done ({ l with record := wrapInt64 (l.record + (msg.length : Int)) }, w') ∧
        writesOf w'.events = writesOf w.events ++ [(l.output, msg)] ∧
        (-9223372036854775808 ≤ l.record →
          l.record + (msg.length : Int) < 9223372036854775808 →
          wrapInt64 (l.record + (msg.length : Int)) = l.record + (msg.length : Int))) := by
  have hfo := foutput_size l w msg hinit hmode
  constructor
  · intro hr
    have hroll : l.rolling ≠ noRolling := by rw [hmode]; decide
    obtain ⟨k, hk, hfree, hbusy⟩ := exists_fresh (filepath.Join l.dir l.path) l.ext w.existing
    have htp := targetPath_rolling l w k hroll hfree hbusy hk hsize
    have hi := initialize_fresh l w _ hdir hpath htp hfree (hopen _) (hopen _)
    generalize candidate (filepath.Join l.dir l.path) l.ext k = p at hfree hi
    have hst : ¬ SizeRolling = TimeRolling := by decide
    have hl : (Logger.opened l (w.created p) (.file p)).1 =
        { l with output := .file p, record := 0, init := true } := by
      rw [opened_logger]; simp [hmode, hst]
    have hw : (Logger.opened l (w.created p) (.file p)).2 = w.created p := by
      rw [opened_world]; simp [hmode, hst]
    rw [if_pos hr, hi] at hfo
    simp only [Outcome.andThen, hl, hw] at hfo
    have hwrap : wrapInt64 ((0 : Int) + (msg.length : Int)) = (msg.length : Int) := by
      rw [wrapInt64_of_range (by omega) (by omega)]; omega
    rw [hwrap] at hfo
    obtain ⟨w', hwr, hev, hex, -, -⟩ := outputWrite_done
      { l with output := .file p, record := (msg.length : Int), init := true }
      (w.created p) msg (by simp)
    refine ⟨p, w', hfree, ?_, ?_, ?_⟩
    · rw [hex]; simp [World.created]
    · rw [hfo, hwr]
    · rw [hev]; simp [World.created, writesOf_append, writesOf]
  · intro hr
    rw [if_neg hr] at hfo
    simp only [Outcome.andThen] at hfo
    obtain ⟨w', hwr, hev, hex, -, -⟩ := outputWrite_done
      { l with record := wrapInt64 (l.record + (msg.length : Int)) } w msg (by simpa using hout)
    refine ⟨w', hex, ?_, hev, ?_⟩
    · rw [hfo, hwr]
    · intro h1 h2
      exact wrapInt64_of_range (by omega) h2

/-- C3 at interval 10 with `tmp/test.log` open and 11 bytes counted: the write
of `hello` rotates to `tmp/test_1.log` and rollState becomes 5. -/
theorem C3_size_step_witness :
    ∃ p w', p ∉ ["tmp/test.log".toList] ∧ p ∈ w'.existing ∧
      Logger.foutput (openLogger SizeRolling 10 11)
          (World.sample ["tmp/test.log".toList] fun _ => 0) "hello".toList =
        .done ({ openLogger SizeRolling 10 11 with output := .file p, record := 5, init := true },
          w') ∧
      writesOf w'.events = [(.file p, "hello".toList)] :=
  (C3_size_step (openLogger SizeRolling 10 11)
    (World.sample ["tmp/test.log".toList] fun _ => 0) "hello".toList rfl rfl (by decide)
    (by decide) (by decide) (by decide) (by decide) (fun _ => rfl)).1 (by decide)

/-! ## C4: collision-free naming -/

/-- C4 (amended). Collision-free naming: with a rolling mode active and a file
path configured (and fewer than 2^63 - 2 existing paths, so that the counter of
the loop does not wrap), the loop of the re-open procedure ends, whatever bound
on its turns is taken above the index it stops at, and the path it chooses is
the first one that does not exist in the sequence `J<ext>`, `J_1<ext>`,
`J_2<ext>`, ..., where `J` is `filepath.Join(dir, base)`, that is
`<dir>/<base>` after lexical cleaning: it does not exist, every earlier
candidate exists, and it is `J_1<ext>` when `J<ext>` exists and `J_1<ext>` does
not. `initialize` then hands that path to `logfile`, which creates it (it is
not opened for appending) when the operating system lets it. -/
theorem C4_collision_free_naming (l : Logger) (w : World)
    (hdir : l.dir ≠ []) (hpath : l.path ≠ []) (hroll : l.rolling ≠ noRolling)
    (hsize : w.existing.length < 9223372036854775806) :
    ∃ k : Nat, k ≤ w.existing.length ∧
      Logger.targetPath l w = some (candidate (filepath.Join l.dir l.path) l.ext k) ∧
      (∀ fuel, k < fuel →
        freshPath w (filepath.Join l.dir l.path) l.ext fuel (filepath.Join l.dir l.path ++ l.ext) 1
          = some (candidate (filepath.Join l.dir l.path) l.ext k)) ∧
      candidate (filepath.Join l.dir l.path) l.ext k ∉ w.existing ∧
      (∀ j < k, candidate (filepath.Join l.dir l.path) l.ext j ∈ w.existing) ∧
      (filepath.Join l.dir l.path ++ l.ext ∈ w.existing →
        filepath.Join l.dir l.path ++ "_1".toList ++ l.ext ∉ w.existing →
        candidate (filepath.Join l.dir l.path) l.ext k =
          filepath.Join l.dir l.path ++ "_1".toList ++ l.ext) ∧
      Logger.initialize l w =
        (match logfile w (candidate (filepath.Join l.dir l.path) l.ext k) with
        | (.error err, w') => .panic ("initialize log file error: ".toList ++ err) (l, w')
        | (.ok out, w') => .done (Logger.opened l w' out)) ∧
      (w.openErr (path.Dir (candidate (filepath.Join l.dir l.path) l.ext k)) = none →
        w.openErr (candidate (filepath.Join l.dir l.path) l.ext k) = none →
        Logger.initialize l w =
          .done (Logger.opened l (w.created (candidate (filepath.Join l.dir l.path) l.ext k))
            (.file (candidate (filepath.Join l.dir l.path) l.ext k)))) ∧
      filepath.Join l.dir l.path = filepath.Clean (l.dir ++ "/".toList ++ l.path) := by
  obtain ⟨k, hk, hfree, hbusy⟩ := exists_fresh (filepath.Join l.dir l.path) l.ext w.existing
  have htp := targetPath_rolling l w k hroll hfree hbusy hk hsize
  refine ⟨k, hk, htp, ?_, hfree, hbusy, ?_, ?_, ?_, ?_⟩
  · intro fuel hfuel
    exact freshPath_first w _ _ k fuel hfree hbusy hfuel (by omega)
  · intro h0 h1
    have hc0 : candidate (filepath.Join l.dir l.path) l.ext 0 = filepath.Join l.dir l.path ++ l.ext := by
      simp [candidate]
    have hc1 : candidate (filepath.Join l.dir l.path) l.ext 1 =
        filepath.Join l.dir l.path ++ "_1".toList ++ l.ext := by
      have hd : decimal 1 = "1".toList := by decide
      simp [candidate, hd]
    have hk0 : k ≠ 0 := by
      rintro rfl
      rw [hc0] at hfree
      exact hfree h0
    have hk1 : ¬ 1 < k := by
      intro hlt
      have := hbusy 1 hlt
      rw [hc1] at this
      exact h1 this
    have : k = 1 := by omega
    rw [this, hc1]
  · exact initialize_of_path l w _ hdir hpath htp
  · intro hod hop
    exact initialize_fresh l w _ hdir hpath htp hfree hod hop
  · unfold filepath.Join
    rw [if_pos hdir]
    simp

/-- C4 with `tmp/test.log` on disk and size rolling: the file opened is
`tmp/test_1.log`. -/
theorem C4_collision_free_naming_witness :
    ( Logger.initialize { fileLogger with rolling := SizeRolling }
        (World.sample ["tmp/test.log".toList] fun _ => 0)).state.1.output =
      .file "tmp/test_1.log".toList := by
  obtain ⟨k, -, -, -, -, -, h1, -, h3, -⟩ :=
    C4_collision_free_naming { fileLogger with rolling := SizeRolling }
      (World.sample ["tmp/test.log".toList] fun _ => 0)
      (by decide) (by decide) (by decide) (by decide)
  have hc := h1 (by decide) (by decide)
  rw [h3 rfl rfl, hc]
  rfl

/-- C4 as stated fails. `LogFile("a/..b")` returns with directory `a`, base
name `.` and extension `.b`, and `Rolling("size", 10240)` then returns in size
mode. The sequence of the claim begins with `a/..b`, `a/._1.b`; but
`Join("a", ".")` is `a`, so with nothing on disk the re-open procedure creates
`a.b`, and with `a.b` on disk it creates `a_1.b`, while `a/..b` does not exist
in either case. -/
theorem C4_counterexample :
    Logger.LogFile logger "a/..b".toList =
      .done { logger with dir := "a".toList, path := ".".toList, ext := ".b".toList } ∧
    ( Logger.Rolling { logger with dir := "a".toList, path := ".".toList, ext := ".b".toList }
        (World.sample [] fun _ => 0) "size".toList 10240).isDone = true ∧
    ( Logger.Rolling { logger with dir := "a".toList, path := ".".toList, ext := ".b".toList }
        (World.sample [] fun _ => 0) "size".toList 10240).state.1 =
      { logger with dir := "a".toList, path := ".".toList, ext := ".b".toList, rolling := SizeRolling, interval := 10240 } ∧
    "a".toList ++ "/".toList ++ ".".toList ++ ".b".toList = "a/..b".toList ∧
    "a".toList ++ "/".toList ++ ".".toList ++ "_1".toList ++ ".b".toList = "a/._1.b".toList ∧
    filepath.Clean "a/..b".toList = "a/..b".toList ∧
    ( Logger.initialize { logger with dir := "a".toList, path := ".".toList, ext := ".b".toList, rolling := SizeRolling, interval := 10240 }
        (World.sample [] fun _ => 0)).isDone = true ∧
    ( Logger.initialize { logger with dir := "a".toList, path := ".".toList, ext := ".b".toList, rolling := SizeRolling, interval := 10240 }
        (World.sample [] fun _ => 0)).state.1.output = .file "a.b".toList ∧
    ( Logger.initialize { logger with dir := "a".toList, path := ".".toList, ext := ".b".toList, rolling := SizeRolling, interval := 10240 }
        (World.sample [] fun _ => 0)).state.2.events =
      [.mkdirAll ".".toList, .create "a.b".toList] ∧
    ( Logger.initialize { logger with dir := "a".toList, path := ".".toList, ext := ".b".toList, rolling := SizeRolling, interval := 10240 }
        (World.sample ["a.b".toList] fun _ => 0)).state.1.output = .file "a_1.b".toList ∧
    ( Logger.initialize { logger with dir := "a".toList, path := ".".toList, ext := ".b".toList, rolling := SizeRolling, interval := 10240 }
        (World.sample ["a.b".toList] fun _ => 0)).state.2.events =
      [.mkdirAll ".".toList, .create "a_1.b".toList] := by
  decide

/-! ## C5: `Rolling` with another flag -/

/-- C5 (the code departs from its doc comment `flag: time, size, empty(not
rolling)`). With a file path configured, `Rolling` with any flag other than
`time` and `size` selects mode none, stores the interval and then panics with
`invalid rolling type`: it does not return. -/
theorem C5_other_flag_panics (l : Logger) (w : World) (flag : Bytes) (interval : Int)
    (hdir : l.dir ≠ []) (hpath : l.path ≠ []) (ht : flag ≠ TimeFlag) (hs : flag ≠ SizeFlag) :
    Logger.Rolling l w flag interval =
      .panic "invalid rolling type".toList
        ({ l with rolling := noRolling, interval := interval }, w) := by
  simp [Logger.Rolling, hdir, hpath, ht, hs, noRolling, TimeRolling, SizeRolling]

/-- C5 at `LogFile("./tmp/test.log")` and `Rolling("", 10)`. -/
theorem C5_empty_flag_panics :
    Logger.Rolling fileLogger (World.sample [] fun _ => 0) "".toList 10 =
      .panic "invalid rolling type".toList
        ({ fileLogger with rolling := noRolling, interval := 10 }, World.sample [] fun _ => 0) :=
  C5_other_flag_panics fileLogger (World.sample [] fun _ => 0) "".toList 10
    (by decide) (by decide) (by decide) (by decide)

/-! ## C6: `Rolling` with the flags `time` and `size` -/

/-- C6. For the flags `time` and `size`, `Rolling(flag, interval)` fails
exactly when the directory or the base name is empty or `interval <= 0`;
otherwise it returns the logger with the requested mode and `interval` stored
and every other field as before. An interval below the recommended minimum (10
for time, 10240 for size) only produces a warning: the clock is read once and
the one line `ESC[33;3m[Warn|<date>|<time>]<flag> rolling interval too
smallESC[0m` is printed on standard output; at or above the minimum nothing is
printed and the environment is as before. -/
theorem C6_rolling_time_size (l : Logger) (w : World) (flag : Bytes) (interval : Int)
    (hflag : flag = TimeFlag ∨ flag = SizeFlag) :
    ((Logger.Rolling l w flag interval).isDone = false ↔
        (l.dir = [] ∨ l.path = [] ∨ interval ≤ 0)) ∧
    (¬ (l.dir = [] ∨ l.path = [] ∨ interval ≤ 0) →
      Logger.Rolling l w flag interval =
        .done ({ l with rolling := modeOf flag, interval := interval },
          if interval < minimumOf flag then
            { w with ticks := w.ticks + 1, events := w.events ++ [Event.println ("\x1b[33;3m[Warn|".toList ++ w.dateOf (w.clock w.ticks) ++ "|".toList ++ w.timeOf (w.clock w.ticks) ++ "]".toList ++ warningOf flag ++ "\x1b[0m".toList)] }
          else w)) ∧
    MinTimeInterval = 10 ∧ MinSizeInterval = 10240 ∧
    modeOf TimeFlag = TimeRolling ∧ modeOf SizeFlag = SizeRolling ∧
    warningOf TimeFlag = "time rolling interval too small".toList ∧
    warningOf SizeFlag = "size rolling interval too small".toList := by
  have hne : TimeFlag ≠ SizeFlag := by decide
  have hne' : SizeFlag ≠ TimeFlag := by decide
  refine ⟨?_, ?_, by decide, by decide, by decide, by decide, by decide, by decide⟩
  · by_cases hd : l.dir = []
    · simp [Logger.Rolling, hd, Outcome.isDone]
    by_cases hp : l.path = []
    · simp [Logger.Rolling, hp, Outcome.isDone]
    by_cases hi : interval ≤ 0
    · rcases hflag with rfl | rfl <;>
        simp [Logger.Rolling, hd, hp, hi, hne', Outcome.isDone, noRolling, TimeRolling, SizeRolling]
    · rcases hflag with rfl | rfl
      · by_cases hm : interval < MinTimeInterval <;>
          simp [Logger.Rolling, hd, hp, hi, hm, hne', Outcome.isDone, noRolling, TimeRolling,
            SizeRolling]
      · by_cases hm : interval < MinSizeInterval <;>
          simp [Logger.Rolling, hd, hp, hi, hm, hne', Outcome.isDone, noRolling, TimeRolling,
            SizeRolling]
  · intro h
    simp only [not_or] at h
    obtain ⟨hd, hp, hi⟩ := h
    rcases hflag with rfl | rfl
    · by_cases hm : interval < MinTimeInterval <;>
        simp [Logger.Rolling, hd, hp, hi, hm, hne', modeOf, minimumOf, warningOf, noRolling,
          TimeRolling, SizeRolling, localPrint, printStruct, World.now, World.emit, yellow]
    · by_cases hm : interval < MinSizeInterval <;>
        simp [Logger.Rolling, hd, hp, hi, hm, hne', modeOf, minimumOf, warningOf, noRolling,
          TimeRolling, SizeRolling, localPrint, printStruct, World.now, World.emit, yellow]

/-- C6 at `LogFile("./tmp/test.log")` and `Rolling("size", 5)`: the interval is
below 10240, the call returns in size mode with interval 5, and the warning is
the one line printed. -/
theorem C6_rolling_time_size_witness :
    ( Logger.Rolling fileLogger (World.sample [] fun _ => 0) "size".toList 5).isDone = true ∧
    ( Logger.Rolling fileLogger (World.sample [] fun _ => 0) "size".toList 5).state.1 =
      { fileLogger with rolling := SizeRolling, interval := 5 } ∧
    ( Logger.Rolling fileLogger (World.sample [] fun _ => 0) "size".toList 5).state.2.events =
      [Event.println
        "\x1b[33;3m[Warn|2006-01-02|15:04:05]size rolling interval too small\x1b[0m".toList] ∧
    ( Logger.Rolling fileLogger (World.sample [] fun _ => 0) "size".toList 10240).state.2.events
      = [] := by
  have h := (C6_rolling_time_size fileLogger (World.sample [] fun _ => 0) "size".toList 5
    (Or.inr rfl)).2.1 (by decide)
  have h2 := (C6_rolling_time_size fileLogger (World.sample [] fun _ => 0) "size".toList 10240
    (Or.inr rfl)).2.1 (by decide)
  rw [h, h2]
  decide

/-! ## C7: `LogFile` -/

/-- C7 as the code has it. `LogFile(p)` either panics and leaves the logger as
it was, or returns it with a non-empty directory and with a base name and an
extension that hold no path separator and together spell the last element of
`p`; it panics when that last element is the separator itself. -/
theorem C7_logfile (l : Logger) (p : Bytes) :
    ((∃ msg, Logger.LogFile l p = .panic msg l) ∨
      (∃ l', Logger.LogFile l p = .done l' ∧
        l'.dir ≠ [] ∧ '/' ∉ l'.path ∧ '/' ∉ l'.ext ∧ l'.path ++ l'.ext = filepath.Base p ∧
        strings.Contains l'.path "/".toList = false ∧
        l' = { l with dir := l'.dir, path := l'.path, ext := l'.ext })) ∧
    (filepath.Base p = "/".toList → Logger.LogFile l p = .panic "invalid path".toList l) := by
  rw [logFile_eq]
  constructor
  · by_cases h : '/' ∈ filepath.Base p
    · left; exact ⟨_, by rw [if_pos h]⟩
    · right
      rw [if_neg h]
      have hcat := trimSuffix_ext (filepath.Base p)
      have hname : '/' ∉ strings.TrimSuffix (filepath.Base p) (path.Ext (filepath.Base p)) := by
        intro hm; apply h; rw [← hcat]; exact List.mem_append_left _ hm
      have hext : '/' ∉ path.Ext (filepath.Base p) := by
        intro hm; apply h; rw [← hcat]; exact List.mem_append_right _ hm
      refine ⟨_, rfl, dir_ne_nil p, hname, hext, hcat, ?_, rfl⟩
      cases hc : strings.Contains
        (strings.TrimSuffix (filepath.Base p) (path.Ext (filepath.Base p))) "/".toList with
      | false => rfl
      | true => exact absurd ((contains_slash _).mp hc) hname
  · intro hb
    have : '/' ∈ filepath.Base p := by rw [hb]; decide
    rw [if_pos this]

/-- C7 at the path `///`, whose last element is the separator. -/
theorem C7_logfile_witness :
    Logger.LogFile logger "///".toList = .panic "invalid path".toList logger :=
  (C7_logfile logger "///".toList).2 (by decide)

/-- C7 as stated fails: `LogFile("test")` returns with an empty extension, and
`LogFile(".log")`, whose base-name component is empty, returns with an empty
base name instead of failing. -/
theorem C7_counterexample :
    Logger.LogFile logger "test".toList =
        .done { logger with dir := ".".toList, path := "test".toList, ext := [] } ∧
      strings.TrimSuffix (filepath.Base ".log".toList) (path.Ext (filepath.Base ".log".toList))
        = [] ∧
      Logger.LogFile logger ".log".toList =
        .done { logger with dir := ".".toList, path := [], ext := ".log".toList } := by
  decide

/-! ## C8: `Level` -/

/-- C8. `Level(flag)` returns exactly when `flag` is `debug`, `info`, `warn` or
`error` as written; the threshold is then Debug, Info, Warn, Error in that
order and no other field changes. For every other string it panics and the
logger, its threshold included, is as before. -/
theorem C8_level (l : Logger) (flag : Bytes) :
    ((Logger.Level l flag).isDone = true ↔
        flag ∈ ["debug".toList, "info".toList, "warn".toList, "error".toList]) ∧
    Logger.Level l "debug".toList = .done { l with level := DebugLevel } ∧
    Logger.Level l "info".toList = .done { l with level := InfoLevel } ∧
    Logger.Level l "warn".toList = .done { l with level := WarnLevel } ∧
    Logger.Level l "error".toList = .done { l with level := ErrorLevel } ∧
    (flag ∉ ["debug".toList, "info".toList, "warn".toList, "error".toList] →
      Logger.Level l flag =
        .panic ("log flag ".toList ++ flag ++ " not support(debug,info,warn,error)".toList) l) ∧
    (DebugLevel, InfoLevel, WarnLevel, ErrorLevel) = ((0 : Int), (1 : Int), (2 : Int), (3 : Int)) := by
  have e1 : DebugFlag = "debug".toList := rfl
  have e2 : InfoFlag = "info".toList := rfl
  have e3 : WarnFlag = "warn".toList := rfl
  have e4 : ErrorFlag = "error".toList := rfl
  refine ⟨?_, ?_, ?_, ?_, ?_, ?_, rfl⟩
  · unfold Logger.Level
    rw [e1, e2, e3, e4]
    simp only [List.mem_cons, List.mem_singleton, List.not_mem_nil, or_false]
    by_cases h1 : flag = "debug".toList
    · rw [if_pos h1]; exact ⟨fun _ => Or.inl h1, fun _ => rfl⟩
    rw [if_neg h1]
    by_cases h2 : flag = "info".toList
    · rw [if_pos h2]; exact ⟨fun _ => Or.inr (Or.inl h2), fun _ => rfl⟩
    rw [if_neg h2]
    by_cases h3 : flag = "warn".toList
    · rw [if_pos h3]; exact ⟨fun _ => Or.inr (Or.inr (Or.inl h3)), fun _ => rfl⟩
    rw [if_neg h3]
    by_cases h4 : flag = "error".toList
    · rw [if_pos h4]; exact ⟨fun _ => Or.inr (Or.inr (Or.inr h4)), fun _ => rfl⟩
    rw [if_neg h4]
    constructor
    · intro h; exact absurd h (by simp [Outcome.isDone])
    · rintro (h | h | h | h) <;> contradiction
  · simp [Logger.Level, e1]
  · simp [Logger.Level, e1, e2]
  · simp [Logger.Level, e1, e2, e3]
  · simp [Logger.Level, e1, e2, e3, e4]
  · intro h
    simp only [List.mem_cons, List.mem_singleton, List.not_mem_nil, or_false, not_or] at h
    obtain ⟨h1, h2, h3, h4⟩ := h
    unfold Logger.Level
    rw [e1, e2, e3, e4, if_neg h1, if_neg h2, if_neg h3, if_neg h4]

/-- C8 at the flag `Debug`: the names are case-sensitive. -/
theorem C8_level_witness :
    Logger.Level logger "Debug".toList =
      .panic "log flag Debug not support(debug,info,warn,error)".toList logger :=
  (C8_level logger "Debug".toList).2.2.2.2.2.1 (by decide)

/-! ## C9: the line format -/

/-- C9 (the code departs from its own comment `blue print blue log`). The line
format, byte for byte: for a level among Debug, Info, Warn and Error, a caller
file and a caller line `n >= 0`, `logPrint` hands to `foutput` the bytes
`ESC[<k>;3m` + `[` + c + `|` + date + `|` + time + `] ` + basename(file) + `:` +
decimal(n) + ` ` + m + `ESC[0m`, where c is `D`, `I`, `W`, `E` and k is 36,
32, 33, 31, followed by one line feed when `lineFeed` is set and by nothing
otherwise. Green, yellow and red are the ANSI colours 32, 33 and 31; a debug
line carries 36, which is cyan, and so never begins with the blue sequence
`ESC[34;3m`. The variadic operations set `lineFeed` and the formatted ones do
not, and the outcome is the same whatever the scratch buffer held before. -/
theorem C9_line_format (l : Logger) (w : World) (caller : Option (Bytes × Int))
    (level : Level) (m : Bytes) (lineFeed : Bool) (old : Bytes)
    (hL : level ∈ [DebugLevel, InfoLevel, WarnLevel, ErrorLevel])
    (h0 : 0 ≤ callerLine caller) (h1 : callerLine caller < 9223372036854775808) :
    ∃ line : Bytes,
      Logger.logPrint { l with buf := old } w caller level m lineFeed =
        Logger.foutput { l with buf := scratchOf caller m } w.now.2 line ∧
      line =
        "\x1b[".toList
          ++ (if level = DebugLevel then "36".toList else if level = InfoLevel then "32".toList
              else if level = WarnLevel then "33".toList else "31".toList)
          ++ ";3m".toList
          ++ "[".toList
          ++ (if level = DebugLevel then "D".toList else if level = InfoLevel then "I".toList
              else if level = WarnLevel then "W".toList else "E".toList)
          ++ "|".toList ++ w.dateOf (w.clock w.ticks) ++ "|".toList
          ++ w.timeOf (w.clock w.ticks) ++ "] ".toList ++ filepath.Base (callerFile caller)
          ++ ":".toList ++ Nat.toDigits 10 (callerLine caller).toNat ++ " ".toList ++ m
          ++ "\x1b[0m".toList
          ++ (if lineFeed then "\n".toList else []) ∧
      (level = DebugLevel → ∀ rest, line ≠ "\x1b[34;3m".toList ++ rest) ∧
      (∀ op : EmitOp, l.level ≤ op.level →
        op.run l w caller m = Logger.logPrint l w caller op.level m op.variadic) ∧
      Logger.logPrint { l with buf := old } w caller level m lineFeed =
        Logger.logPrint l w caller level m lineFeed := by
  have hline : lineOf w level caller m lineFeed =
      "\x1b[".toList
          ++ (if level = DebugLevel then "36".toList else if level = InfoLevel then "32".toList
              else if level = WarnLevel then "33".toList else "31".toList)
          ++ ";3m".toList
          ++ "[".toList
          ++ (if level = DebugLevel then "D".toList else if level = InfoLevel then "I".toList
              else if level = WarnLevel then "W".toList else "E".toList)
          ++ "|".toList ++ w.dateOf (w.clock w.ticks) ++ "|".toList
          ++ w.timeOf (w.clock w.ticks) ++ "] ".toList ++ filepath.Base (callerFile caller)
          ++ ":".toList ++ Nat.toDigits 10 (callerLine caller).toNat ++ " ".toList ++ m
          ++ "\x1b[0m".toList
          ++ (if lineFeed then "\n".toList else []) := by
    simp only [List.mem_cons, List.mem_singleton, List.not_mem_nil, or_false] at hL
    rcases hL with rfl | rfl | rfl | rfl <;>
      simp [lineOf, specLine, levelColor, levelChar, blue, green, yellow, red, decimal,
        DebugLevel, InfoLevel, WarnLevel, ErrorLevel]
  refine ⟨lineOf w level caller m lineFeed, ?_, hline, ?_, ?_, ?_⟩
  · exact logPrint_eq _ _ _ _ _ _ hL h0 h1
  · intro hd rest
    rw [hline, if_pos hd]
    simp
  · intro op hle
    have hlt : ¬ op.level < l.level := not_lt.mpr hle
    cases op <;>
      simp only [EmitOp.level] at hlt <;>
      simp only [EmitOp.run, EmitOp.level, EmitOp.variadic, Debug, Debugf, Info, Infof, Warn,
        Warnf, Error, Errorf, hlt, if_false]
  · rw [logPrint_eq _ _ _ _ _ _ hL h0 h1, logPrint_eq _ _ _ _ _ _ hL h0 h1]

/-- C9 at `main.go:120` with a stale scratch buffer, for each level: the bytes
of a debug line begin with `ESC[36;3m`, the cyan sequence. -/
theorem C9_line_format_witness :
    (∃ line,
      Logger.logPrint { logger with buf := "stale".toList } (World.sample [] fun _ => 0)
          (some ("/src/app/main.go".toList, 120)) DebugLevel "disk full".toList true =
        Logger.foutput { logger with buf := " main.go:120 disk full".toList }
          (World.sample [] fun _ => 0).now.2 line ∧
      line = "\x1b[36;3m[D|2006-01-02|15:04:05] main.go:120 disk full\x1b[0m\n".toList) ∧
    (∃ line,
      Logger.logPrint { logger with buf := "stale".toList } (World.sample [] fun _ => 0)
          (some ("/src/app/main.go".toList, 120)) InfoLevel "disk full".toList false =
        Logger.foutput { logger with buf := " main.go:120 disk full".toList }
          (World.sample [] fun _ => 0).now.2 line ∧
      line = "\x1b[32;3m[I|2006-01-02|15:04:05] main.go:120 disk full\x1b[0m".toList) ∧
    (∃ line,
      Logger.logPrint { logger with buf := "stale".toList } (World.sample [] fun _ => 0)
          (some ("/src/app/main.go".toList, 120)) WarnLevel "disk full".toList true =
        Logger.foutput { logger with buf := " main.go:120 disk full".toList }
          (World.sample [] fun _ => 0).now.2 line ∧
      line = "\x1b[33;3m[W|2006-01-02|15:04:05] main.go:120 disk full\x1b[0m\n".toList) ∧
    (∃ line,
      Logger.logPrint { logger with buf := "stale".toList } (World.sample [] fun _ => 0)
          (some ("/src/app/main.go".toList, 120)) ErrorLevel "disk full".toList false =
        Logger.foutput { logger with buf := " main.go:120 disk full".toList }
          (World.sample [] fun _ => 0).now.2 line ∧
      line = "\x1b[31;3m[E|2006-01-02|15:04:05] main.go:120 disk full\x1b[0m".toList) := by
  refine ⟨?_, ?_, ?_, ?_⟩
  · obtain ⟨line, h1, h2, -⟩ := C9_line_format logger (World.sample [] fun _ => 0)
      (some ("/src/app/main.go".toList, 120)) DebugLevel "disk full".toList true "stale".toList
      (by decide) (by decide) (by decide)
    exact ⟨line, h1, h2.trans (by decide)⟩
  · obtain ⟨line, h1, h2, -⟩ := C9_line_format logger (World.sample [] fun _ => 0)
      (some ("/src/app/main.go".toList, 120)) InfoLevel "disk full".toList false "stale".toList
      (by decide) (by decide) (by decide)
    exact ⟨line, h1, h2.trans (by decide)⟩
  · obtain ⟨line, h1, h2, -⟩ := C9_line_format logger (World.sample [] fun _ => 0)
      (some ("/src/app/main.go".toList, 120)) WarnLevel "disk full".toList true "stale".toList
      (by decide) (by decide) (by decide)
    exact ⟨line, h1, h2.trans (by decide)⟩
  · obtain ⟨line, h1, h2, -⟩ := C9_line_format logger (World.sample [] fun _ => 0)
      (some ("/src/app/main.go".toList, 120)) ErrorLevel "disk full".toList false "stale".toList
      (by decide) (by decide) (by decide)
    exact ⟨line, h1, h2.trans (by decide)⟩

/-! ## C10: two writes in time mode -/

/-- C10 as the code has it. In time mode with interval `I`, a file path
configured and an open target (fewer than 2^63 - 4 existing paths, no error on
opening), two consecutive writes both return, and their messages go to
different targets exactly when the second write rotates, that is when its
clock reading `t2` is past `r1 + I`, where `r1` is rollState after the first
write: the reading taken by the first write's rotation if it rotated, the
earlier rollState otherwise. So if the first write rotated at `t1` (and the
clock did not move during it), the targets differ when `t2 - t1 > I` and are
the same when `t2 - t1 <= I`. -/
theorem C10_time_spacing (l : Logger) (w : World) (m1 m2 : Bytes) (hinit : l.init = true)
    (hmode : l.rolling = TimeRolling) (hdir : l.dir ≠ []) (hpath : l.path ≠ [])
    (htarget : targetOpen l w) (hsize : w.existing.length < 9223372036854775804)
    (hopen : ∀ p, w.openErr p = none) :
    ∃ l1 w1 l2 w2,
      Logger.foutput l w m1 = .done (l1, w1) ∧ Logger.foutput l1 w1 m2 = .done (l2, w2) ∧
      writesOf w2.events = writesOf w.events ++ [(l1.output, m1), (l2.output, m2)] ∧
      l1.record =
        (if wrapInt64 (l.record + l.interval) < w.clock w.ticks then w.clock (w.ticks + 1)
          else l.record) ∧
      (l2.output ≠ l1.output ↔ wrapInt64 (l1.record + l.interval) < w1.clock w1.ticks) ∧
      (wrapInt64 (l.record + l.interval) < w.clock w.ticks →
        w.clock (w.ticks + 1) = w.clock w.ticks →
        -9223372036854775808 ≤ w.clock w.ticks + l.interval →
        w.clock w.ticks + l.interval < 9223372036854775808 →
        (l2.output ≠ l1.output ↔ w1.clock w1.ticks - w.clock w.ticks > l.interval)) := by
  obtain ⟨l1, w1, h1, hev1, hoe1, hck1, ht1, hlen1, hrot1, hno1⟩ :=
    time_step l w m1 hinit hmode hdir hpath htarget (by omega) hopen
  have hfields : l1.init = true ∧ l1.rolling = TimeRolling ∧ l1.dir = l.dir ∧ l1.path = l.path ∧
      l1.interval = l.interval := by
    by_cases hc : wrapInt64 (l.record + l.interval) < w.clock w.ticks
    · obtain ⟨p, -, hp⟩ := hrot1 hc
      rw [hp]; exact ⟨rfl, hmode, rfl, rfl, rfl⟩
    · rw [hno1 hc]; exact ⟨hinit, hmode, rfl, rfl, rfl⟩
  obtain ⟨hinit1, hmode1, hdir1, hpath1, hint1⟩ := hfields
  obtain ⟨l2, w2, h2, hev2, -, -, -, -, hrot2, hno2⟩ :=
    time_step l1 w1 m2 hinit1 hmode1 (by rw [hdir1]; exact hdir) (by rw [hpath1]; exact hpath)
      ht1 (by omega) (by rw [hoe1]; exact hopen)
  have hrec : l1.record =
      (if wrapInt64 (l.record + l.interval) < w.clock w.ticks then w.clock (w.ticks + 1)
        else l.record) := by
    by_cases hc : wrapInt64 (l.record + l.interval) < w.clock w.ticks
    · obtain ⟨p, -, hp⟩ := hrot1 hc
      rw [if_pos hc, hp]
    · rw [if_neg hc, hno1 hc]
  have hdiff : l2.output ≠ l1.output ↔
      wrapInt64 (l1.record + l.interval) < w1.clock w1.ticks := by
    rw [← hint1]
    constructor
    · intro hne
      by_contra hc
      exact hne (by rw [hno2 hc])
    · intro hc heq
      obtain ⟨p, hfree, hp⟩ := hrot2 hc
      have hout : l2.output = .file p := by rw [hp]
      exact hfree (ht1.2 p (by rw [← heq, hout]))
  refine ⟨l1, w1, l2, w2, h1, h2, ?_, hrec, hdiff, ?_⟩
  · rw [hev2, hev1]; simp
  · intro hc hsame hlo hhi
    rw [hdiff, hrec, if_pos hc, hsame, wrapInt64_of_range hlo hhi]
    constructor <;> intro h <;> omega

/-- C10 with interval 10 and `tmp/test.log` open: a first write rotates at the
clock value 100, a second one at 111 rotates again, so the two messages are in
different files. -/
theorem C10_time_spacing_witness :
    ∃ l1 w1 l2 w2,
      Logger.foutput (openLogger TimeRolling 10 0)
          (World.sample ["tmp/test.log".toList] fun n => if n ≤ 1 then 100 else 111)
          "a".toList = .done (l1, w1) ∧
        Logger.foutput l1 w1 "b".toList = .done (l2, w2) ∧
        writesOf w2.events = [(l1.output, "a".toList), (l2.output, "b".toList)] := by
  obtain ⟨l1, w1, l2, w2, h1, h2, h3, -⟩ :=
    C10_time_spacing (openLogger TimeRolling 10 0)
      (World.sample ["tmp/test.log".toList] fun n => if n ≤ 1 then 100 else 111)
      "a".toList "b".toList rfl rfl (by decide) (by decide)
      ⟨by decide, fun q hq => by
        have : q = "tmp/test.log".toList := by
          simpa [openLogger, fileLogger] using hq.symm
        rw [this]; decide⟩
      (by decide) (fun _ => rfl)
  exact ⟨l1, w1, l2, w2, h1, h2, h3⟩

/-- C10 as stated fails in both directions, with interval 10 and
`tmp/test.log` open. (a) rollState 0, writes at the clock values 9 and 11: they
are 2 apart, yet the second one rotates and the messages are in different
files. (b) rollState -100, writes at 0 and 10: the first rotates at 0, the
second is 10 later, yet it does not rotate and both messages are in
`tmp/test_1.log`. -/
theorem C10_counterexample :
    ((11 : Int) - 9 < 10 ∧
      writesOf ( Logger.foutput
        ( Logger.foutput (openLogger TimeRolling 10 0)
          (World.sample ["tmp/test.log".toList] fun n => if n = 0 then 9 else 11)
          "a".toList).state.1
        ( Logger.foutput (openLogger TimeRolling 10 0)
          (World.sample ["tmp/test.log".toList] fun n => if n = 0 then 9 else 11)
          "a".toList).state.2
        "b".toList).state.2.events =
      [(.file "tmp/test.log".toList, "a".toList), (.file "tmp/test_1.log".toList, "b".toList)]) ∧
    ((10 : Int) - 0 ≥ 10 ∧
      writesOf ( Logger.foutput
        ( Logger.foutput (openLogger TimeRolling 10 (-100))
          (World.sample ["tmp/test.log".toList] fun n => if n ≤ 1 then 0 else 10)
          "a".toList).state.1
        ( Logger.foutput (openLogger TimeRolling 10 (-100))
          (World.sample ["tmp/test.log".toList] fun n => if n ≤ 1 then 0 else 10)
          "a".toList).state.2
        "b".toList).state.2.events =
      [(.file "tmp/test_1.log".toList, "a".toList), (.file "tmp/test_1.log".toList, "b".toList)]) := by
  refine ⟨⟨by decide, by decide⟩, ⟨by decide, by decide⟩⟩

/-! ## C11: the first write opens the file of the path -/

/-- C11 (amended). For every path `p` that does not end in a separator and
whose last element, with the extension removed, is neither empty nor `.` nor
`..`, `LogFile(p)` returns, and `Join(directory, baseName) + extension` is then
`filepath.Clean(p)`. On a logger that has not yet written and has no rolling
mode, when the operating system opens what it is asked to, the first write
opens that file (appending when it exists, creating it otherwise), makes it the
target and writes the message to it. -/
theorem C11_first_file_round_trip (l : Logger) (w : World) (p msg : Bytes)
    (hinit : l.init = false) (hmode : l.rolling = noRolling)
    (hend : p.getLast? ≠ some '/')
    (hname : strings.TrimSuffix (filepath.Base p) (path.Ext (filepath.Base p)) ∉
      [[], ['.'], ['.', '.']])
    (hopen : ∀ q, w.openErr q = none) :
    ∃ l1, Logger.LogFile l p = .done l1 ∧
      filepath.Join l1.dir l1.path ++ l1.ext = filepath.Clean p ∧
      ∃ w2, Logger.foutput l1 w msg =
          .done ({ l1 with output := .file (filepath.Clean p), init := true }, w2) ∧
        (if filepath.Clean p ∈ w.existing then Event.openAppend (filepath.Clean p)
          else Event.create (filepath.Clean p)) ∈ w2.events ∧
        writesOf w2.events = writesOf w.events ++ [(.file (filepath.Clean p), msg)] := by
  obtain ⟨hslash, hjoin⟩ := join_dir_base p hend hname
  have hlf := logFile_eq l p
  rw [if_neg hslash] at hlf
  have hn : strings.TrimSuffix (filepath.Base p) (path.Ext (filepath.Base p)) ≠ [] :=
    fun h => hname (by simp [h])
  generalize hl1 : ({ l with dir := filepath.Dir p, path := strings.TrimSuffix (filepath.Base p) (path.Ext (filepath.Base p)), ext := path.Ext (filepath.Base p) } : Logger) = l1 at hlf
  have hd1 : l1.dir = filepath.Dir p := by rw [← hl1]
  have hp1 : l1.path = strings.TrimSuffix (filepath.Base p) (path.Ext (filepath.Base p)) := by
    rw [← hl1]
  have he1 : l1.ext = path.Ext (filepath.Base p) := by rw [← hl1]
  have hi1 : l1.init = false := by rw [← hl1]; exact hinit
  have hm1 : l1.rolling = noRolling := by rw [← hl1]; exact hmode
  have hj1 : filepath.Join l1.dir l1.path ++ l1.ext = filepath.Clean p := by
    rw [hd1, hp1, he1]; exact hjoin
  refine ⟨l1, hlf, hj1, ?_⟩
  have htp : Logger.targetPath l1 w = some (filepath.Clean p) := by
    rw [targetPath_noRolling l1 w hm1, hj1]
  obtain ⟨w1, hopen1, hev1, hwr1⟩ := logfile_opens w (filepath.Clean p) hopen
  have hini : Logger.initialize l1 w =
      .done ({ l1 with output := .file (filepath.Clean p), init := true }, w1) := by
    rw [initialize_of_path l1 w _ (by rw [hd1]; exact dir_ne_nil p) (by rw [hp1]; exact hn) htp,
      hopen1]
    simp only [opened_noRolling l1 w1 _ hm1]
  obtain ⟨w2, hw2, hwr2, _⟩ := outputWrite_done
    { l1 with output := .file (filepath.Clean p), init := true } w1 msg (by simp)
  have hkeep := outputWrite_keeps
    { l1 with output := .file (filepath.Clean p), init := true } w1 msg _ hev1
  rw [hw2] at hkeep
  refine ⟨w2, ?_, hkeep, ?_⟩
  · rw [foutput_first_none l1 w msg hi1 hm1, hini]
    exact hw2
  · rw [hwr2, hwr1]

/-- C11 at `"./tmp/test.log"`: the cleaned path is `tmp/test.log`, and on the
default logger the first write creates that file and writes the message to it. -/
theorem C11_first_file_round_trip_witness :
    filepath.Clean "./tmp/test.log".toList = "tmp/test.log".toList ∧
    ∃ l1, Logger.LogFile logger "./tmp/test.log".toList = .done l1 ∧
      filepath.Join l1.dir l1.path ++ l1.ext = filepath.Clean "./tmp/test.log".toList ∧
      ∃ w2, Logger.foutput l1 (World.sample [] fun _ => 0) "x".toList =
          .done ({ l1 with output := .file (filepath.Clean "./tmp/test.log".toList), init := true }, w2) ∧
        (if filepath.Clean "./tmp/test.log".toList ∈ (World.sample [] fun _ => 0).existing then
            Event.openAppend (filepath.Clean "./tmp/test.log".toList)
          else Event.create (filepath.Clean "./tmp/test.log".toList)) ∈ w2.events ∧
        writesOf w2.events = writesOf (World.sample [] fun _ => 0).events ++
          [(.file (filepath.Clean "./tmp/test.log".toList), "x".toList)] :=
  ⟨by decide, C11_first_file_round_trip logger (World.sample [] fun _ => 0)
    "./tmp/test.log".toList "x".toList rfl rfl (by decide) (by decide) (fun _ => rfl)⟩

/-- C11 as stated fails. `LogFile(".log")` returns, and the first write then
goes to standard output: no file is opened. `LogFile("a/")` returns with
directory `a` and base name `a`, so that the first write creates `a/a`, while
`a/` cleaned is `a`. `LogFile("a/..b")` makes the first write create `a.b`. -/
theorem C11_counterexample :
    (∃ l1, Logger.LogFile logger ".log".toList = .done l1 ∧
      ( Logger.foutput l1 (World.sample [] fun _ => 0) "x".toList).isDone = true ∧
      ( Logger.foutput l1 (World.sample [] fun _ => 0) "x".toList).state.1.output = .stdout ∧
      ( Logger.foutput l1 (World.sample [] fun _ => 0) "x".toList).state.2.events =
        [.write .stdout "x".toList]) ∧
    (∃ l1, Logger.LogFile logger "a/".toList = .done l1 ∧
      filepath.Clean "a/".toList = "a".toList ∧
      ( Logger.foutput l1 (World.sample [] fun _ => 0) "x".toList).isDone = true ∧
      ( Logger.foutput l1 (World.sample [] fun _ => 0) "x".toList).state.2.events =
        [.mkdirAll "a".toList, .create "a/a".toList, .write (.file "a/a".toList) "x".toList]) ∧
    (∃ l1, Logger.LogFile logger "a/..b".toList = .done l1 ∧
      filepath.Clean "a/..b".toList = "a/..b".toList ∧
      ( Logger.foutput l1 (World.sample [] fun _ => 0) "x".toList).isDone = true ∧
      ( Logger.foutput l1 (World.sample [] fun _ => 0) "x".toList).state.2.events =
        [.mkdirAll ".".toList, .create "a.b".toList, .write (.file "a.b".toList) "x".toList]) := by
  refine ⟨⟨_, rfl, ?_⟩, ⟨_, rfl, ?_⟩, ⟨_, rfl, ?_⟩⟩ <;> decide

/-! ## C12: no rotation without a rolling mode -/

/-- C12. Without a rolling mode the logger never rotates. The first write (init
flag unset) runs `initialize` once and then writes: when it returns, the init
flag is set, the target is open and rollState is untouched, and it does return
when the operating system opens the file; the target is the configured file,
or standard output when no file path is configured. Every later write (init
flag set) is the bare `Write`: it leaves the whole logger, target, init flag
and rollState included, as it was, whatever the clock and the message, also
when `LogFile` was called in between. -/
theorem C12_none_never_rotates (l : Logger) (w : World) (msg : Bytes)
    (hmode : l.rolling = noRolling) :
    (l.init = false →
      Logger.foutput l w msg =
        ( Logger.initialize l w).andThen id (fun lw => Logger.outputWrite lw.1 lw.2 msg) ∧
      (∀ l' w', Logger.foutput l w msg = .done (l', w') →
        l'.init = true ∧ l'.output ≠ Writer.nil ∧ l'.record = l.record ∧
          l'.rolling = noRolling) ∧
      ((∀ p, w.openErr p = none) →
        ∃ w', Logger.foutput l w msg =
          .done ({ l with
            output := if l.dir ≠ [] ∧ l.path ≠ [] then
                .file (filepath.Join l.dir l.path ++ l.ext)
              else .stdout,
            init := true }, w'))) ∧
    (l.init = true →
      Logger.foutput l w msg = Logger.outputWrite l w msg ∧
      ( Logger.foutput l w msg).state.1 = l ∧
      ∀ p l2, Logger.LogFile l p = .done l2 →
        ( Logger.foutput l2 w msg).state.1 = l2 ∧ l2.output = l.output ∧ l2.init = true ∧
          l2.record = l.record ∧ l2.rolling = noRolling) := by
  constructor
  · intro hinit
    have hfo := foutput_first_none l w msg hinit hmode
    refine ⟨hfo, ?_, ?_⟩
    · intro l' w' hdone
      rw [hfo] at hdone
      rcases initialize_noRolling l w hmode with hsame | ⟨out, w1, hout, hi⟩
      · cases hi : Logger.initialize l w with
        | done s =>
          rw [hi] at hsame hdone
          simp only [Outcome.state] at hsame
          simp only [Outcome.andThen] at hdone
          have h1 := outputWrite_logger s.1 s.2 msg
          have h2 := outputWrite_isDone s.1 s.2 msg
          rw [hdone] at h1 h2
          simp only [Outcome.state, Outcome.isDone] at h1 h2
          have hnil : s.1.output ≠ Writer.nil := by simpa using h2.symm
          have hinit' := initialize_init l w
          rw [hi] at hinit'
          rw [h1]
          exact ⟨hinit' s rfl, hnil, by rw [hsame], by rw [hsame]; exact hmode⟩
        | panic m s => rw [hi] at hdone; simp [Outcome.andThen] at hdone
        | exit c s => rw [hi] at hdone; simp [Outcome.andThen] at hdone
        | hang s => rw [hi] at hdone; simp [Outcome.andThen] at hdone
      · rw [hi] at hdone
        simp only [Outcome.andThen] at hdone
        have h1 := outputWrite_logger { l with output := out, init := true } w1 msg
        rw [hdone] at h1
        simp only [Outcome.state] at h1
        rw [h1]
        exact ⟨rfl, hout, rfl, hmode⟩
    · intro hopen
      obtain ⟨w1, hi⟩ := initialize_noRolling_done l w hmode hopen
      rw [hfo, hi]
      simp only [Outcome.andThen]
      obtain ⟨w', hw', -⟩ := outputWrite_done
        { l with
          output := if l.dir ≠ [] ∧ l.path ≠ [] then
              .file (filepath.Join l.dir l.path ++ l.ext)
            else .stdout,
          init := true } w1 msg (by simp only; split <;> simp)
      exact ⟨w', hw'⟩
  · intro hinit
    have hfo := foutput_none l w msg hinit hmode
    refine ⟨hfo, by rw [hfo]; exact outputWrite_logger l w msg, ?_⟩
    intro p l2 hl2
    rw [logFile_eq] at hl2
    split at hl2
    · simp at hl2
    · simp only [Outcome.done.injEq] at hl2
      have hinit2 : l2.init = true := by rw [← hl2]; exact hinit
      have hmode2 : l2.rolling = noRolling := by rw [← hl2]; exact hmode
      refine ⟨?_, by rw [← hl2], hinit2, by rw [← hl2], hmode2⟩
      rw [foutput_none l2 w msg hinit2 hmode2]
      exact outputWrite_logger l2 w msg

/-- C12 at the default logger: the first `Write` goes to standard output and
the init flag is set. -/
theorem C12_none_never_rotates_witness :
    ∃ w', Logger.foutput logger (World.sample [] fun _ => 0) "x".toList =
      .done ({ logger with output := .stdout, init := true }, w') :=
  ((C12_none_never_rotates logger (World.sample [] fun _ => 0) "x".toList rfl).1 rfl).2.2
    (fun _ => rfl)

/-! ## C13: the interval invariant -/

/-- C13 (the code breaks the invariant). `LogFile("./tmp/test.log")` followed
by `Rolling("time", 0)` reaches a state with rolling mode Time and
rollInterval 0: `Rolling` stores the mode before it checks the interval, and
panics with `invalid interval value` before it stores the interval. -/
theorem C13_interval_invariant_broken :
    Reachable { fileLogger with rolling := TimeRolling } ∧
      ({ fileLogger with rolling := TimeRolling } : Logger).rolling ≠ noRolling ∧
      ¬ ({ fileLogger with rolling := TimeRolling } : Logger).interval > 0 ∧
      Logger.LogFile logger "./tmp/test.log".toList = .done fileLogger ∧
      Logger.Rolling fileLogger (World.sample [] fun _ => 0) "time".toList 0 =
        .panic "invalid interval value".toList
          ({ fileLogger with rolling := TimeRolling }, World.sample [] fun _ => 0) := by
  have h1 : Logger.LogFile logger "./tmp/test.log".toList = .done fileLogger := by decide
  have h2 : Logger.Rolling fileLogger (World.sample [] fun _ => 0) "time".toList 0 =
      .panic "invalid interval value".toList
        ({ fileLogger with rolling := TimeRolling }, World.sample [] fun _ => 0) := rfl
  refine ⟨?_, by decide, by decide, h1, h2⟩
  have r1 : Reachable fileLogger := by
    have := Reachable.logFile "./tmp/test.log".toList Reachable.start
    rw [h1] at this
    exact this
  have r2 := Reachable.rolling (World.sample [] fun _ => 0) "time".toList 0 r1
  rw [h2] at r2
  exact r2

/-! ## C14: file boundaries in size mode -/

/-- C14. Size-mode file boundaries: in size mode with a file path configured
and interval `I > 0`, from an open target with rollState 0 (no error on
opening, sizes within `int64`), every sequence of writes returns, and its
`Write` calls fill one target after the other, each message whole and each
target used for one stretch only, starting with the target the logger held:
rollState is the number of bytes written to the current target, every target
rotated away holds more than `I` bytes and at most `I` without its last
message, and the message after it, the one whose write found rollState above
`I`, is the first content of the next target. -/
theorem C14_size_boundaries (l : Logger) (w : World) (msgs : List Bytes)
    (hinit : l.init = true) (hmode : l.rolling = SizeRolling) (hdir : l.dir ≠ [])
    (hpath : l.path ≠ []) (htarget : targetOpen l w) (hrec : l.record = 0)
    (hI : 0 < l.interval)
    (hlen : ∀ m ∈ msgs, l.interval + (m.length : Int) < 9223372036854775808)
    (hsize : w.existing.length + 2 * msgs.length < 9223372036854775806)
    (hopen : ∀ p, w.openErr p = none) :
    ∃ l' w' closed cur,
      writeAll l w msgs = .done (l', w') ∧
      writesOf w'.events = writesOf w.events ++ writesInto (closed ++ [(l'.output, cur)]) ∧
      msgs = messagesOf (closed ++ [(l'.output, cur)]) ∧
      l'.record = byteCount cur ∧
      ((closed ++ [(l'.output, cur)]).map Prod.fst).Nodup ∧
      ((closed ++ [(l'.output, cur)]).map Prod.fst).head? = some l.output ∧
      (∀ b ∈ closed, l.interval < byteCount b.2 ∧
        ∃ ini last, b.2 = ini ++ [last] ∧ byteCount ini ≤ l.interval) ∧
      (cur = [] ∨ ∃ ini last, cur = ini ++ [last] ∧ byteCount ini ≤ l.interval) := by
  obtain ⟨l', w', closed, cur, hrun, inv⟩ :=
    size_run l w hinit hmode hdir hpath htarget hrec hI hopen msgs hlen hsize
  exact ⟨l', w', closed, cur, hrun, inv.writes, inv.messages, inv.record, inv.distinct, inv.first,
    inv.full, inv.current⟩

/-- C14 at interval 10 with `tmp/test.log` open and empty: the writes of a
message of 12 bytes and of `abc`. -/
theorem C14_size_boundaries_witness :
    ∃ l' w' closed cur,
      writeAll (openLogger SizeRolling 10 0) (World.sample ["tmp/test.log".toList] fun _ => 0)
          ["hello world!".toList, "abc".toList] = .done (l', w') ∧
        ["hello world!".toList, "abc".toList] = messagesOf (closed ++ [(l'.output, cur)]) ∧
        l'.record = byteCount cur ∧
        (∀ b ∈ closed, (10 : Int) < byteCount b.2) := by
  obtain ⟨l', w', closed, cur, h1, -, h3, h4, -, -, h7, -⟩ :=
    C14_size_boundaries (openLogger SizeRolling 10 0)
      (World.sample ["tmp/test.log".toList] fun _ => 0)
      ["hello world!".toList, "abc".toList] rfl rfl (by decide) (by decide)
      ⟨by decide, fun q hq => by
        have : q = "tmp/test.log".toList := by
          simpa [openLogger, fileLogger] using hq.symm
        rw [this]; decide⟩
      rfl (by decide) (by decide) (by decide) (fun _ => rfl)
  exact ⟨l', w', closed, cur, h1, h3, h4, fun b hb => (h7 b hb).1⟩

/-! ## C15: what a configuration call changes -/

/-- C15. Configuration frame: a `Level` call that returns changes only the
level, a `LogFile` call that returns only directory, base name and extension,
a `Rolling` call that returns only rolling mode and interval; and no
configuration call, returning or not, changes the output target, the init flag
or rollState, so rollState is not reset when the rolling mode is switched. -/
theorem C15_configuration_frame (l : Logger) (w : World) (flag p : Bytes) (interval : Int) :
    (∀ l', Logger.Level l flag = .done l' → l' = { l with level := l'.level }) ∧
    (∀ l', Logger.LogFile l p = .done l' →
      l' = { l with dir := l'.dir, path := l'.path, ext := l'.ext }) ∧
    (∀ l' w', Logger.Rolling l w flag interval = .done (l', w') →
      l' = { l with rolling := l'.rolling, interval := l'.interval }) ∧
    (( Logger.Level l flag).state.output = l.output ∧
      ( Logger.Level l flag).state.init = l.init ∧
      ( Logger.Level l flag).state.record = l.record) ∧
    (( Logger.LogFile l p).state.output = l.output ∧
      ( Logger.LogFile l p).state.init = l.init ∧
      ( Logger.LogFile l p).state.record = l.record) ∧
    (( Logger.Rolling l w flag interval).state.1.output = l.output ∧
      ( Logger.Rolling l w flag interval).state.1.init = l.init ∧
      ( Logger.Rolling l w flag interval).state.1.record = l.record) := by
  refine ⟨?_, ?_, ?_, ?_, ?_, ?_⟩
  · intro l' h
    unfold Logger.Level at h
    split_ifs at h <;> cases h <;> rfl
  · intro l' h
    rw [logFile_eq] at h
    split_ifs at h
    cases h; rfl
  · intro l' w' h
    rw [rolling_eq] at h
    split_ifs at h <;> cases h <;> rfl
  · unfold Logger.Level
    split_ifs <;> exact ⟨rfl, rfl, rfl⟩
  · rw [logFile_eq]
    split_ifs <;> exact ⟨rfl, rfl, rfl⟩
  · rw [rolling_eq]
    split_ifs <;> exact ⟨rfl, rfl, rfl⟩

/-- C15 at a size-mode logger with 11 bytes counted that is switched to time
mode: rollState is still 11. -/
theorem C15_configuration_frame_witness :
    ∀ l' w', Logger.Rolling (openLogger SizeRolling 10 11) (World.sample [] fun _ => 0)
        "time".toList 60 = .done (l', w') →
      l' = { openLogger SizeRolling 10 11 with rolling := l'.rolling, interval := l'.interval } :=
  (C15_configuration_frame (openLogger SizeRolling 10 11) (World.sample [] fun _ => 0)
    "time".toList [] 60).2.2.1

/-! ## C16: when `LogFile` fails -/

/-- C16. `LogFile(p)` fails exactly when `p` is a non-empty string made of `/`
only, the inputs whose last path element is the separator itself; for every
other string it returns, the empty string and `.log` included. -/
theorem C16_logfile_fails_iff (l : Logger) (p : Bytes) :
    ((Logger.LogFile l p).isDone = false ↔ (p ≠ [] ∧ ∀ c ∈ p, c = '/')) ∧
    ((p ≠ [] ∧ ∀ c ∈ p, c = '/') ↔ filepath.Base p = "/".toList) ∧
    ((p ≠ [] ∧ ∀ c ∈ p, c = '/') → Logger.LogFile l p = .panic "invalid path".toList l) ∧
    (∃ l', Logger.LogFile l "".toList = .done l') ∧
    (∃ l', Logger.LogFile l ".log".toList = .done l') := by
  have key := logFile_fails_iff p
  refine ⟨?_, (base_eq_slash_iff p).symm, ?_, ?_, ?_⟩
  · rw [logFile_eq, ← key]
    by_cases h : '/' ∈ filepath.Base p
    · simp [h, Outcome.isDone]
    · simp [h, Outcome.isDone]
  · intro h
    rw [logFile_eq, if_pos (key.mpr h)]
  · exact ⟨_, by rw [logFile_eq, if_neg (by decide)]⟩
  · exact ⟨_, by rw [logFile_eq, if_neg (by decide)]⟩

/-- C16 at the path `//`. -/
theorem C16_logfile_fails_iff_witness :
    Logger.LogFile logger "//".toList = .panic "invalid path".toList logger :=
  (C16_logfile_fails_iff logger "//".toList).2.2.1 (by decide)

/-! ## C17: `itoa` -/

/-- C17. For every buffer `b` and every `i` with `0 <= i < 2^63`,
`itoa(&b, i, -1)` stays inside its scratch array (it returns) and leaves `b`
followed by the canonical decimal digits of `i`: digits only, at most 19 of
them, `0` for 0 and no leading zero otherwise, and read as a decimal number
they give `i` back. -/
theorem C17_itoa_decimal (b : Bytes) (i : Int) (h0 : 0 ≤ i) (h1 : i < 9223372036854775808) :
    ∃ digits : Bytes,
      itoa b i (-1) = some (b ++ digits) ∧
      digits = decimal i.toNat ∧
      (parseDecimal digits : Int) = i ∧
      (∀ c ∈ digits, c.isDigit = true) ∧
      digits ≠ [] ∧ digits.length ≤ 19 ∧
      (i = 0 → digits = "0".toList) ∧
      (0 < i → digits.head? ≠ some '0') := by
  obtain ⟨n, rfl⟩ : ∃ n : Nat, i = (n : Int) := ⟨i.toNat, (Int.toNat_of_nonneg h0).symm⟩
  have hn : n < 9223372036854775808 := by omega
  refine ⟨decimal n, itoa_decimal b n hn, by simp, ?_, decimal_isDigit n, decimal_ne_nil n,
    decimal_length n hn, ?_, ?_⟩
  · rw [parseDecimal_decimal]
  · intro h
    have : n = 0 := by omega
    rw [this]; exact decimal_zero
  · intro h
    exact decimal_head n (by omega)

/-- C17 at the buffer ` main.go:` and the number 1234567. -/
theorem C17_itoa_decimal_witness :
    ∃ digits : Bytes,
      itoa " main.go:".toList 1234567 (-1) = some (" main.go:".toList ++ digits) ∧
      digits = decimal 1234567 ∧ (parseDecimal digits : Int) = 1234567 := by
  obtain ⟨digits, h1, h2, h3, -⟩ :=
    C17_itoa_decimal " main.go:".toList 1234567 (by decide) (by decide)
  exact ⟨digits, h1, h2, h3⟩

end Golog
